import Mathlib

/-!
# simdhwyhash: the scalar kernel of HighwayHash

A shallow embedding of `src/src/simdhwyhash.cc` as compiled for the
`HWY_SCALAR` target (one `uint64_t` lane per vector, logical vectors held in
`Vec2`/`Vec4` tuples), of the C entry points at the end of that file, and of
the scalar reference contained in `src/tests/simdhwyhash_test.cc`.

Machine integers are natural numbers; every operation that can leave the
range of its C type reduces modulo `2^64` (or `2^32`).  A `const uint8_t*`
is the list of bytes found from that address on, so `ptr + k` is
`ptr.drop k` and `ptr[i]` is `ptr.getD i 0`.
-/

namespace simdhwyhash

/-! ## Data model -/

/-- A `uint64_t[4]` array, as found four times in `SimdHwyHashState`. -/
structure U64x4 where
  a0 : Nat
  a1 : Nat
  a2 : Nat
  a3 : Nat
deriving DecidableEq, Repr

/-- Read `arr[i]`. -/
def U64x4.get (arr : U64x4) (i : Nat) : Nat :=
  match i with
  | 0 => arr.a0
  | 1 => arr.a1
  | 2 => arr.a2
  | 3 => arr.a3
  | _ => 0

/-- Write `arr[i] = x`. -/
def U64x4.set (arr : U64x4) (i : Nat) (x : Nat) : U64x4 :=
  match i with
  | 0 => { arr with a0 := x }
  | 1 => { arr with a1 := x }
  | 2 => { arr with a2 := x }
  | 3 => { arr with a3 := x }
  | _ => arr

/-- The record `SimdHwyHashState` of `simdhwyhash.h`. -/
structure SimdHwyHashState where
  v0 : U64x4
  v1 : U64x4
  mul0 : U64x4
  mul1 : U64x4
deriving DecidableEq, Repr

/-- The tuple `Vec2<HighwayHashDU64>` of two one-lane vectors. -/
structure Vec2 where
  get0 : Nat
  get1 : Nat
deriving DecidableEq, Repr

/-- The tuple `Vec4<HighwayHashDU64>` of four one-lane vectors. -/
structure Vec4 where
  get0 : Nat
  get1 : Nat
  get2 : Nat
  get3 : Nat
deriving DecidableEq, Repr

/-- The four vector registers `v0, v1, mul0, mul1` that the kernels keep in
local variables and pass by reference. -/
structure Regs (V : Type) where
  v0 : V
  v1 : V
  mul0 : V
  mul1 : V
deriving DecidableEq, Repr

/-! ## One-lane `uint64_t` vector operations of the scalar target -/

def Add (a b : Nat) : Nat := (a + b) % 2 ^ 64

def Mul (a b : Nat) : Nat := (a * b) % 2 ^ 64

def And (a b : Nat) : Nat := a &&& b

def Or (a b : Nat) : Nat := a ||| b

def Xor (a b : Nat) : Nat := a ^^^ b

def Or3 (a b c : Nat) : Nat := Or a (Or b c)

def Xor3 (a b c : Nat) : Nat := Xor a (Xor b c)

/-- The operation `OrAnd(o, a1, a2) = o | (a1 & a2)`. -/
def OrAnd (o a1 a2 : Nat) : Nat := Or o (And a1 a2)

def ShiftLeft (kShiftAmt : Nat) (v : Nat) : Nat := (v <<< kShiftAmt) % 2 ^ 64

def ShiftRight (kShiftAmt : Nat) (v : Nat) : Nat := v >>> kShiftAmt

def RotateRight (kBits : Nat) (v : Nat) : Nat :=
  (v >>> kBits) ||| ((v <<< (64 - kBits)) % 2 ^ 64)

/-- The number of lanes `Lanes(HighwayHashDU64())` of the scalar target. -/
def Lanes : Nat := 1

def Create2 (x0 x1 : Nat) : Vec2 := ⟨x0, x1⟩

def Create4 (x0 x1 x2 x3 : Nat) : Vec4 := ⟨x0, x1, x2, x3⟩

/-! ## Reset -/

def kMul0 : U64x4 :=
  ⟨0xdbe6d5d5fe4cce2f, 0xa4093822299f31d0, 0x13198a2e03707344, 0x243f6a8885a308d3⟩

def kMul1 : U64x4 :=
  ⟨0x3bd39e10cb0ef593, 0xc0acf169b5f18a8c, 0xbe5466cf34e90c6c, 0x452821e638d01377⟩

/-- One iteration of the loop of `ResetHwyHashState`, at index `i`. -/
def ResetHwyHashState.body (key : U64x4) (state : SimdHwyHashState) (i : Nat) :
    SimdHwyHashState :=
  let v_key := key.get i
  let v_mul0 := kMul0.get i
  let v_mul1 := kMul1.get i
  let v0 := Xor v_key v_mul0
  let v_key_rot32 := RotateRight 32 v_key
  let v1 := Xor v_key_rot32 v_mul1
  let state := { state with mul0 := state.mul0.set i v_mul0 }
  let state := { state with mul1 := state.mul1.set i v_mul1 }
  let state := { state with v0 := state.v0.set i v0 }
  { state with v1 := state.v1.set i v1 }

/-- The loop `for (i = 0; i < 4; i += lanes_per_u64_vec)`, with `n` iterations
left to run. -/
def ResetHwyHashState.loop (key : U64x4) (lanes_per_u64_vec : Nat) :
    Nat → Nat → SimdHwyHashState → SimdHwyHashState
  | 0, _, state => state
  | n + 1, i, state =>
    if i < 4 then
      ResetHwyHashState.loop key lanes_per_u64_vec n (i + lanes_per_u64_vec)
        (ResetHwyHashState.body key state i)
    else state

def ResetHwyHashState (state : SimdHwyHashState) (key : U64x4) : SimdHwyHashState :=
  ResetHwyHashState.loop key Lanes 4 0 state

/-! ## Loads and stores -/

def CombineToAtLeast4LaneVec (lo hi : Vec2) : Vec4 :=
  Create4 lo.get0 lo.get1 hi.get0 hi.get1

def GetLowerAtLeast2LaneVec (v : Vec4) : Vec2 := Create2 v.get0 v.get1

def GetUpperAtLeast2LaneVec (v : Vec4) : Vec2 := Create2 v.get2 v.get3

/-- The value of a `uint64_t` whose eight bytes were copied from `p[0..8)`, as
seen after the byte reversal applied on big-endian hosts: the little-endian
value of the eight bytes. -/
def LoadU64 (p : List Nat) : Nat :=
  p.getD 0 0 + p.getD 1 0 * 2 ^ 8 + p.getD 2 0 * 2 ^ 16 + p.getD 3 0 * 2 ^ 24 +
    p.getD 4 0 * 2 ^ 32 + p.getD 5 0 * 2 ^ 40 + p.getD 6 0 * 2 ^ 48 + p.getD 7 0 * 2 ^ 56

def LoadAtLeast2LanePacketVec (packet : List Nat) : Vec2 :=
  let lo := LoadU64 packet
  let hi := LoadU64 (packet.drop 8)
  Create2 lo hi

def LoadAtLeast4LanePacketVec (lanes_per_u64_vec : Nat) (packet : List Nat) : Vec4 :=
  let v_lo := LoadAtLeast2LanePacketVec packet
  let v_hi := if lanes_per_u64_vec ≥ 4 then v_lo else LoadAtLeast2LanePacketVec (packet.drop 16)
  CombineToAtLeast4LaneVec v_lo v_hi

/-- The call `LoadAtLeast2LaneStateVec(arr + off)`. -/
def LoadAtLeast2LaneStateVec (arr : U64x4) (off : Nat) : Vec2 :=
  let v0 := arr.get off
  let v1 := arr.get (off + 1)
  Create2 v0 v1

/-- The call `LoadAtLeast4LaneStateVec(lanes_per_u64_vec, arr)`. -/
def LoadAtLeast4LaneStateVec (lanes_per_u64_vec : Nat) (arr : U64x4) : Vec4 :=
  let v_lo := LoadAtLeast2LaneStateVec arr 0
  let v_hi := if lanes_per_u64_vec ≥ 4 then v_lo else LoadAtLeast2LaneStateVec arr 2
  CombineToAtLeast4LaneVec v_lo v_hi

/-- The call `StoreAtLeast2LaneStateVec(v, arr + off)`. -/
def StoreAtLeast2LaneStateVec (v : Vec2) (arr : U64x4) (off : Nat) : U64x4 :=
  (arr.set off v.get0).set (off + 1) v.get1

/-- The call `StoreAtLeast4LaneStateVec(lanes_per_u64_vec, v, arr)`. -/
def StoreAtLeast4LaneStateVec (lanes_per_u64_vec : Nat) (v : Vec4) (arr : U64x4) : U64x4 :=
  let arr := StoreAtLeast2LaneStateVec (GetLowerAtLeast2LaneVec v) arr 0
  if lanes_per_u64_vec < 4 then StoreAtLeast2LaneStateVec (GetUpperAtLeast2LaneVec v) arr 2
  else arr

/-- The four loads at the start of `UpdateHwyHashState` and of each finalizer. -/
def LoadRegs (lanes_per_u64_vec : Nat) (state : SimdHwyHashState) : Regs Vec4 :=
  { v0 := LoadAtLeast4LaneStateVec lanes_per_u64_vec state.v0
    v1 := LoadAtLeast4LaneStateVec lanes_per_u64_vec state.v1
    mul0 := LoadAtLeast4LaneStateVec lanes_per_u64_vec state.mul0
    mul1 := LoadAtLeast4LaneStateVec lanes_per_u64_vec state.mul1 }

/-- The four stores at the end of `UpdateHwyHashState`. -/
def StoreRegs (lanes_per_u64_vec : Nat) (r : Regs Vec4) (state : SimdHwyHashState) :
    SimdHwyHashState :=
  let state := { state with v0 := StoreAtLeast4LaneStateVec lanes_per_u64_vec r.v0 state.v0 }
  let state := { state with v1 := StoreAtLeast4LaneStateVec lanes_per_u64_vec r.v1 state.v1 }
  let state := { state with mul0 := StoreAtLeast4LaneStateVec lanes_per_u64_vec r.mul0 state.mul0 }
  { state with mul1 := StoreAtLeast4LaneStateVec lanes_per_u64_vec r.mul1 state.mul1 }

/-! ## The round -/

/-- The overload of `HwyHashUpdateStep1` on one-lane vectors (the
`HWY_SCALAR || HWY_EMU128` branch). -/
def HwyHashUpdateStep1 (r : Regs Nat) (a : Nat) : Regs Nat :=
  let v1 := Add r.v1 (Add r.mul0 a)
  let lo32_mask := 0xffffffff
  let p_v1_v0 := Mul (And v1 lo32_mask) (ShiftRight 32 r.v0)
  let mul0 := Xor r.mul0 p_v1_v0
  let v0 := Add r.v0 r.mul1
  let p_v0_v1 := Mul (And v0 lo32_mask) (ShiftRight 32 v1)
  let mul1 := Xor r.mul1 p_v0_v1
  { v0 := v0, v1 := v1, mul0 := mul0, mul1 := mul1 }

/-- The overload of `HwyHashUpdateStep1` on `Vec2` tuples. -/
def HwyHashUpdateStep1_Vec2 (r : Regs Vec2) (a : Vec2) : Regs Vec2 :=
  let lo := HwyHashUpdateStep1 ⟨r.v0.get0, r.v1.get0, r.mul0.get0, r.mul1.get0⟩ a.get0
  let hi := HwyHashUpdateStep1 ⟨r.v0.get1, r.v1.get1, r.mul0.get1, r.mul1.get1⟩ a.get1
  { v0 := Create2 lo.v0 hi.v0
    v1 := Create2 lo.v1 hi.v1
    mul0 := Create2 lo.mul0 hi.mul0
    mul1 := Create2 lo.mul1 hi.mul1 }

def AtLeast2LaneU64VecAdd (a b : Vec2) : Vec2 :=
  Create2 (Add a.get0 b.get0) (Add a.get1 b.get1)

def ZipperMerge (v : Vec2) : Vec2 :=
  let v0 := v.get0
  let v1 := v.get1
  let r0 :=
    Or (Or3 (ShiftRight 24 (OrAnd (And v0 0xff000000) v1 0xff00000000))
            (ShiftRight 16 (OrAnd (And v0 0xff0000000000) v1 0xff000000000000))
            (And v0 0xff0000))
       (Or3 (ShiftLeft 32 (And v0 0xff00))
            (ShiftRight 8 (And v1 0xff00000000000000))
            (ShiftLeft 56 v0))
  let r1 :=
    Or3 (Or3 (ShiftRight 24 (OrAnd (And v1 0xff000000) v0 0xff00000000))
             (And v1 0xff0000)
             (ShiftRight 16 (And v1 0xff0000000000)))
        (Or3 (ShiftLeft 24 (And v1 0xff00))
             (ShiftRight 8 (And v0 0xff000000000000))
             (ShiftLeft 48 (And v1 0xff)))
        (And v0 0xff00000000000000)
  Create2 r0 r1

/-- The overload of `DoHwyHashUpdate` on `AtLeast2LaneU64Vec`. -/
def DoHwyHashUpdate_Vec2 (r : Regs Vec2) (a : Vec2) : Regs Vec2 :=
  let r := HwyHashUpdateStep1_Vec2 r a
  let v0 := AtLeast2LaneU64VecAdd r.v0 (ZipperMerge r.v1)
  let v1 := AtLeast2LaneU64VecAdd r.v1 (ZipperMerge v0)
  { r with v0 := v0, v1 := v1 }

/-- The overload of `DoHwyHashUpdate` on `AtLeast4LaneU64Vec`. -/
def DoHwyHashUpdate (r : Regs Vec4) (a : Vec4) : Regs Vec4 :=
  let lo := DoHwyHashUpdate_Vec2
    ⟨GetLowerAtLeast2LaneVec r.v0, GetLowerAtLeast2LaneVec r.v1,
     GetLowerAtLeast2LaneVec r.mul0, GetLowerAtLeast2LaneVec r.mul1⟩
    (GetLowerAtLeast2LaneVec a)
  let hi := DoHwyHashUpdate_Vec2
    ⟨GetUpperAtLeast2LaneVec r.v0, GetUpperAtLeast2LaneVec r.v1,
     GetUpperAtLeast2LaneVec r.mul0, GetUpperAtLeast2LaneVec r.mul1⟩
    (GetUpperAtLeast2LaneVec a)
  { v0 := CombineToAtLeast4LaneVec lo.v0 hi.v0
    v1 := CombineToAtLeast4LaneVec lo.v1 hi.v1
    mul0 := CombineToAtLeast4LaneVec lo.mul0 hi.mul0
    mul1 := CombineToAtLeast4LaneVec lo.mul1 hi.mul1 }

def AtLeast4LaneU64VecAdd (a b : Vec4) : Vec4 :=
  let sum_lo := AtLeast2LaneU64VecAdd (GetLowerAtLeast2LaneVec a) (GetLowerAtLeast2LaneVec b)
  let sum_hi := AtLeast2LaneU64VecAdd (GetUpperAtLeast2LaneVec a) (GetUpperAtLeast2LaneVec b)
  CombineToAtLeast4LaneVec sum_lo sum_hi

/-! ## The tail of the input -/

/-- The scalar branch of `AtLeast2LaneU64VecRolU32`.  The `int` shift counts
are kept as the natural numbers with the same 32-bit two's complement
pattern, so `-shl_amt` is `2^32 - shl_amt` reduced modulo `2^32`; the
`uint32_t` values are shifted in 32 bits. -/
def AtLeast2LaneU64VecRolU32 (a b : Vec2) : Vec2 :=
  let shl_amt := b.get0 &&& 0xffffffff
  let shr_amt := ((2 ^ 32 - shl_amt) % 2 ^ 32) &&& 31
  let a0 := a.get0
  let a1 := a.get1
  let a0L := a0 % 2 ^ 32
  let a0H := (a0 >>> 32) % 2 ^ 32
  let a1L := a1 % 2 ^ 32
  let a1H := (a1 >>> 32) % 2 ^ 32
  let rot_a0L := (((a0L <<< shl_amt) % 2 ^ 32) ||| (a0L >>> shr_amt)) % 2 ^ 32
  let rot_a0H := (((a0H <<< shl_amt) % 2 ^ 32) ||| (a0H >>> shr_amt)) % 2 ^ 32
  let rot_a1L := (((a1L <<< shl_amt) % 2 ^ 32) ||| (a1L >>> shr_amt)) % 2 ^ 32
  let rot_a1H := (((a1H <<< shl_amt) % 2 ^ 32) ||| (a1H >>> shr_amt)) % 2 ^ 32
  let rot_a0 := ((rot_a0H <<< 32) % 2 ^ 64) ||| rot_a0L
  let rot_a1 := ((rot_a1H <<< 32) % 2 ^ 64) ||| rot_a1L
  Create2 rot_a0 rot_a1

def AtLeast4LaneU64VecRol32 (a b : Vec4) : Vec4 :=
  let result_lo := AtLeast2LaneU64VecRolU32 (GetLowerAtLeast2LaneVec a) (GetLowerAtLeast2LaneVec b)
  let result_hi := AtLeast2LaneU64VecRolU32 (GetUpperAtLeast2LaneVec a) (GetUpperAtLeast2LaneVec b)
  CombineToAtLeast4LaneVec result_lo result_hi

/-- The buffer left by `ZeroBytes(to, n)`. -/
def ZeroBytes (n : Nat) : List Nat := List.replicate n 0

/-- The buffer `dst` after `CopyBytes(src, dst + off, n)`. -/
def CopyBytes (src : List Nat) (dst : List Nat) (off : Nat) : Nat → List Nat
  | 0 => dst
  | n + 1 => (CopyBytes src dst off n).set (off + n) (src.getD n 0)

/-- The local buffer `packet_bytes` of the scalar branch of
`LoadRemainderPacket`, as it is when the packet is loaded from it. -/
def LoadRemainderPacket.packet_bytes (ptr : List Nat) (remainder_len : Nat) : List Nat :=
  let u32_load_byte_len := remainder_len &&& 0xfffffffc
  let packet_bytes := ZeroBytes 32
  let packet_bytes := CopyBytes ptr packet_bytes 0 u32_load_byte_len
  if remainder_len ≥ 16 then
    let trailing_bytes := CopyBytes (ptr.drop (remainder_len - 4)) (ZeroBytes 4) 0 4
    CopyBytes trailing_bytes packet_bytes (32 - 4) 4
  else
    let trailing3_len := remainder_len &&& 3
    if trailing3_len ≠ 0 then
      let packet_bytes := packet_bytes.set 16 (ptr.getD u32_load_byte_len 0)
      let packet_bytes :=
        packet_bytes.set 17 (ptr.getD (u32_load_byte_len + (trailing3_len >>> 1)) 0)
      packet_bytes.set 18 (ptr.getD (u32_load_byte_len + trailing3_len - 1) 0)
    else packet_bytes

def LoadRemainderPacket (lanes_per_u64_vec : Nat) (ptr : List Nat) (remainder_len : Nat) :
    Vec4 :=
  LoadAtLeast4LanePacketVec lanes_per_u64_vec (LoadRemainderPacket.packet_bytes ptr remainder_len)

/-! ## Update -/

/-- The loop `for (; ptr != full32_end_ptr; ptr += 32)` with `n` packets
between `ptr` and `full32_end_ptr`; it returns the registers and the final
`ptr`. -/
def UpdateHwyHashState.loop (lanes_per_u64_vec : Nat) :
    Nat → Regs Vec4 → List Nat → Regs Vec4 × List Nat
  | 0, r, ptr => (r, ptr)
  | n + 1, r, ptr =>
    UpdateHwyHashState.loop lanes_per_u64_vec n
      (DoHwyHashUpdate r (LoadAtLeast4LanePacketVec lanes_per_u64_vec ptr)) (ptr.drop 32)

/-- The `if (remainder_len != 0)` block of `UpdateHwyHashState`, up to the
call of `LoadRemainderPacket`: the registers with `v0` and `v1` replaced. -/
def UpdateHwyHashState.mixLength (r : Regs Vec4) (remainder_len : Nat) : Regs Vec4 :=
  let vu64_len_x1 := ((remainder_len <<< 32) % 2 ^ 64) ||| remainder_len
  let vu64_len_x2 := Create2 vu64_len_x1 vu64_len_x1
  let vu64_len_x4 := CombineToAtLeast4LaneVec vu64_len_x2 vu64_len_x2
  let v0 := AtLeast4LaneU64VecAdd r.v0 vu64_len_x4
  let v1 := AtLeast4LaneU64VecRol32 r.v1 vu64_len_x4
  { r with v0 := v0, v1 := v1 }

/-- The part of `UpdateHwyHashState` between the loads of the state and the
stores to it, on the local variables `v0, v1, mul0, mul1`; `size_t` has 64
bits. -/
def UpdateHwyHashState.locals (lanes_per_u64_vec : Nat) (r : Regs Vec4) (ptr : List Nat)
    (byte_len : Nat) : Regs Vec4 :=
  let full32_len := byte_len &&& (2 ^ 64 - 32)
  let looped := UpdateHwyHashState.loop lanes_per_u64_vec (full32_len / 32) r ptr
  let r := looped.1
  let ptr := looped.2
  let remainder_len := byte_len &&& 31
  if remainder_len ≠ 0 then
    let r := UpdateHwyHashState.mixLength r remainder_len
    let a := LoadRemainderPacket lanes_per_u64_vec ptr remainder_len
    DoHwyHashUpdate r a
  else r

/-- The function `UpdateHwyHashState` of the kernel. -/
def UpdateHwyHashState (state : SimdHwyHashState) (ptr : List Nat) (byte_len : Nat) :
    SimdHwyHashState :=
  let lanes_per_u64_vec := Lanes
  let r := LoadRegs lanes_per_u64_vec state
  let r := UpdateHwyHashState.locals lanes_per_u64_vec r ptr byte_len
  StoreRegs lanes_per_u64_vec r state

/-! ## Finalize -/

def PermuteV0 (v0 : Vec4) : Vec4 :=
  Create4 (RotateRight 32 v0.get2) (RotateRight 32 v0.get3)
    (RotateRight 32 v0.get0) (RotateRight 32 v0.get1)

def PermuteAndUpdate (r : Regs Vec4) : Regs Vec4 :=
  let permuted_v0 := PermuteV0 r.v0
  DoHwyHashUpdate r permuted_v0

def GetLowerExactly2LaneU64Vec (v : Vec4) : Vec2 := GetLowerAtLeast2LaneVec v

def GetUpperExactly2LaneU64Vec (v : Vec4) : Vec2 := GetUpperAtLeast2LaneVec v

def GetLowerExactly1LaneU64Vec (v : Vec4) : Nat := (GetLowerExactly2LaneU64Vec v).get0

def Finalize64 (state : SimdHwyHashState) : Nat :=
  let lanes_per_u64_vec := Lanes
  let r := LoadRegs lanes_per_u64_vec state
  let r := PermuteAndUpdate r
  let r := PermuteAndUpdate r
  let r := PermuteAndUpdate r
  let r := PermuteAndUpdate r
  Add (Add (GetLowerExactly1LaneU64Vec r.v0) (GetLowerExactly1LaneU64Vec r.v1))
    (Add (GetLowerExactly1LaneU64Vec r.mul0) (GetLowerExactly1LaneU64Vec r.mul1))

def Exactly2LaneU64VecAdd (a b : Vec2) : Vec2 := AtLeast2LaneU64VecAdd a b

/-- The function `Finalize128`; the result is the pair `hash[0], hash[1]`. -/
def Finalize128 (state : SimdHwyHashState) : Vec2 :=
  let lanes_per_u64_vec := Lanes
  let r := LoadRegs lanes_per_u64_vec state
  let r := PermuteAndUpdate r
  let r := PermuteAndUpdate r
  let r := PermuteAndUpdate r
  let r := PermuteAndUpdate r
  let r := PermuteAndUpdate r
  let r := PermuteAndUpdate r
  let v0_lo := GetLowerExactly2LaneU64Vec r.v0
  let v1_hi := GetUpperExactly2LaneU64Vec r.v1
  let mul0_lo := GetLowerExactly2LaneU64Vec r.mul0
  let mul1_hi := GetUpperExactly2LaneU64Vec r.mul1
  Exactly2LaneU64VecAdd (Exactly2LaneU64VecAdd v0_lo mul0_lo)
    (Exactly2LaneU64VecAdd v1_hi mul1_hi)

def AtLeast4LaneU64VecDup128 (val0 val1 : Nat) : Vec4 :=
  Create4 val0 val1 val0 val1

def ShiftA23LeftBy1Lane (a23 : Vec4) : Vec4 :=
  Create4 0 a23.get0 0 a23.get2

def AtLeast4LaneU64VecShiftLeft (kShiftAmt : Nat) (v : Vec4) : Vec4 :=
  Create4 (ShiftLeft kShiftAmt v.get0) (ShiftLeft kShiftAmt v.get1)
    (ShiftLeft kShiftAmt v.get2) (ShiftLeft kShiftAmt v.get3)

def AtLeast4LaneU64VecShiftRight (kShiftAmt : Nat) (v : Vec4) : Vec4 :=
  Create4 (ShiftRight kShiftAmt v.get0) (ShiftRight kShiftAmt v.get1)
    (ShiftRight kShiftAmt v.get2) (ShiftRight kShiftAmt v.get3)

def AtLeast4LaneU64VecAnd (a b : Vec4) : Vec4 :=
  Create4 (And a.get0 b.get0) (And a.get1 b.get1) (And a.get2 b.get2) (And a.get3 b.get3)

def AtLeast4LaneU64VecOr (a b : Vec4) : Vec4 :=
  Create4 (Or a.get0 b.get0) (Or a.get1 b.get1) (Or a.get2 b.get2) (Or a.get3 b.get3)

def AtLeast4LaneU64VecXor3 (a b c : Vec4) : Vec4 :=
  Create4 (Xor3 a.get0 b.get0 c.get0) (Xor3 a.get1 b.get1 c.get1)
    (Xor3 a.get2 b.get2 c.get2) (Xor3 a.get3 b.get3 c.get3)

def ModularReduction (a01 a23 : Vec4) : Vec4 :=
  let a2_in_odd := ShiftA23LeftBy1Lane a23
  let a23 := AtLeast4LaneU64VecAnd a23
    (AtLeast4LaneU64VecDup128 0xffffffffffffffff 0x3FFFFFFFFFFFFFFF)
  AtLeast4LaneU64VecXor3 a01
    (AtLeast4LaneU64VecOr (AtLeast4LaneU64VecShiftLeft 1 a23)
      (AtLeast4LaneU64VecShiftRight 63 a2_in_odd))
    (AtLeast4LaneU64VecOr (AtLeast4LaneU64VecShiftLeft 2 a23)
      (AtLeast4LaneU64VecShiftRight 62 a2_in_odd))

/-- The function `Finalize256`; the result holds `hash[0], ..., hash[3]`. -/
def Finalize256 (state : SimdHwyHashState) : Vec4 :=
  let lanes_per_u64_vec := Lanes
  let r := LoadRegs lanes_per_u64_vec state
  let r := PermuteAndUpdate r
  let r := PermuteAndUpdate r
  let r := PermuteAndUpdate r
  let r := PermuteAndUpdate r
  let r := PermuteAndUpdate r
  let r := PermuteAndUpdate r
  let r := PermuteAndUpdate r
  let r := PermuteAndUpdate r
  let r := PermuteAndUpdate r
  let r := PermuteAndUpdate r
  ModularReduction (AtLeast4LaneU64VecAdd r.v0 r.mul0) (AtLeast4LaneU64VecAdd r.v1 r.mul1)

/-! ## The C entry points -/

def SimdHwyHash_Reset (state : SimdHwyHashState) (key : U64x4) : SimdHwyHashState :=
  ResetHwyHashState state key

def SimdHwyHash_Update (state : SimdHwyHashState) (ptr : List Nat) (byte_len : Nat) :
    SimdHwyHashState :=
  UpdateHwyHashState state ptr byte_len

def SimdHwyHash_Finalize64 (state : SimdHwyHashState) : Nat := Finalize64 state

def SimdHwyHash_Finalize128 (state : SimdHwyHashState) : Vec2 := Finalize128 state

def SimdHwyHash_Finalize256 (state : SimdHwyHashState) : Vec4 := Finalize256 state

/-- The content of the local `SimdHwyHashState state;` of the one-shot
functions before `SimdHwyHash_Reset` writes it.  C leaves it unspecified;
`ResetHwyHashState` overwrites all sixteen words. -/
def uninitialized : SimdHwyHashState :=
  ⟨⟨0, 0, 0, 0⟩, ⟨0, 0, 0, 0⟩, ⟨0, 0, 0, 0⟩, ⟨0, 0, 0, 0⟩⟩

def SimdHwyHash_Hash64 (ptr : List Nat) (byte_len : Nat) (key : U64x4) : Nat :=
  let state := uninitialized
  let state := SimdHwyHash_Reset state key
  let state := SimdHwyHash_Update state ptr byte_len
  SimdHwyHash_Finalize64 state

def SimdHwyHash_Hash128 (ptr : List Nat) (byte_len : Nat) (key : U64x4) : Vec2 :=
  let state := uninitialized
  let state := SimdHwyHash_Reset state key
  let state := SimdHwyHash_Update state ptr byte_len
  SimdHwyHash_Finalize128 state

def SimdHwyHash_Hash256 (ptr : List Nat) (byte_len : Nat) (key : U64x4) : Vec4 :=
  let state := uninitialized
  let state := SimdHwyHash_Reset state key
  let state := SimdHwyHash_Update state ptr byte_len
  SimdHwyHash_Finalize256 state

/-- All four lanes of a vector are below `2^64`. -/
def Vec4.lt64 (v : Vec4) : Prop :=
  v.get0 < 2 ^ 64 ∧ v.get1 < 2 ^ 64 ∧ v.get2 < 2 ^ 64 ∧ v.get3 < 2 ^ 64

/-- All four words of an array are below `2^64`. -/
def U64x4.lt64 (arr : U64x4) : Prop :=
  arr.a0 < 2 ^ 64 ∧ arr.a1 < 2 ^ 64 ∧ arr.a2 < 2 ^ 64 ∧ arr.a3 < 2 ^ 64

/-! ## Bytes of lanes -/

namespace spec

/-- The eight bytes of a `u64`, least significant first. -/
def bytes_le (x : Nat) : List Nat :=
  [x % 256, x / 2 ^ 8 % 256, x / 2 ^ 16 % 256, x / 2 ^ 24 % 256,
   x / 2 ^ 32 % 256, x / 2 ^ 40 % 256, x / 2 ^ 48 % 256, x / 2 ^ 56 % 256]

/-- The 32 bytes of four `u64` lanes, each least significant byte first. -/
def packet_of_lanes (v : Vec4) : List Nat :=
  bytes_le v.get0 ++ bytes_le v.get1 ++ bytes_le v.get2 ++ bytes_le v.get3

/-- The index vector of the zipper merge: byte `i` of the result is the byte
of the operand at position `zipper_indices[i]`. -/
def zipper_indices : List Nat := [3, 12, 2, 5, 14, 1, 15, 0, 11, 4, 10, 13, 9, 6, 8, 7]

/-- The zipper merge of sixteen bytes. -/
def zipper_merge_bytes (b : List Nat) : List Nat := zipper_indices.map fun i => b.getD i 0

end spec

/-! ## Operations of the Highway library on 256-bit vectors

The non-scalar branches of `simdhwyhash.cc` are written with operations of
the Highway library on vectors of `uint64_t`, `uint32_t` and `uint8_t` lanes.
This section gives these operations, on a little-endian host, for a vector
of 256 bits, as Highway's reference documents them lane by lane.  A vector
of four `uint64_t` lanes is a `Vec4`, one of two lanes (128 bits) a `Vec2`;
vectors of eight `uint32_t` or of 32 `uint8_t` lanes are lists of lanes,
lane 0 first. -/

namespace hwy

/-- The operation `BitCast(du32, v)` of a vector of four `uint64_t` lanes. -/
def BitCastU64ToU32 (v : Vec4) : List Nat :=
  [v.get0 % 2 ^ 32, (v.get0 >>> 32) % 2 ^ 32, v.get1 % 2 ^ 32, (v.get1 >>> 32) % 2 ^ 32,
   v.get2 % 2 ^ 32, (v.get2 >>> 32) % 2 ^ 32, v.get3 % 2 ^ 32, (v.get3 >>> 32) % 2 ^ 32]

/-- The operation `BitCast(du64, v)` of a vector of eight `uint32_t` lanes. -/
def BitCastU32ToU64 (v : List Nat) : Vec4 :=
  ⟨v.getD 0 0 + v.getD 1 0 * 2 ^ 32, v.getD 2 0 + v.getD 3 0 * 2 ^ 32,
   v.getD 4 0 + v.getD 5 0 * 2 ^ 32, v.getD 6 0 + v.getD 7 0 * 2 ^ 32⟩

/-- The operation `BitCast(du32, v)` of a vector of 32 `uint8_t` lanes. -/
def BitCastU8ToU32 (v : List Nat) : List Nat :=
  (List.range 8).map fun i =>
    v.getD (4 * i) 0 + v.getD (4 * i + 1) 0 * 2 ^ 8 + v.getD (4 * i + 2) 0 * 2 ^ 16 +
      v.getD (4 * i + 3) 0 * 2 ^ 24

/-- The operation `BitCast(du64, v)` of a vector of 32 `uint8_t` lanes. -/
def BitCastU8ToU64 (v : List Nat) : Vec4 :=
  ⟨LoadU64 v, LoadU64 (v.drop 8), LoadU64 (v.drop 16), LoadU64 (v.drop 24)⟩

/-- The operation `LoadU(du8, p)`: the 32 bytes at `p`. -/
def LoadU_U8 (p : List Nat) : List Nat :=
  (List.range 32).map fun i => p.getD i 0

/-- The operation `LoadN(du8, p, n)`: the first `n` bytes at `p`, then zeros. -/
def LoadN_U8 (p : List Nat) (n : Nat) : List Nat :=
  (List.range 32).map fun i => if i < n then p.getD i 0 else 0

/-- The operation `Set(du32, x)`, for a `uint32_t` value `x`. -/
def SetU32 (x : Nat) : List Nat := List.replicate 8 x

/-- The operation `InsertLane(v, i, x)` on `uint32_t` lanes, for a `uint32_t`
value `x`. -/
def InsertLane (v : List Nat) (i : Nat) (x : Nat) : List Nat := v.set i x

/-- The operation `Reverse2(du32, v)`: adjacent lanes are exchanged. -/
def Reverse2 (v : List Nat) : List Nat :=
  [v.getD 1 0, v.getD 0 0, v.getD 3 0, v.getD 2 0, v.getD 5 0, v.getD 4 0, v.getD 7 0,
   v.getD 6 0]

/-- The operation `MulEven(a, b)` on `uint32_t` lanes: the 64-bit products of
the even lanes. -/
def MulEven (a b : List Nat) : Vec4 :=
  ⟨a.getD 0 0 * b.getD 0 0, a.getD 2 0 * b.getD 2 0, a.getD 4 0 * b.getD 4 0,
   a.getD 6 0 * b.getD 6 0⟩

/-- One `uint32_t` lane of `Rol(a, b)`: `a` rotated left by `b mod 32` bits. -/
def Rol32 (a b : Nat) : Nat :=
  ((a <<< (b % 32)) % 2 ^ 32) ||| (a >>> ((32 - b % 32) % 32))

/-- The operation `Rol(a, b)` on `uint32_t` lanes. -/
def Rol (a b : List Nat) : List Nat := List.zipWith Rol32 a b

def Add (a b : Vec4) : Vec4 :=
  ⟨(a.get0 + b.get0) % 2 ^ 64, (a.get1 + b.get1) % 2 ^ 64, (a.get2 + b.get2) % 2 ^ 64,
   (a.get3 + b.get3) % 2 ^ 64⟩

def Xor (a b : Vec4) : Vec4 :=
  ⟨a.get0 ^^^ b.get0, a.get1 ^^^ b.get1, a.get2 ^^^ b.get2, a.get3 ^^^ b.get3⟩

def And (a b : Vec4) : Vec4 :=
  ⟨a.get0 &&& b.get0, a.get1 &&& b.get1, a.get2 &&& b.get2, a.get3 &&& b.get3⟩

def Or (a b : Vec4) : Vec4 :=
  ⟨a.get0 ||| b.get0, a.get1 ||| b.get1, a.get2 ||| b.get2, a.get3 ||| b.get3⟩

def Xor3 (a b c : Vec4) : Vec4 := Xor a (Xor b c)

def ShiftLeft (kShiftAmt : Nat) (v : Vec4) : Vec4 :=
  ⟨(v.get0 <<< kShiftAmt) % 2 ^ 64, (v.get1 <<< kShiftAmt) % 2 ^ 64,
   (v.get2 <<< kShiftAmt) % 2 ^ 64, (v.get3 <<< kShiftAmt) % 2 ^ 64⟩

def ShiftRight (kShiftAmt : Nat) (v : Vec4) : Vec4 :=
  ⟨v.get0 >>> kShiftAmt, v.get1 >>> kShiftAmt, v.get2 >>> kShiftAmt, v.get3 >>> kShiftAmt⟩

/-- The operation `Dup128VecFromValues(du64, t0, t1)`. -/
def Dup128VecFromValues (t0 t1 : Nat) : Vec4 := ⟨t0, t1, t0, t1⟩

/-- The operation `ShiftLeftLanes<1>(d, v)` on `uint64_t` lanes: within each
128-bit block, lane 0 moves to lane 1 and lane 0 becomes zero. -/
def ShiftLeftLanes1 (v : Vec4) : Vec4 := ⟨0, v.get0, 0, v.get2⟩

/-- The operation `Per4LaneBlockShuffle<1, 0, 3, 2>(v)` on `uint64_t` lanes:
the result has the lanes 2, 3, 0, 1 of `v`. -/
def Per4LaneBlockShuffle1032 (v : Vec4) : Vec4 := ⟨v.get2, v.get3, v.get0, v.get1⟩

/-- The sixteen bytes of a 128-bit block of two `uint64_t` lanes. -/
def BlockBytes (x0 x1 : Nat) : List Nat := spec.bytes_le x0 ++ spec.bytes_le x1

/-- The operation `TableLookupBytes(bytes, indices)` on one 128-bit block:
byte `i` of the result is the byte of `bytes` whose position is byte `i` of
`indices`, taken in `[0, 16)`. -/
def TableLookupBytes128 (bytes indices : Vec2) : Vec2 :=
  let tbl := BlockBytes bytes.get0 bytes.get1
  let out := (BlockBytes indices.get0 indices.get1).map fun i => tbl.getD i 0
  ⟨LoadU64 out, LoadU64 (out.drop 8)⟩

/-- The operation `TableLookupBytes(bytes, indices)`, block by block. -/
def TableLookupBytes (bytes indices : Vec4) : Vec4 :=
  let lo := TableLookupBytes128 ⟨bytes.get0, bytes.get1⟩ ⟨indices.get0, indices.get1⟩
  let hi := TableLookupBytes128 ⟨bytes.get2, bytes.get3⟩ ⟨indices.get2, indices.get3⟩
  ⟨lo.get0, lo.get1, hi.get0, hi.get1⟩

/-- The operation `ResizeBitCast(AtMost2LaneDU64(), v)`: the lower 128 bits. -/
def ResizeBitCastLower (v : Vec4) : Vec2 := ⟨v.get0, v.get1⟩

/-- The operation `UpperHalf(AtMost2LaneDU64(), v)`. -/
def UpperHalf (v : Vec4) : Vec2 := ⟨v.get2, v.get3⟩

end hwy

/-! ## The kernel of a 256-bit vector target

The functions of `simdhwyhash.cc` as compiled for a little-endian target
other than `HWY_SCALAR`, `HWY_EMU128` and `HWY_RVV`, without scalable vectors,
with `HWY_MAX_BYTES >= 32` and variable rotates (`HWY_AVX2` and better):
`HighwayHashDU64` has four lanes and `AtLeast2LaneU64Vec` and
`AtLeast4LaneU64Vec` are the same vector type. -/

namespace N_AVX2

/-- The number of lanes `Lanes(HighwayHashDU64())` of this target. -/
def Lanes : Nat := 4

def ResetHwyHashState.body (key : U64x4) (state : SimdHwyHashState) (i : Nat) :
    SimdHwyHashState :=
  let v_key : Vec4 := ⟨key.get i, key.get (i + 1), key.get (i + 2), key.get (i + 3)⟩
  let v_mul0 : Vec4 := ⟨kMul0.get i, kMul0.get (i + 1), kMul0.get (i + 2), kMul0.get (i + 3)⟩
  let v_mul1 : Vec4 := ⟨kMul1.get i, kMul1.get (i + 1), kMul1.get (i + 2), kMul1.get (i + 3)⟩
  let v0 := hwy.Xor v_key v_mul0
  let v_key_rot32 := hwy.BitCastU32ToU64 (hwy.Reverse2 (hwy.BitCastU64ToU32 v_key))
  let v1 := hwy.Xor v_key_rot32 v_mul1
  let store := fun (v : Vec4) (arr : U64x4) =>
    (((arr.set i v.get0).set (i + 1) v.get1).set (i + 2) v.get2).set (i + 3) v.get3
  let state := { state with mul0 := store v_mul0 state.mul0 }
  let state := { state with mul1 := store v_mul1 state.mul1 }
  let state := { state with v0 := store v0 state.v0 }
  { state with v1 := store v1 state.v1 }

/-- The loop `for (i = 0; i < 4; i += lanes_per_u64_vec)`, with `n` iterations
left to run. -/
def ResetHwyHashState.loop (key : U64x4) (lanes_per_u64_vec : Nat) :
    Nat → Nat → SimdHwyHashState → SimdHwyHashState
  | 0, _, state => state
  | n + 1, i, state =>
    if i < 4 then
      ResetHwyHashState.loop key lanes_per_u64_vec n (i + lanes_per_u64_vec)
        (ResetHwyHashState.body key state i)
    else state

def ResetHwyHashState (state : SimdHwyHashState) (key : U64x4) : SimdHwyHashState :=
  ResetHwyHashState.loop key Lanes 4 0 state

def CombineToAtLeast4LaneVec (lo _hi : Vec4) : Vec4 := lo

def GetLowerAtLeast2LaneVec (v : Vec4) : Vec4 := v

def GetUpperAtLeast2LaneVec (v : Vec4) : Vec4 := v

def LoadAtLeast2LanePacketVec (packet : List Nat) : Vec4 :=
  hwy.BitCastU8ToU64 (hwy.LoadU_U8 packet)

def LoadAtLeast4LanePacketVec (lanes_per_u64_vec : Nat) (packet : List Nat) : Vec4 :=
  let v_lo := LoadAtLeast2LanePacketVec packet
  let v_hi := if lanes_per_u64_vec ≥ 4 then v_lo else LoadAtLeast2LanePacketVec (packet.drop 16)
  CombineToAtLeast4LaneVec v_lo v_hi

/-- The call `LoadAtLeast2LaneStateVec(arr + off)`: four lanes are loaded. -/
def LoadAtLeast2LaneStateVec (arr : U64x4) (off : Nat) : Vec4 :=
  ⟨arr.get off, arr.get (off + 1), arr.get (off + 2), arr.get (off + 3)⟩

def LoadAtLeast4LaneStateVec (lanes_per_u64_vec : Nat) (arr : U64x4) : Vec4 :=
  let v_lo := LoadAtLeast2LaneStateVec arr 0
  let v_hi := if lanes_per_u64_vec ≥ 4 then v_lo else LoadAtLeast2LaneStateVec arr 2
  CombineToAtLeast4LaneVec v_lo v_hi

/-- The call `StoreAtLeast2LaneStateVec(v, arr + off)`: four lanes are stored. -/
def StoreAtLeast2LaneStateVec (v : Vec4) (arr : U64x4) (off : Nat) : U64x4 :=
  (((arr.set off v.get0).set (off + 1) v.get1).set (off + 2) v.get2).set (off + 3) v.get3

def StoreAtLeast4LaneStateVec (lanes_per_u64_vec : Nat) (v : Vec4) (arr : U64x4) : U64x4 :=
  let arr := StoreAtLeast2LaneStateVec (GetLowerAtLeast2LaneVec v) arr 0
  if lanes_per_u64_vec < 4 then StoreAtLeast2LaneStateVec (GetUpperAtLeast2LaneVec v) arr 2
  else arr

def LoadRegs (lanes_per_u64_vec : Nat) (state : SimdHwyHashState) : Regs Vec4 :=
  { v0 := LoadAtLeast4LaneStateVec lanes_per_u64_vec state.v0
    v1 := LoadAtLeast4LaneStateVec lanes_per_u64_vec state.v1
    mul0 := LoadAtLeast4LaneStateVec lanes_per_u64_vec state.mul0
    mul1 := LoadAtLeast4LaneStateVec lanes_per_u64_vec state.mul1 }

def StoreRegs (lanes_per_u64_vec : Nat) (r : Regs Vec4) (state : SimdHwyHashState) :
    SimdHwyHashState :=
  let state := { state with v0 := StoreAtLeast4LaneStateVec lanes_per_u64_vec r.v0 state.v0 }
  let state := { state with v1 := StoreAtLeast4LaneStateVec lanes_per_u64_vec r.v1 state.v1 }
  let state := { state with mul0 := StoreAtLeast4LaneStateVec lanes_per_u64_vec r.mul0 state.mul0 }
  { state with mul1 := StoreAtLeast4LaneStateVec lanes_per_u64_vec r.mul1 state.mul1 }

/-- The function `HwyHashUpdateStep1`, in its `MulEven` branch. -/
def HwyHashUpdateStep1 (r : Regs Vec4) (a : Vec4) : Regs Vec4 :=
  let v1 := hwy.Add r.v1 (hwy.Add r.mul0 a)
  let p_v1_v0 :=
    hwy.MulEven (hwy.BitCastU64ToU32 v1) (hwy.Reverse2 (hwy.BitCastU64ToU32 r.v0))
  let mul0 := hwy.Xor r.mul0 p_v1_v0
  let v0 := hwy.Add r.v0 r.mul1
  let p_v0_v1 :=
    hwy.MulEven (hwy.BitCastU64ToU32 v0) (hwy.Reverse2 (hwy.BitCastU64ToU32 v1))
  let mul1 := hwy.Xor r.mul1 p_v0_v1
  { v0 := v0, v1 := v1, mul0 := mul0, mul1 := mul1 }

def AtLeast2LaneU64VecAdd (a b : Vec4) : Vec4 := hwy.Add a b

/-- The function `AtLeast2LaneU64VecRolU32`, in its `Rol` branch. -/
def AtLeast2LaneU64VecRolU32 (a b : Vec4) : Vec4 :=
  hwy.BitCastU32ToU64 (hwy.Rol (hwy.BitCastU64ToU32 a) (hwy.BitCastU64ToU32 b))

def AtLeast4LaneU64VecAdd (a b : Vec4) : Vec4 := AtLeast2LaneU64VecAdd a b

def AtLeast4LaneU64VecRol32 (a b : Vec4) : Vec4 := AtLeast2LaneU64VecRolU32 a b

/-- The function `ZipperMerge`, in its `TableLookupBytes` branch. -/
def ZipperMerge (v : Vec4) : Vec4 :=
  let shuf_idx := hwy.Dup128VecFromValues 0x000f010e05020c03 0x070806090d0a040b
  hwy.TableLookupBytes v shuf_idx

def DoHwyHashUpdate (r : Regs Vec4) (a : Vec4) : Regs Vec4 :=
  let r := HwyHashUpdateStep1 r a
  let v0 := AtLeast2LaneU64VecAdd r.v0 (ZipperMerge r.v1)
  let v1 := AtLeast2LaneU64VecAdd r.v1 (ZipperMerge v0)
  { r with v0 := v0, v1 := v1 }

/-- The `uint32_t` read by `CopyBytes(p, &trailing_bytes, 4)`. -/
def LoadU32 (p : List Nat) : Nat :=
  p.getD 0 0 + p.getD 1 0 * 2 ^ 8 + p.getD 2 0 * 2 ^ 16 + p.getD 3 0 * 2 ^ 24

/-- The function `LoadRemainderPacket`, in its branch with one 32-byte
`LoadN`. -/
def LoadRemainderPacket (_lanes_per_u64_vec : Nat) (ptr : List Nat) (remainder_len : Nat) :
    Vec4 :=
  let u32_load_byte_len := remainder_len &&& 0xfffffffc
  let v_lo := hwy.BitCastU8ToU32 (hwy.LoadN_U8 ptr u32_load_byte_len)
  let v_lo :=
    if remainder_len ≥ 16 then
      let trailing_bytes := LoadU32 (ptr.drop (remainder_len - 4))
      hwy.InsertLane v_lo 7 trailing_bytes
    else
      let trailing3_len := remainder_len &&& 3
      if trailing3_len ≠ 0 then
        let packet_b16 := ptr.getD u32_load_byte_len 0
        let packet_b17 := ptr.getD (u32_load_byte_len + (trailing3_len >>> 1)) 0
        let packet_b18 := ptr.getD (u32_load_byte_len + trailing3_len - 1) 0
        let trailing_bytes :=
          packet_b16 ||| ((packet_b17 <<< 8) % 2 ^ 32) ||| ((packet_b18 <<< 16) % 2 ^ 32)
        hwy.InsertLane v_lo 4 trailing_bytes
      else v_lo
  let v64_lo := hwy.BitCastU32ToU64 v_lo
  CombineToAtLeast4LaneVec v64_lo v64_lo

def UpdateHwyHashState.loop (lanes_per_u64_vec : Nat) :
    Nat → Regs Vec4 → List Nat → Regs Vec4 × List Nat
  | 0, r, ptr => (r, ptr)
  | n + 1, r, ptr =>
    UpdateHwyHashState.loop lanes_per_u64_vec n
      (DoHwyHashUpdate r (LoadAtLeast4LanePacketVec lanes_per_u64_vec ptr)) (ptr.drop 32)

def UpdateHwyHashState.mixLength (r : Regs Vec4) (remainder_len : Nat) : Regs Vec4 :=
  let vu64_len_x2 := hwy.BitCastU32ToU64 (hwy.SetU32 remainder_len)
  let vu64_len_x4 := CombineToAtLeast4LaneVec vu64_len_x2 vu64_len_x2
  let v0 := AtLeast4LaneU64VecAdd r.v0 vu64_len_x4
  let v1 := AtLeast4LaneU64VecRol32 r.v1 vu64_len_x4
  { r with v0 := v0, v1 := v1 }

def UpdateHwyHashState.locals (lanes_per_u64_vec : Nat) (r : Regs Vec4) (ptr : List Nat)
    (byte_len : Nat) : Regs Vec4 :=
  let full32_len := byte_len &&& (2 ^ 64 - 32)
  let looped := UpdateHwyHashState.loop lanes_per_u64_vec (full32_len / 32) r ptr
  let r := looped.1
  let ptr := looped.2
  let remainder_len := byte_len &&& 31
  if remainder_len ≠ 0 then
    let r := UpdateHwyHashState.mixLength r remainder_len
    let a := LoadRemainderPacket lanes_per_u64_vec ptr remainder_len
    DoHwyHashUpdate r a
  else r

def UpdateHwyHashState (state : SimdHwyHashState) (ptr : List Nat) (byte_len : Nat) :
    SimdHwyHashState :=
  let lanes_per_u64_vec := Lanes
  let r := LoadRegs lanes_per_u64_vec state
  let r := UpdateHwyHashState.locals lanes_per_u64_vec r ptr byte_len
  StoreRegs lanes_per_u64_vec r state

/-- The function `PermuteV0`, in its `Per4LaneBlockShuffle` branch. -/
def PermuteV0 (v0 : Vec4) : Vec4 :=
  hwy.Per4LaneBlockShuffle1032
    (hwy.BitCastU32ToU64 (hwy.Reverse2 (hwy.BitCastU64ToU32 v0)))

def PermuteAndUpdate (r : Regs Vec4) : Regs Vec4 :=
  let permuted_v0 := PermuteV0 r.v0
  DoHwyHashUpdate r permuted_v0

def GetLowerExactly2LaneU64Vec (v : Vec4) : Vec2 := hwy.ResizeBitCastLower v

def GetUpperExactly2LaneU64Vec (v : Vec4) : Vec2 := hwy.UpperHalf v

def GetLowerExactly1LaneU64Vec (v : Vec4) : Nat := (GetLowerExactly2LaneU64Vec v).get0

def Finalize64 (state : SimdHwyHashState) : Nat :=
  let lanes_per_u64_vec := Lanes
  let r := LoadRegs lanes_per_u64_vec state
  let r := PermuteAndUpdate r
  let r := PermuteAndUpdate r
  let r := PermuteAndUpdate r
  let r := PermuteAndUpdate r
  ((GetLowerExactly1LaneU64Vec r.v0 + GetLowerExactly1LaneU64Vec r.v1) % 2 ^ 64 +
    (GetLowerExactly1LaneU64Vec r.mul0 + GetLowerExactly1LaneU64Vec r.mul1) % 2 ^ 64) % 2 ^ 64

def Exactly2LaneU64VecAdd (a b : Vec2) : Vec2 :=
  ⟨(a.get0 + b.get0) % 2 ^ 64, (a.get1 + b.get1) % 2 ^ 64⟩

def Finalize128 (state : SimdHwyHashState) : Vec2 :=
  let lanes_per_u64_vec := Lanes
  let r := LoadRegs lanes_per_u64_vec state
  let r := PermuteAndUpdate r
  let r := PermuteAndUpdate r
  let r := PermuteAndUpdate r
  let r := PermuteAndUpdate r
  let r := PermuteAndUpdate r
  let r := PermuteAndUpdate r
  let v0_lo := GetLowerExactly2LaneU64Vec r.v0
  let v1_hi := GetUpperExactly2LaneU64Vec r.v1
  let mul0_lo := GetLowerExactly2LaneU64Vec r.mul0
  let mul1_hi := GetUpperExactly2LaneU64Vec r.mul1
  Exactly2LaneU64VecAdd (Exactly2LaneU64VecAdd v0_lo mul0_lo)
    (Exactly2LaneU64VecAdd v1_hi mul1_hi)

def AtLeast4LaneU64VecDup128 (val0 val1 : Nat) : Vec4 :=
  let vec := hwy.Dup128VecFromValues val0 val1
  CombineToAtLeast4LaneVec vec vec

def ShiftA23LeftBy1Lane (a23 : Vec4) : Vec4 := hwy.ShiftLeftLanes1 a23

def ModularReduction (a01 a23 : Vec4) : Vec4 :=
  let a2_in_odd := ShiftA23LeftBy1Lane a23
  let a23 := hwy.And a23 (AtLeast4LaneU64VecDup128 0xffffffffffffffff 0x3FFFFFFFFFFFFFFF)
  hwy.Xor3 a01
    (hwy.Or (hwy.ShiftLeft 1 a23) (hwy.ShiftRight 63 a2_in_odd))
    (hwy.Or (hwy.ShiftLeft 2 a23) (hwy.ShiftRight 62 a2_in_odd))

def Finalize256 (state : SimdHwyHashState) : Vec4 :=
  let lanes_per_u64_vec := Lanes
  let r := LoadRegs lanes_per_u64_vec state
  let r := PermuteAndUpdate r
  let r := PermuteAndUpdate r
  let r := PermuteAndUpdate r
  let r := PermuteAndUpdate r
  let r := PermuteAndUpdate r
  let r := PermuteAndUpdate r
  let r := PermuteAndUpdate r
  let r := PermuteAndUpdate r
  let r := PermuteAndUpdate r
  let r := PermuteAndUpdate r
  ModularReduction (AtLeast4LaneU64VecAdd r.v0 r.mul0) (AtLeast4LaneU64VecAdd r.v1 r.mul1)

end N_AVX2

/-! ## The scalar reference of `src/tests/simdhwyhash_test.cc` -/

namespace test

def HwyHashZipperMerge0 (v1 v0 : Nat) : Nat :=
  (((v0 &&& 0xff000000) ||| (v1 &&& 0xff00000000)) >>> 24) |||
    (((v0 &&& 0xff0000000000) ||| (v1 &&& 0xff000000000000)) >>> 16) |||
    (v0 &&& 0xff0000) ||| (((v0 &&& 0xff00) <<< 32) % 2 ^ 64) |||
    ((v1 &&& 0xff00000000000000) >>> 8) ||| ((v0 <<< 56) % 2 ^ 64)

def HwyHashZipperMerge1 (v1 v0 : Nat) : Nat :=
  (((v1 &&& 0xff000000) ||| (v0 &&& 0xff00000000)) >>> 24) |||
    (v1 &&& 0xff0000) ||| ((v1 &&& 0xff0000000000) >>> 16) |||
    (((v1 &&& 0xff00) <<< 24) % 2 ^ 64) ||| ((v0 &&& 0xff000000000000) >>> 8) |||
    (((v1 &&& 0xff) <<< 48) % 2 ^ 64) ||| (v0 &&& 0xff00000000000000)

/-- One iteration of the `for (int i = 0; i < 4; ++i)` loop of the test's
`UpdateHwyHashState`. -/
def UpdateHwyHashState.body (state : SimdHwyHashState) (i : Nat) : SimdHwyHashState :=
  let state := { state with
    mul0 := state.mul0.set i
      (state.mul0.get i ^^^
        (((state.v1.get i &&& 0xffffffff) * (state.v0.get i >>> 32)) % 2 ^ 64)) }
  let state := { state with
    v0 := state.v0.set i ((state.v0.get i + state.mul1.get i) % 2 ^ 64) }
  { state with
    mul1 := state.mul1.set i
      (state.mul1.get i ^^^
        (((state.v0.get i &&& 0xffffffff) * (state.v1.get i >>> 32)) % 2 ^ 64)) }

/-- The test's `UpdateHwyHashState(state, a0, a1, a2, a3)`. -/
def UpdateHwyHashState (state : SimdHwyHashState) (a0 a1 a2 a3 : Nat) : SimdHwyHashState :=
  let state := { state with
    v1 := state.v1.set 0 ((state.v1.get 0 + (state.mul0.get 0 + a0) % 2 ^ 64) % 2 ^ 64) }
  let state := { state with
    v1 := state.v1.set 1 ((state.v1.get 1 + (state.mul0.get 1 + a1) % 2 ^ 64) % 2 ^ 64) }
  let state := { state with
    v1 := state.v1.set 2 ((state.v1.get 2 + (state.mul0.get 2 + a2) % 2 ^ 64) % 2 ^ 64) }
  let state := { state with
    v1 := state.v1.set 3 ((state.v1.get 3 + (state.mul0.get 3 + a3) % 2 ^ 64) % 2 ^ 64) }
  let state := (List.range 4).foldl UpdateHwyHashState.body state
  let state := { state with
    v0 := state.v0.set 0
      ((state.v0.get 0 + HwyHashZipperMerge0 (state.v1.get 1) (state.v1.get 0)) % 2 ^ 64) }
  let state := { state with
    v0 := state.v0.set 1
      ((state.v0.get 1 + HwyHashZipperMerge1 (state.v1.get 1) (state.v1.get 0)) % 2 ^ 64) }
  let state := { state with
    v0 := state.v0.set 2
      ((state.v0.get 2 + HwyHashZipperMerge0 (state.v1.get 3) (state.v1.get 2)) % 2 ^ 64) }
  let state := { state with
    v0 := state.v0.set 3
      ((state.v0.get 3 + HwyHashZipperMerge1 (state.v1.get 3) (state.v1.get 2)) % 2 ^ 64) }
  let state := { state with
    v1 := state.v1.set 0
      ((state.v1.get 0 + HwyHashZipperMerge0 (state.v0.get 1) (state.v0.get 0)) % 2 ^ 64) }
  let state := { state with
    v1 := state.v1.set 1
      ((state.v1.get 1 + HwyHashZipperMerge1 (state.v0.get 1) (state.v0.get 0)) % 2 ^ 64) }
  let state := { state with
    v1 := state.v1.set 2
      ((state.v1.get 2 + HwyHashZipperMerge0 (state.v0.get 3) (state.v0.get 2)) % 2 ^ 64) }
  { state with
    v1 := state.v1.set 3
      ((state.v1.get 3 + HwyHashZipperMerge1 (state.v0.get 3) (state.v0.get 2)) % 2 ^ 64) }

/-- The test's `PermuteAndUpdateHwyHashState(state)`. -/
def PermuteAndUpdateHwyHashState (state : SimdHwyHashState) : SimdHwyHashState :=
  UpdateHwyHashState state
    ((state.v0.get 2 >>> 32) ||| ((state.v0.get 2 <<< 32) % 2 ^ 64))
    ((state.v0.get 3 >>> 32) ||| ((state.v0.get 3 <<< 32) % 2 ^ 64))
    ((state.v0.get 0 >>> 32) ||| ((state.v0.get 0 <<< 32) % 2 ^ 64))
    ((state.v0.get 1 >>> 32) ||| ((state.v0.get 1 <<< 32) % 2 ^ 64))

/-- The test's `HwyHashModularReduction<kPos>(a3_unmasked, a2, a1, a0, hash)`;
the result is the pair `hash[kPos + 0], hash[kPos + 1]` that it writes. -/
def HwyHashModularReduction (a3_unmasked a2 a1 a0 : Nat) : Vec2 :=
  let a3 := a3_unmasked &&& 0x3FFFFFFFFFFFFFFF
  let hash1 :=
    (a1 ^^^ (((a3 <<< 1) % 2 ^ 64) ||| (a2 >>> 63))) ^^^ (((a3 <<< 2) % 2 ^ 64) ||| (a2 >>> 62))
  let hash0 := (a0 ^^^ ((a2 <<< 1) % 2 ^ 64)) ^^^ ((a2 <<< 2) % 2 ^ 64)
  ⟨hash0, hash1⟩

/-- The test's `HwyHashFinalize128(state, hash)`; the result is the state it
leaves and the pair `hash[0], hash[1]`. -/
def HwyHashFinalize128 (state : SimdHwyHashState) : SimdHwyHashState × Vec2 :=
  let state := PermuteAndUpdateHwyHashState state
  let state := PermuteAndUpdateHwyHashState state
  let state := PermuteAndUpdateHwyHashState state
  let state := PermuteAndUpdateHwyHashState state
  let state := PermuteAndUpdateHwyHashState state
  let state := PermuteAndUpdateHwyHashState state
  let hash0 :=
    (((state.v0.get 0 + state.mul0.get 0) % 2 ^ 64 + state.v1.get 2) % 2 ^ 64 +
      state.mul1.get 2) % 2 ^ 64
  let hash1 :=
    (((state.v0.get 1 + state.mul0.get 1) % 2 ^ 64 + state.v1.get 3) % 2 ^ 64 +
      state.mul1.get 3) % 2 ^ 64
  (state, ⟨hash0, hash1⟩)

/-- The test's `HwyHashFinalize256(state, hash)`; the result is the state it
leaves and `hash[0], ..., hash[3]`. -/
def HwyHashFinalize256 (state : SimdHwyHashState) : SimdHwyHashState × Vec4 :=
  let state := PermuteAndUpdateHwyHashState state
  let state := PermuteAndUpdateHwyHashState state
  let state := PermuteAndUpdateHwyHashState state
  let state := PermuteAndUpdateHwyHashState state
  let state := PermuteAndUpdateHwyHashState state
  let state := PermuteAndUpdateHwyHashState state
  let state := PermuteAndUpdateHwyHashState state
  let state := PermuteAndUpdateHwyHashState state
  let state := PermuteAndUpdateHwyHashState state
  let state := PermuteAndUpdateHwyHashState state
  let lo := HwyHashModularReduction
    ((state.v1.get 1 + state.mul1.get 1) % 2 ^ 64) ((state.v1.get 0 + state.mul1.get 0) % 2 ^ 64)
    ((state.v0.get 1 + state.mul0.get 1) % 2 ^ 64) ((state.v0.get 0 + state.mul0.get 0) % 2 ^ 64)
  let hi := HwyHashModularReduction
    ((state.v1.get 3 + state.mul1.get 3) % 2 ^ 64) ((state.v1.get 2 + state.mul1.get 2) % 2 ^ 64)
    ((state.v0.get 3 + state.mul0.get 3) % 2 ^ 64) ((state.v0.get 2 + state.mul0.get 2) % 2 ^ 64)
  (state, ⟨lo.get0, lo.get1, hi.get0, hi.get1⟩)

end test

/-! ## The round in the words of the specification -/

namespace spec

/-- Apply a binary operation on `u64` lane by lane. -/
def lanewise (f : Nat → Nat → Nat) (a b : Vec4) : Vec4 :=
  ⟨f a.get0 b.get0, f a.get1 b.get1, f a.get2 b.get2, f a.get3 b.get3⟩

/-- The sum modulo `2^64`. -/
def add64 (x y : Nat) : Nat := (x + y) % 2 ^ 64

/-- The product `low32(x) * high32(y)` modulo `2^64`. -/
def mul_low_high (x y : Nat) : Nat := ((x &&& 0xffffffff) * (y >>> 32)) % 2 ^ 64

/-- The zipper merge of the kernel applied within each 128-bit half. -/
def zipper_merge (v : Vec4) : Vec4 :=
  let lo := ZipperMerge ⟨v.get0, v.get1⟩
  let hi := ZipperMerge ⟨v.get2, v.get3⟩
  ⟨lo.get0, lo.get1, hi.get0, hi.get1⟩

/-- The six steps of the full 32-byte packet round of section 4.4, in order. -/
def round (s : Regs Vec4) (A : Vec4) : Regs Vec4 :=
  let v1 := lanewise add64 s.v1 (lanewise add64 s.mul0 A)
  let mul0 := lanewise Nat.xor s.mul0 (lanewise mul_low_high v1 s.v0)
  let v0 := lanewise add64 s.v0 s.mul1
  let mul1 := lanewise Nat.xor s.mul1 (lanewise mul_low_high v0 v1)
  let v0 := lanewise add64 v0 (zipper_merge v1)
  let v1 := lanewise add64 v1 (zipper_merge v0)
  { v0 := v0, v1 := v1, mul0 := mul0, mul1 := mul1 }

/-- Rotation of the 32-bit value `x` left by `r` bits, for `0 < r < 32`. -/
def rotl32 (x r : Nat) : Nat := (x * 2 ^ r) % 2 ^ 32 + x / 2 ^ (32 - r)

/-- The `u64` whose low and high 32-bit halves are those of `x`, each rotated
left by `r` bits. -/
def rotate_u32_halves (x r : Nat) : Nat :=
  rotl32 ((x / 2 ^ 32) % 2 ^ 32) r * 2 ^ 32 + rotl32 (x % 2 ^ 32) r

/-- The swap of the two 32-bit halves of a `u64`, `(x >> 32) | (x << 32)`. -/
def rot32 (x : Nat) : Nat := (x >>> 32) ||| ((x <<< 32) % 2 ^ 64)

end spec

/-! ## Test data of `src/tests/simdhwyhash_test.cc` -/

/-- The table `kExpected64` of `TEST(SimdHwyHashTest, TestArrays)`. -/
def kExpected64 : List Nat :=
  [0x907A56DE22C26E53, 0x7EAB43AAC7CDDD78, 0xB8D0569AB0B53D62,
   0x5C6BEFAB8A463D80, 0xF205A46893007EDA, 0x2B8A1668E4A94541,
   0xBD4CCC325BEFCA6F, 0x4D02AE1738F59482, 0xE1205108E55F3171,
   0x32D2644EC77A1584, 0xF6E10ACDB103A90B, 0xC3BBF4615B415C15,
   0x243CC2040063FA9C, 0xA89A58CE65E641FF, 0x24B031A348455A23,
   0x40793F86A449F33B, 0xCFAB3489F97EB832, 0x19FE67D2C8C5C0E2,
   0x04DD90A69C565CC2, 0x75D9518E2371C504, 0x38AD9B1141D3DD16,
   0x0264432CCD8A70E0, 0xA9DB5A6288683390, 0xD7B05492003F028C,
   0x205F615AEA59E51E, 0xEEE0C89621052884, 0x1BFC1A93A7284F4F,
   0x512175B5B70DA91D, 0xF71F8976A0A2C639, 0xAE093FEF1F84E3E7,
   0x22CA92B01161860F, 0x9FC7007CCF035A68, 0xA0C964D9ECD580FC,
   0x2C90F73CA03181FC, 0x185CF84E5691EB9E, 0x4FC1F5EF2752AA9B,
   0xF5B7391A5E0A33EB, 0xB9B84B83B4E96C9C, 0x5E42FE712A5CD9B4,
   0xA150F2F90C3F97DC, 0x7FA522D75E2D637D, 0x181AD0CC0DFFD32B,
   0x3889ED981E854028, 0xFB4297E8C586EE2D, 0x6D064A45BB28059C,
   0x90563609B3EC860C, 0x7AA4FCE94097C666, 0x1326BAC06B911E08,
   0xB926168D2B154F34, 0x9919848945B1948D, 0xA2A98FC534825EBE,
   0xE9809095213EF0B6, 0x582E5483707BC0E9, 0x086E9414A88A6AF5,
   0xEE86B98D20F6743D, 0xF89B7FF609B1C0A7, 0x4C7D9CC19E22C3E8,
   0x9A97005024562A6F, 0x5DD41CF423E6EBEF, 0xDF13609C0468E227,
   0x6E0DA4F64188155A, 0xB755BA4B50D7D4A1, 0x887A3484647479BD,
   0xAB8EEBE9BF2139A0, 0x75542C5D4CD2A6FF]

/-- The key `kKey` of `TestArrays`, `TestHash128` and `TestHash256`. -/
def kKey : U64x4 :=
  ⟨0x0706050403020100, 0x0F0E0D0C0B0A0908, 0x1716151413121110, 0x1F1E1D1C1B1A1918⟩

/-- The input `kData` of `TestArrays`, `TestHash128` and `TestHash256`. -/
def kData : List Nat :=
  [0, 1, 2, 3, 4, 5, 6, 7, 8, 9, 10, 11, 12, 13, 14, 15, 16,
   17, 18, 19, 20, 21, 22, 23, 24, 25, 26, 27, 28, 29, 30, 31, 32, 33,
   34, 35, 36, 37, 38, 39, 40, 41, 42, 43, 44, 45, 46, 47, 48, 49, 50,
   51, 52, 53, 54, 55, 56, 57, 58, 59, 60, 61, 62, 63, 64]

/-- The key `kKey` of `TEST(SimdHwyHashTest, TestKnownValuesWithKey1234)`. -/
def kKey1234 : U64x4 := ⟨1, 2, 3, 4⟩

/-- The input `kB0` of `TestKnownValuesWithKey1234`. -/
def kB0 : List Nat :=
  [128, 129, 130, 131, 132, 133, 134, 135, 136, 137, 138,
   139, 140, 141, 142, 143, 144, 145, 146, 147, 148, 149,
   150, 151, 152, 153, 154, 155, 156, 157, 158, 159, 160]

/-- The input `kB1` of `TestKnownValuesWithKey1234`. -/
def kB1 : List Nat := [255]

/-! ## Streams of calls and sequences of rounds -/

/-- The loop `for (; ptr != full32_end_ptr; ptr += 32)` of `UpdateHwyHashState`
with its test kept: `ptr` and `full32_end_ptr` are offsets into `data`, and
the loop runs for at most `fuel` iterations; `none` when it has not stopped by
then.  It returns the registers and the final `ptr`. -/
def UpdateHwyHashState.loop_until (lanes_per_u64_vec : Nat) (data : List Nat)
    (full32_end_ptr : Nat) : Nat → Regs Vec4 → Nat → Option (Regs Vec4 × Nat)
  | 0, r, ptr => if ptr ≠ full32_end_ptr then none else some (r, ptr)
  | fuel + 1, r, ptr =>
    if ptr ≠ full32_end_ptr then
      UpdateHwyHashState.loop_until lanes_per_u64_vec data full32_end_ptr fuel
        (DoHwyHashUpdate r (LoadAtLeast4LanePacketVec lanes_per_u64_vec (data.drop ptr)))
        (ptr + 32)
    else some (r, ptr)

namespace spec

/-- The state after a stream of `Update` calls, one for each chunk in order. -/
def stream_updates (s : SimdHwyHashState) (chunks : List (List Nat)) : SimdHwyHashState :=
  chunks.foldl (fun st c => SimdHwyHash_Update st c c.length) s

/-- The registers after `k` full-packet rounds over the packets of `data` at
the byte offsets `0, 32, ..., 32 * (k - 1)`, in increasing order. -/
def full_rounds (r : Regs Vec4) (data : List Nat) (k : Nat) : Regs Vec4 :=
  (List.range k).foldl
    (fun q i => DoHwyHashUpdate q (LoadAtLeast4LanePacketVec Lanes (data.drop (32 * i)))) r

/-- The bytes of `data` at the offsets `32 * (n / 32) .. n - 1`. -/
def tail_bytes (data : List Nat) (n : Nat) : List Nat :=
  (data.drop (32 * (n / 32))).take (n % 32)

/-- The remainder round over the bytes at the offsets `32 * (n / 32) .. n - 1`:
the length mix followed by a round on the remainder packet. -/
def remainder_round (r : Regs Vec4) (data : List Nat) (n : Nat) : Regs Vec4 :=
  DoHwyHashUpdate (UpdateHwyHashState.mixLength r (n % 32))
    (LoadRemainderPacket Lanes (tail_bytes data n) (n % 32))

/-- The sequence of rounds of an input of `n` bytes: `n / 32` full-packet
rounds, then one remainder round if and only if `n % 32 ≠ 0`. -/
def update_rounds (r : Regs Vec4) (data : List Nat) (n : Nat) : Regs Vec4 :=
  if n % 32 ≠ 0 then remainder_round (full_rounds r data (n / 32)) data n
  else full_rounds r data (n / 32)

end spec

/-! ## The finalizers as calls on a state in memory -/

/-- What a finalizer works on: the state behind the pointer `state`, and the
local vectors `v0, v1, mul0, mul1`. -/
structure FinalizeFrame where
  state : SimdHwyHashState
  r : Regs Vec4
  deriving DecidableEq, Repr

/-- The four `LoadAtLeast4LaneStateVec` calls that open each finalizer: they
read the state into the locals. -/
def FinalizeFrame.load (state : SimdHwyHashState) : FinalizeFrame :=
  { state := state, r := LoadRegs Lanes state }

/-- A call `PermuteAndUpdate(v0, v1, mul0, mul1)`, which works on the locals
by reference. -/
def FinalizeFrame.PermuteAndUpdate (f : FinalizeFrame) : FinalizeFrame :=
  { f with r := simdhwyhash.PermuteAndUpdate f.r }

/-- A call `Finalize64(state)`: the state it leaves and the value it
returns. -/
def Finalize64.call (state : SimdHwyHashState) : SimdHwyHashState × Nat :=
  let f := FinalizeFrame.load state
  let f := f.PermuteAndUpdate
  let f := f.PermuteAndUpdate
  let f := f.PermuteAndUpdate
  let f := f.PermuteAndUpdate
  (f.state,
    Add (Add (GetLowerExactly1LaneU64Vec f.r.v0) (GetLowerExactly1LaneU64Vec f.r.v1))
      (Add (GetLowerExactly1LaneU64Vec f.r.mul0) (GetLowerExactly1LaneU64Vec f.r.mul1)))

/-- A call `Finalize128(state, hash)`: the state it leaves and the two words
it stores to `hash`, which does not overlap the state (`HWY_RESTRICT`). -/
def Finalize128.call (state : SimdHwyHashState) : SimdHwyHashState × Vec2 :=
  let f := FinalizeFrame.load state
  let f := f.PermuteAndUpdate
  let f := f.PermuteAndUpdate
  let f := f.PermuteAndUpdate
  let f := f.PermuteAndUpdate
  let f := f.PermuteAndUpdate
  let f := f.PermuteAndUpdate
  let v0_lo := GetLowerExactly2LaneU64Vec f.r.v0
  let v1_hi := GetUpperExactly2LaneU64Vec f.r.v1
  let mul0_lo := GetLowerExactly2LaneU64Vec f.r.mul0
  let mul1_hi := GetUpperExactly2LaneU64Vec f.r.mul1
  (f.state,
    Exactly2LaneU64VecAdd (Exactly2LaneU64VecAdd v0_lo mul0_lo)
      (Exactly2LaneU64VecAdd v1_hi mul1_hi))

/-- A call `Finalize256(state, hash)`: the state it leaves and the four words
it stores to `hash`, which does not overlap the state (`HWY_RESTRICT`). -/
def Finalize256.call (state : SimdHwyHashState) : SimdHwyHashState × Vec4 :=
  let f := FinalizeFrame.load state
  let f := f.PermuteAndUpdate
  let f := f.PermuteAndUpdate
  let f := f.PermuteAndUpdate
  let f := f.PermuteAndUpdate
  let f := f.PermuteAndUpdate
  let f := f.PermuteAndUpdate
  let f := f.PermuteAndUpdate
  let f := f.PermuteAndUpdate
  let f := f.PermuteAndUpdate
  let f := f.PermuteAndUpdate
  (f.state,
    ModularReduction (AtLeast4LaneU64VecAdd f.r.v0 f.r.mul0)
      (AtLeast4LaneU64VecAdd f.r.v1 f.r.mul1))

/-! ## The shift counts of the scalar rotate -/

/-- The local `shl_amt` of the scalar branch of `AtLeast2LaneU64VecRolU32`. -/
def AtLeast2LaneU64VecRolU32.shl_amt (b : Vec2) : Nat := b.get0 &&& 0xffffffff

/-- The local `shr_amt` of the scalar branch of `AtLeast2LaneU64VecRolU32`,
`(-shl_amt) & 31` on the 32-bit two's complement pattern of the `int`. -/
def AtLeast2LaneU64VecRolU32.shr_amt (b : Vec2) : Nat :=
  ((2 ^ 32 - AtLeast2LaneU64VecRolU32.shl_amt b) % 2 ^ 32) &&& 31

/-- The expression `static_cast<uint32_t>((a << shl_amt) | (a >> shr_amt))` on
a `uint32_t` value `a`. -/
def AtLeast2LaneU64VecRolU32.rot (a shl_amt shr_amt : Nat) : Nat :=
  (((a <<< shl_amt) % 2 ^ 32) ||| (a >>> shr_amt)) % 2 ^ 32

/-- The vector `vu64_len_x4` of `UpdateHwyHashState`, in the scalar branch. -/
def UpdateHwyHashState.vu64_len_x4 (remainder_len : Nat) : Vec4 :=
  let vu64_len_x1 := ((remainder_len <<< 32) % 2 ^ 64) ||| remainder_len
  let vu64_len_x2 := Create2 vu64_len_x1 vu64_len_x1
  CombineToAtLeast4LaneVec vu64_len_x2 vu64_len_x2

/-! ## The remainder packet with every access checked -/

/-- The copy `CopyBytes(src + soff, dst + doff, n)` where `src` and `dst` are
the whole objects pointed into: `none` as soon as a byte is read outside `src`
or written outside `dst`. -/
def CopyBytes.checked (src : List Nat) (soff : Nat) (dst : List Nat) (doff : Nat) :
    Nat → Option (List Nat)
  | 0 => some dst
  | n + 1 =>
    match CopyBytes.checked src soff dst doff n with
    | none => none
    | some d =>
      if soff + n < src.length ∧ doff + n < d.length then
        some (d.set (doff + n) (src.getD (soff + n) 0))
      else none

/-- The assignment `dst[i] = src[j]` with both accesses checked. -/
def AssignByte.checked (dst : List Nat) (i : Nat) (src : List Nat) (j : Nat) :
    Option (List Nat) :=
  if j < src.length ∧ i < dst.length then some (dst.set i (src.getD j 0)) else none

/-- The local buffer `packet_bytes` of the scalar branch of
`LoadRemainderPacket` where `ptr` is the whole readable source: `none` as soon
as an access falls outside the source, `packet_bytes` or `trailing_bytes`, or
the pointer `ptr + remainder_len - 4` falls before the source. -/
def LoadRemainderPacket.packet_bytes_checked (ptr : List Nat) (remainder_len : Nat) :
    Option (List Nat) :=
  let u32_load_byte_len := remainder_len &&& 0xfffffffc
  let packet_bytes := ZeroBytes 32
  match CopyBytes.checked ptr 0 packet_bytes 0 u32_load_byte_len with
  | none => none
  | some packet_bytes =>
    if remainder_len ≥ 16 then
      if remainder_len < 4 then none
      else
        match CopyBytes.checked ptr (remainder_len - 4) (ZeroBytes 4) 0 4 with
        | none => none
        | some trailing_bytes => CopyBytes.checked trailing_bytes 0 packet_bytes (32 - 4) 4
    else
      let trailing3_len := remainder_len &&& 3
      if trailing3_len ≠ 0 then
        match AssignByte.checked packet_bytes 16 ptr u32_load_byte_len with
        | none => none
        | some packet_bytes =>
          match AssignByte.checked packet_bytes 17 ptr
              (u32_load_byte_len + (trailing3_len >>> 1)) with
          | none => none
          | some packet_bytes =>
            if u32_load_byte_len + trailing3_len < 1 then none
            else AssignByte.checked packet_bytes 18 ptr (u32_load_byte_len + trailing3_len - 1)
      else some packet_bytes

/-! ## The inverse of the round and the places of the tail bytes -/

/-- All sixteen lanes of the registers are below `2^64`. -/
def Regs.lt64 (r : Regs Vec4) : Prop :=
  r.v0.lt64 ∧ r.v1.lt64 ∧ r.mul0.lt64 ∧ r.mul1.lt64

namespace spec

/-- The difference modulo `2^64`. -/
def sub64 (x y : Nat) : Nat := (x + (2 ^ 64 - y % 2 ^ 64)) % 2 ^ 64

/-- The six steps of the round undone in reverse order. -/
def round_inverse (t : Regs Vec4) (A : Vec4) : Regs Vec4 :=
  let v1 := lanewise sub64 t.v1 (zipper_merge t.v0)
  let v0 := lanewise sub64 t.v0 (zipper_merge v1)
  let mul1 := lanewise Nat.xor t.mul1 (lanewise mul_low_high v0 v1)
  let v0 := lanewise sub64 v0 mul1
  let mul0 := lanewise Nat.xor t.mul0 (lanewise mul_low_high v1 v0)
  let v1 := lanewise sub64 v1 (lanewise add64 mul0 A)
  { v0 := v0, v1 := v1, mul0 := mul0, mul1 := mul1 }

/-- The position in the remainder packet of a tail of `r` bytes at which the
source byte `i` is found. -/
def packet_position (r i : Nat) : Nat :=
  if i < 4 * (r / 4) then i
  else if 16 ≤ r then 28 + (i - (r - 4))
  else 16 + (i - 4 * (r / 4))

end spec

instance Vec4.decidable_lt64 (v : Vec4) : Decidable v.lt64 :=
  inferInstanceAs
    (Decidable (v.get0 < 2 ^ 64 ∧ v.get1 < 2 ^ 64 ∧ v.get2 < 2 ^ 64 ∧ v.get3 < 2 ^ 64))

instance Regs.decidable_lt64 (r : Regs Vec4) : Decidable r.lt64 :=
  inferInstanceAs (Decidable (r.v0.lt64 ∧ r.v1.lt64 ∧ r.mul0.lt64 ∧ r.mul1.lt64))

/-! ## The remainder packet of a 128-bit vector target

The branch `HWY_MAX_BYTES < 32` of `LoadRemainderPacket` on a little-endian
target with vectors of 16 bytes, such as `HWY_SSE4` or `HWY_NEON`:
`HighwayHashDU64` has two lanes and `AtLeast4LaneU64Vec` is the tuple of two
vectors. -/

namespace hwy

/-- The operation `LoadN(du8, p, n)` on a vector of 16 `uint8_t` lanes: the
first `n` bytes at `p`, then zeros. -/
def LoadN_U8x16 (p : List Nat) (n : Nat) : List Nat :=
  (List.range 16).map fun i => if i < n then p.getD i 0 else 0

/-- The operation `BitCast(du32, v)` of a vector of 16 `uint8_t` lanes. -/
def BitCastU8x16ToU32 (v : List Nat) : List Nat :=
  (List.range 4).map fun i =>
    v.getD (4 * i) 0 + v.getD (4 * i + 1) 0 * 2 ^ 8 + v.getD (4 * i + 2) 0 * 2 ^ 16 +
      v.getD (4 * i + 3) 0 * 2 ^ 24

/-- The operation `BitCast(du64, v)` of a vector of four `uint32_t` lanes. -/
def BitCastU32x4ToU64 (v : List Nat) : Vec2 :=
  ⟨v.getD 0 0 + v.getD 1 0 * 2 ^ 32, v.getD 2 0 + v.getD 3 0 * 2 ^ 32⟩

end hwy

namespace N_SSE4

/-- The number of lanes `Lanes(HighwayHashDU64())` of this target. -/
def Lanes : Nat := 2

/-- The tuple `Create2(HighwayHashDU64(), lo, hi)`, as its four lanes in
order. -/
def CombineToAtLeast4LaneVec (lo hi : Vec2) : Vec4 :=
  ⟨lo.get0, lo.get1, hi.get0, hi.get1⟩

/-- The `uint32_t` read by `CopyBytes(p, &trailing_bytes, 4)`. -/
def LoadU32 (p : List Nat) : Nat :=
  p.getD 0 0 + p.getD 1 0 * 2 ^ 8 + p.getD 2 0 * 2 ^ 16 + p.getD 3 0 * 2 ^ 24

/-- The function `LoadRemainderPacket`, in its branch with two `LoadN` of 16
bytes. -/
def LoadRemainderPacket (lanes_per_u64_vec : Nat) (ptr : List Nat) (remainder_len : Nat) :
    Vec4 :=
  let u32_load_byte_len := remainder_len &&& 0xfffffffc
  let lanes_per_u8_vec := lanes_per_u64_vec * 8
  let lo_u32_load_byte_len := min u32_load_byte_len lanes_per_u8_vec
  let hi_u32_load_byte_len := u32_load_byte_len - lo_u32_load_byte_len
  let v_lo := hwy.BitCastU8x16ToU32 (hwy.LoadN_U8x16 ptr lo_u32_load_byte_len)
  let v_hi :=
    hwy.BitCastU8x16ToU32
      (hwy.LoadN_U8x16 (ptr.drop lo_u32_load_byte_len) hi_u32_load_byte_len)
  let v_hi :=
    if remainder_len ≥ 16 then
      let trailing_bytes := LoadU32 (ptr.drop (remainder_len - 4))
      hwy.InsertLane v_hi 3 trailing_bytes
    else
      let trailing3_len := remainder_len &&& 3
      if trailing3_len ≠ 0 then
        let packet_b16 := ptr.getD u32_load_byte_len 0
        let packet_b17 := ptr.getD (u32_load_byte_len + (trailing3_len >>> 1)) 0
        let packet_b18 := ptr.getD (u32_load_byte_len + trailing3_len - 1) 0
        let trailing_bytes :=
          packet_b16 ||| ((packet_b17 <<< 8) % 2 ^ 32) ||| ((packet_b18 <<< 16) % 2 ^ 32)
        hwy.InsertLane v_hi 0 trailing_bytes
      else v_hi
  let v64_lo := hwy.BitCastU32x4ToU64 v_lo
  let v64_hi := hwy.BitCastU32x4ToU64 v_hi
  CombineToAtLeast4LaneVec v64_lo v64_hi

end N_SSE4

/-! ## Known digests -/

set_option maxRecDepth 100000 in
/-- Claim C1, as amended: for every `n ≤ 64`, the 64-bit digest of the first
`n` bytes of `kData` (`D[i] = i`) under `KEY_B` is `kExpected64[n]`; `n = 0`
gives `0x907A56DE22C26E53`, `n = 1` gives `0x7EAB43AAC7CDDD78`, `n = 32` gives
`0xA0C964D9ECD580FC`, `n = 33` gives `0x2C90F73CA03181FC` and `n = 64` gives
`0x75542C5D4CD2A6FF`, while `0xCFAB3489F97EB832` and `0x19FE67D2C8C5C0E2` are
the digests for `n = 16` and `n = 17`. -/
theorem hash64_matches_kExpected64 (n : Nat) (hn : n ≤ 64) :
    SimdHwyHash_Hash64 kData n kKey = kExpected64.getD n 0 ∧
    SimdHwyHash_Hash64 kData 0 kKey = 0x907A56DE22C26E53 ∧
    SimdHwyHash_Hash64 kData 1 kKey = 0x7EAB43AAC7CDDD78 ∧
    SimdHwyHash_Hash64 kData 32 kKey = 0xA0C964D9ECD580FC ∧
    SimdHwyHash_Hash64 kData 33 kKey = 0x2C90F73CA03181FC ∧
    SimdHwyHash_Hash64 kData 64 kKey = 0x75542C5D4CD2A6FF ∧
    SimdHwyHash_Hash64 kData 16 kKey = 0xCFAB3489F97EB832 ∧
    SimdHwyHash_Hash64 kData 17 kKey = 0x19FE67D2C8C5C0E2 := by
  have all : ∀ m, m < 65 → SimdHwyHash_Hash64 kData m kKey = kExpected64.getD m 0 := by
    decide
  exact ⟨all n (by omega), all 0 (by omega), all 1 (by omega), all 32 (by omega),
    all 33 (by omega), all 64 (by omega), all 16 (by omega), all 17 (by omega)⟩

/-- The amended claim C1 at `n = 48`, a length with one full packet and a
16-byte tail. -/
theorem hash64_matches_kExpected64_witness :
    48 ≤ 64 ∧ SimdHwyHash_Hash64 kData 48 kKey = 0xB926168D2B154F34 :=
  ⟨by decide, (hash64_matches_kExpected64 48 (by decide)).1⟩

/-- Claim C1 as written fails: the digests of the first 32 and of the first 33
bytes of `kData` are not the quoted `0xCFAB3489F97EB832` and
`0x19FE67D2C8C5C0E2`. -/
theorem hash64_kData_32_33_not_as_quoted :
    ¬ (SimdHwyHash_Hash64 kData 32 kKey = 0xCFAB3489F97EB832 ∧
       SimdHwyHash_Hash64 kData 33 kKey = 0x19FE67D2C8C5C0E2) ∧
    SimdHwyHash_Hash64 kData 32 kKey ≠ 0xCFAB3489F97EB832 ∧
    SimdHwyHash_Hash64 kData 33 kKey ≠ 0x19FE67D2C8C5C0E2 := by
  decide

/-- Claim C2: under `KEY_A = {1, 2, 3, 4}` the 64-bit digest of the 33 bytes
`128, ..., 160` is `0x53c516cce478cad7` and that of the single byte `0xFF` is
`0x7858f24d2d79b2b2`. -/
theorem hash64_known_values_key1234 :
    SimdHwyHash_Hash64 kB0 33 kKey1234 = 0x53c516cce478cad7 ∧
    SimdHwyHash_Hash64 kB1 1 kKey1234 = 0x7858f24d2d79b2b2 := by
  constructor <;> decide

/-! ## Reset -/

/-- The state written by `ResetHwyHashState`, lane by lane. -/
theorem ResetHwyHashState_eq (state : SimdHwyHashState) (key : U64x4) :
    ResetHwyHashState state key =
      { v0 := ⟨key.a0 ^^^ kMul0.a0, key.a1 ^^^ kMul0.a1, key.a2 ^^^ kMul0.a2,
               key.a3 ^^^ kMul0.a3⟩
        v1 := ⟨RotateRight 32 key.a0 ^^^ kMul1.a0, RotateRight 32 key.a1 ^^^ kMul1.a1,
               RotateRight 32 key.a2 ^^^ kMul1.a2, RotateRight 32 key.a3 ^^^ kMul1.a3⟩
        mul0 := kMul0
        mul1 := kMul1 } := by
  rfl

/-- Claim C5: whatever the state held before, `Reset` with key `K` leaves
`mul0 = MUL0`, `mul1 = MUL1`, `v0[i] = K[i] xor MUL0[i]` and
`v1[i] = ((K[i] >> 32) | (K[i] << 32)) xor MUL1[i]`, the left shift taken in
64 bits. -/
theorem reset_writes_key_xor_constants (state : SimdHwyHashState) (K : U64x4) :
    SimdHwyHash_Reset state K =
      { mul0 := ⟨0xdbe6d5d5fe4cce2f, 0xa4093822299f31d0, 0x13198a2e03707344,
                 0x243f6a8885a308d3⟩
        mul1 := ⟨0x3bd39e10cb0ef593, 0xc0acf169b5f18a8c, 0xbe5466cf34e90c6c,
                 0x452821e638d01377⟩
        v0 := ⟨K.a0 ^^^ 0xdbe6d5d5fe4cce2f, K.a1 ^^^ 0xa4093822299f31d0,
               K.a2 ^^^ 0x13198a2e03707344, K.a3 ^^^ 0x243f6a8885a308d3⟩
        v1 := ⟨((K.a0 >>> 32) ||| ((K.a0 <<< 32) % 2 ^ 64)) ^^^ 0x3bd39e10cb0ef593,
               ((K.a1 >>> 32) ||| ((K.a1 <<< 32) % 2 ^ 64)) ^^^ 0xc0acf169b5f18a8c,
               ((K.a2 >>> 32) ||| ((K.a2 <<< 32) % 2 ^ 64)) ^^^ 0xbe5466cf34e90c6c,
               ((K.a3 >>> 32) ||| ((K.a3 <<< 32) % 2 ^ 64)) ^^^ 0x452821e638d01377⟩ } := by
  rw [SimdHwyHash_Reset, ResetHwyHashState_eq]
  rfl

/-- Claim C6: two states with arbitrary prior contents are equal, in all
sixteen words, after `Reset` with the same key. -/
theorem reset_independent_of_prior_state (s1 s2 : SimdHwyHashState) (key : U64x4) :
    SimdHwyHash_Reset s1 key = SimdHwyHash_Reset s2 key := by
  rw [SimdHwyHash_Reset, SimdHwyHash_Reset, ResetHwyHashState_eq, ResetHwyHashState_eq]

/-- Claim C3: each one-shot hash of a byte string `B` under a key equals the
corresponding finalizer applied to the state obtained by `Reset` with that key
(on a state of any prior content) followed by one `Update` with `B`. -/
theorem one_shot_eq_reset_update_finalize (s0 : SimdHwyHashState) (key : U64x4)
    (B : List Nat) :
    SimdHwyHash_Hash64 B B.length key =
        SimdHwyHash_Finalize64
          (SimdHwyHash_Update (SimdHwyHash_Reset s0 key) B B.length) ∧
    SimdHwyHash_Hash128 B B.length key =
        SimdHwyHash_Finalize128
          (SimdHwyHash_Update (SimdHwyHash_Reset s0 key) B B.length) ∧
    SimdHwyHash_Hash256 B B.length key =
        SimdHwyHash_Finalize256
          (SimdHwyHash_Update (SimdHwyHash_Reset s0 key) B B.length) := by
  have h : SimdHwyHash_Reset uninitialized key = SimdHwyHash_Reset s0 key := by
    rw [SimdHwyHash_Reset, SimdHwyHash_Reset, ResetHwyHashState_eq, ResetHwyHashState_eq]
  simp only [SimdHwyHash_Hash64, SimdHwyHash_Hash128, SimdHwyHash_Hash256, h, and_self]

/-! ## The round -/

theorem ZipperMerge_eq_test (x y : Nat) :
    ZipperMerge ⟨x, y⟩ =
      ⟨test.HwyHashZipperMerge0 y x, test.HwyHashZipperMerge1 y x⟩ := by
  simp only [ZipperMerge, test.HwyHashZipperMerge0, test.HwyHashZipperMerge1, Create2, Or, Or3,
    OrAnd, And, ShiftLeft, ShiftRight, Nat.lor_assoc]

/-- The round of the kernel is the six-step round of the specification. -/
theorem DoHwyHashUpdate_eq_round (r : Regs Vec4) (a : Vec4) :
    DoHwyHashUpdate r a = spec.round r a := by
  rfl

/-- The round of the kernel, stored into a state, is the result of the test's
scalar reference. -/
theorem DoHwyHashUpdate_eq_test (state : SimdHwyHashState) (a : Vec4) :
    StoreRegs Lanes (DoHwyHashUpdate (LoadRegs Lanes state) a) state =
      test.UpdateHwyHashState state a.get0 a.get1 a.get2 a.get3 := by
  simp only [test.UpdateHwyHashState, test.UpdateHwyHashState.body, List.range, List.range.loop,
    List.foldl, U64x4.get, U64x4.set, StoreRegs, LoadRegs, DoHwyHashUpdate, DoHwyHashUpdate_Vec2,
    HwyHashUpdateStep1_Vec2, HwyHashUpdateStep1, AtLeast2LaneU64VecAdd, Lanes,
    StoreAtLeast4LaneStateVec, StoreAtLeast2LaneStateVec, LoadAtLeast4LaneStateVec,
    LoadAtLeast2LaneStateVec, GetLowerAtLeast2LaneVec, GetUpperAtLeast2LaneVec,
    CombineToAtLeast4LaneVec, Create2, Create4, ZipperMerge_eq_test, Add, Mul, And, Xor,
    ShiftRight]
  rfl

/-! ## Arithmetic of the length mix -/

theorem and_31 (n : Nat) : n &&& 31 = n % 32 := by
  exact Nat.and_pow_two_sub_one_eq_mod n 5

theorem and_neg_32 (n : Nat) (h : n < 2 ^ 64) : n &&& (2 ^ 64 - 32) = 32 * (n / 32) := by
  have e1 : (2 ^ 64 - 32 : Nat) = 2 ^ 5 * (2 ^ 59 - 1) := by norm_num
  have e2 : 32 * (n / 32) = 2 ^ 5 * (n >>> 5) := by
    rw [Nat.shiftRight_eq_div_pow]; norm_num
  rw [e1, e2]
  apply Nat.eq_of_testBit_eq
  intro i
  rw [Nat.testBit_and, Nat.testBit_mul_pow_two, Nat.testBit_mul_pow_two,
    Nat.testBit_two_pow_sub_one, Nat.testBit_shiftRight]
  by_cases h5 : 5 ≤ i
  · have e3 : 5 + (i - 5) = i := by omega
    rw [e3]
    by_cases h64 : i < 64
    · have : i - 5 < 59 := by omega
      simp [h5, this]
    · have hn : n.testBit i = false := by
        apply Nat.testBit_lt_two_pow
        calc n < 2 ^ 64 := h
          _ ≤ 2 ^ i := Nat.pow_le_pow_right (by norm_num) (by omega)
      simp [hn]
  · simp [h5]

theorem full32_count (n : Nat) (h : n < 2 ^ 64) : (n &&& (2 ^ 64 - 32)) / 32 = n / 32 := by
  rw [and_neg_32 n h]; omega

theorem rol_u32 (x r : Nat) (hx : x < 2 ^ 32) (h1 : 1 ≤ r) (h31 : r ≤ 31) :
    (((x <<< r) % 2 ^ 32) ||| (x >>> (32 - r))) % 2 ^ 32 = spec.rotl32 x r := by
  have hp : (2 : Nat) ^ 32 = 2 ^ (32 - r) * 2 ^ r := by
    rw [← Nat.pow_add]; congr 1; omega
  have hlo : x / 2 ^ (32 - r) < 2 ^ r := by
    rw [Nat.div_lt_iff_lt_mul (Nat.pow_pos (by norm_num))]
    rw [Nat.mul_comm, ← hp]; exact hx
  have hhi : (x * 2 ^ r) % 2 ^ 32 = 2 ^ r * (x % 2 ^ (32 - r)) := by
    rw [hp, Nat.mul_mod_mul_right, Nat.mul_comm]
  have hc : x % 2 ^ (32 - r) < 2 ^ (32 - r) := Nat.mod_lt _ (Nat.pow_pos (by norm_num))
  rw [spec.rotl32, Nat.shiftLeft_eq, Nat.shiftRight_eq_div_pow, hhi,
    ← Nat.mul_add_lt_is_or hlo]
  apply Nat.mod_eq_of_lt
  calc 2 ^ r * (x % 2 ^ (32 - r)) + x / 2 ^ (32 - r)
      < 2 ^ r * (x % 2 ^ (32 - r)) + 2 ^ r := by omega
    _ = 2 ^ r * (x % 2 ^ (32 - r) + 1) := by ring
    _ ≤ 2 ^ r * 2 ^ (32 - r) := Nat.mul_le_mul_left _ hc
    _ = 2 ^ 32 := by rw [hp, Nat.mul_comm]

theorem rotl32_lt (x r : Nat) (hx : x < 2 ^ 32) (h1 : 1 ≤ r) (h31 : r ≤ 31) :
    spec.rotl32 x r < 2 ^ 32 := by
  rw [← rol_u32 x r hx h1 h31]
  exact Nat.mod_lt _ (by norm_num)

/-- Bit `i` of the rotation is bit `i - r` of the operand, the index taken
modulo 32. -/
theorem rotl32_testBit (x r i : Nat) (hx : x < 2 ^ 32) (h1 : 1 ≤ r) (h31 : r ≤ 31)
    (hi : i < 32) :
    (spec.rotl32 x r).testBit i = x.testBit ((i + 32 - r) % 32) := by
  have hp : (2 : Nat) ^ 32 = 2 ^ (32 - r) * 2 ^ r := by
    rw [← Nat.pow_add]; congr 1; omega
  have hlo : x / 2 ^ (32 - r) < 2 ^ r := by
    rw [Nat.div_lt_iff_lt_mul (Nat.pow_pos (by norm_num))]
    rw [Nat.mul_comm, ← hp]; exact hx
  have hhi : (x * 2 ^ r) % 2 ^ 32 = 2 ^ r * (x % 2 ^ (32 - r)) := by
    rw [hp, Nat.mul_mod_mul_right, Nat.mul_comm]
  rw [spec.rotl32, hhi, Nat.testBit_mul_pow_two_add _ hlo]
  by_cases hj : i < r
  · have e : (i + 32 - r) % 32 = 32 - r + i := by omega
    rw [if_pos hj, ← Nat.shiftRight_eq_div_pow, Nat.testBit_shiftRight, e]
  · have e : (i + 32 - r) % 32 = i - r := by omega
    have hlt : i - r < 32 - r := by omega
    rw [if_neg hj, Nat.testBit_mod_two_pow, e]
    simp [hlt]

theorem shl_amt_eq (r : Nat) (h31 : r ≤ 31) :
    (((r <<< 32) % 2 ^ 64) ||| r) &&& 0xffffffff = r := by
  have : ∀ m, m < 32 → (((m <<< 32) % 2 ^ 64) ||| m) &&& 0xffffffff = m := by decide
  exact this r (by omega)

theorem shr_amt_eq (r : Nat) (h1 : 1 ≤ r) (h31 : r ≤ 31) :
    ((2 ^ 32 - r) % 2 ^ 32) &&& 31 = 32 - r := by
  have : ∀ m, m < 32 → 1 ≤ m → ((2 ^ 32 - m) % 2 ^ 32) &&& 31 = 32 - m := by decide
  exact this r (by omega) h1

theorem len_x1_eq (r : Nat) (h31 : r ≤ 31) :
    ((r <<< 32) % 2 ^ 64) ||| r = (r <<< 32) ||| r := by
  have : ∀ m, m < 32 → ((m <<< 32) % 2 ^ 64) ||| m = (m <<< 32) ||| m := by decide
  exact this r (by omega)

theorem join_u32_halves (H L : Nat) (hH : H < 2 ^ 32) (hL : L < 2 ^ 32) :
    ((H <<< 32) % 2 ^ 64) ||| L = H * 2 ^ 32 + L := by
  have h64 : H * 2 ^ 32 < 2 ^ 64 := by omega
  rw [Nat.shiftLeft_eq, Nat.mod_eq_of_lt h64, Nat.mul_comm, ← Nat.mul_add_lt_is_or hL]

theorem AtLeast2LaneU64VecRolU32_eq (x y r : Nat) (h1 : 1 ≤ r) (h31 : r ≤ 31) :
    AtLeast2LaneU64VecRolU32 ⟨x, y⟩ ⟨((r <<< 32) % 2 ^ 64) ||| r, ((r <<< 32) % 2 ^ 64) ||| r⟩ =
      ⟨spec.rotate_u32_halves x r, spec.rotate_u32_halves y r⟩ := by
  have m : ∀ z : Nat, z % 2 ^ 32 < 2 ^ 32 := fun z => Nat.mod_lt _ (by norm_num)
  simp only [AtLeast2LaneU64VecRolU32, Create2, shl_amt_eq r h31, shr_amt_eq r h1 h31]
  simp only [rol_u32 _ r (m _) h1 h31]
  simp only [join_u32_halves _ _ (rotl32_lt _ r (m _) h1 h31) (rotl32_lt _ r (m _) h1 h31),
    spec.rotate_u32_halves, Nat.shiftRight_eq_div_pow]

/-- The registers after the length mix of a tail of `r` bytes. -/
theorem mixLength_eq (q : Regs Vec4) (r : Nat) (h1 : 1 ≤ r) (h31 : r ≤ 31) :
    UpdateHwyHashState.mixLength q r =
      { v0 := ⟨(q.v0.get0 + ((r <<< 32) ||| r)) % 2 ^ 64,
               (q.v0.get1 + ((r <<< 32) ||| r)) % 2 ^ 64,
               (q.v0.get2 + ((r <<< 32) ||| r)) % 2 ^ 64,
               (q.v0.get3 + ((r <<< 32) ||| r)) % 2 ^ 64⟩
        v1 := ⟨spec.rotate_u32_halves q.v1.get0 r, spec.rotate_u32_halves q.v1.get1 r,
               spec.rotate_u32_halves q.v1.get2 r, spec.rotate_u32_halves q.v1.get3 r⟩
        mul0 := q.mul0
        mul1 := q.mul1 } := by
  have e := len_x1_eq r h31
  simp only [UpdateHwyHashState.mixLength, AtLeast4LaneU64VecRol32, AtLeast4LaneU64VecAdd,
    AtLeast2LaneU64VecAdd, CombineToAtLeast4LaneVec, GetLowerAtLeast2LaneVec,
    GetUpperAtLeast2LaneVec, Create4, Create2, Add, AtLeast2LaneU64VecRolU32_eq _ _ r h1 h31]
  simp only [e]

/-- The function `UpdateHwyHashState` on an input with a tail. -/
theorem UpdateHwyHashState_tail (state : SimdHwyHashState) (ptr : List Nat) (byte_len : Nat)
    (hlen : byte_len < 2 ^ 64) (h : byte_len % 32 ≠ 0) :
    UpdateHwyHashState state ptr byte_len =
      StoreRegs Lanes
        (DoHwyHashUpdate
          (UpdateHwyHashState.mixLength
            (UpdateHwyHashState.loop Lanes (byte_len / 32) (LoadRegs Lanes state) ptr).1
            (byte_len % 32))
          (LoadRemainderPacket Lanes
            (UpdateHwyHashState.loop Lanes (byte_len / 32) (LoadRegs Lanes state) ptr).2
            (byte_len % 32)))
        state := by
  simp only [UpdateHwyHashState, UpdateHwyHashState.locals, full32_count byte_len hlen, and_31,
    ne_eq, h, not_false_eq_true, if_true]

/-- Claim C8: when the input length leaves a remainder `r` with `1 ≤ r ≤ 31`,
`Update` mixes the remainder packet into the registers obtained from those
left by the full packets by replacing each lane of `v0` by itself plus
`(r << 32) | r` modulo `2^64` and each lane of `v1` by the lane whose two
32-bit halves are rotated left by `r` bits, `mul0` and `mul1` being kept; bit
`i` of a rotated half is bit `(i - r) mod 32` of the half. -/
theorem update_mixes_tail_length (state : SimdHwyHashState) (ptr : List Nat)
    (byte_len r : Nat) (hlen : byte_len < 2 ^ 64) (hr : byte_len % 32 = r) (h1 : 1 ≤ r) :
    SimdHwyHash_Update state ptr byte_len =
      StoreRegs Lanes
        (DoHwyHashUpdate
          (UpdateHwyHashState.mixLength
            (UpdateHwyHashState.loop Lanes (byte_len / 32) (LoadRegs Lanes state) ptr).1 r)
          (LoadRemainderPacket Lanes
            (UpdateHwyHashState.loop Lanes (byte_len / 32) (LoadRegs Lanes state) ptr).2 r))
        state ∧
    (∀ q : Regs Vec4,
      (UpdateHwyHashState.mixLength q r).v0 =
        ⟨(q.v0.get0 + ((r <<< 32) ||| r)) % 2 ^ 64, (q.v0.get1 + ((r <<< 32) ||| r)) % 2 ^ 64,
         (q.v0.get2 + ((r <<< 32) ||| r)) % 2 ^ 64, (q.v0.get3 + ((r <<< 32) ||| r)) % 2 ^ 64⟩ ∧
      (UpdateHwyHashState.mixLength q r).v1 =
        ⟨spec.rotate_u32_halves q.v1.get0 r, spec.rotate_u32_halves q.v1.get1 r,
         spec.rotate_u32_halves q.v1.get2 r, spec.rotate_u32_halves q.v1.get3 r⟩ ∧
      (UpdateHwyHashState.mixLength q r).mul0 = q.mul0 ∧
      (UpdateHwyHashState.mixLength q r).mul1 = q.mul1) ∧
    ∀ x i : Nat, x < 2 ^ 32 → i < 32 →
      (spec.rotl32 x r).testBit i = x.testBit ((i + 32 - r) % 32) := by
  have h31 : r ≤ 31 := by omega
  refine ⟨?_, fun q => ?_, fun x i hx hi => rotl32_testBit x r i hx h1 h31 hi⟩
  · subst hr
    exact UpdateHwyHashState_tail state ptr byte_len hlen (by omega)
  · rw [mixLength_eq q r h1 h31]
    exact ⟨rfl, rfl, rfl, rfl⟩

/-! ## The remainder packet -/

theorem getD_drop (l : List Nat) (k i : Nat) : (l.drop k).getD i 0 = l.getD (k + i) 0 := by
  simp [List.getD_eq_getElem?_getD, List.getElem?_drop]

theorem getD_set (l : List Nat) (k i x : Nat) :
    (l.set k x).getD i 0 = if k = i ∧ i < l.length then x else l.getD i 0 := by
  simp only [List.getD_eq_getElem?_getD, List.getElem?_set]
  by_cases h : k = i
  · subst h
    by_cases h2 : k < l.length
    · simp [h2]
    · simp [h2, List.getElem?_eq_none (Nat.le_of_not_lt h2)]
  · simp [h]

theorem CopyBytes_length (src dst : List Nat) (off n : Nat) :
    (CopyBytes src dst off n).length = dst.length := by
  induction n with
  | zero => rfl
  | succ n ih => simp [CopyBytes, ih]

theorem CopyBytes_getD (src dst : List Nat) (off n i : Nat) :
    (CopyBytes src dst off n).getD i 0 =
      if off ≤ i ∧ i < off + n ∧ i < dst.length then src.getD (i - off) 0 else dst.getD i 0 := by
  induction n with
  | zero =>
    have h : ¬ (off ≤ i ∧ i < off + 0 ∧ i < dst.length) := by omega
    rw [CopyBytes, if_neg h]
  | succ n ih =>
    rw [CopyBytes, getD_set, CopyBytes_length, ih]
    by_cases h1 : off + n = i
    · subst h1
      by_cases h2 : off + n < dst.length
      · simp [h2]
      · simp [h2]
    · by_cases h3 : off ≤ i ∧ i < off + n ∧ i < dst.length
      · have h4 : off ≤ i ∧ i < off + (n + 1) ∧ i < dst.length := ⟨h3.1, by omega, h3.2.2⟩
        simp [h1, h3, h4]
      · have h4 : ¬ (off ≤ i ∧ i < off + (n + 1) ∧ i < dst.length) := by
          intro h; apply h3; exact ⟨h.1, by omega, h.2.2⟩
        simp [h1, h3, h4]

theorem ZeroBytes_getD (n i : Nat) : (ZeroBytes n).getD i 0 = 0 := by
  simp only [ZeroBytes, List.getD_eq_getElem?_getD, List.getElem?_replicate]
  split <;> rfl

theorem and_not_3 (r : Nat) (h : r ≤ 31) : r &&& 0xfffffffc = 4 * (r / 4) := by
  have : ∀ m, m < 32 → m &&& 0xfffffffc = 4 * (m / 4) := by decide
  exact this r (by omega)

theorem and_3 (r : Nat) : r &&& 3 = r % 4 := Nat.and_pow_two_sub_one_eq_mod r 2

theorem ZeroBytes_length (n : Nat) : (ZeroBytes n).length = n := by
  simp [ZeroBytes]

/-- Every byte of the remainder packet of a tail of `16 ≤ r ≤ 31` bytes. -/
theorem packet_bytes_getD_ge16 (src : List Nat) (r i : Nat) (h16 : 16 ≤ r) (h31 : r ≤ 31) :
    (LoadRemainderPacket.packet_bytes src r).getD i 0 =
      if 28 ≤ i ∧ i < 32 then src.getD (r - 4 + (i - 28)) 0
      else if i < 4 * (r / 4) then src.getD i 0 else 0 := by
  have hge : r ≥ 16 := h16
  simp only [LoadRemainderPacket.packet_bytes, and_not_3 r h31, hge, if_true, CopyBytes_getD,
    CopyBytes_length, ZeroBytes_length, ZeroBytes_getD, getD_drop]
  by_cases h1 : 28 ≤ i ∧ i < 32
  · have h2 : 32 - 4 ≤ i ∧ i < 32 - 4 + 4 ∧ i < 32 := by omega
    have h3 : 0 ≤ i - (32 - 4) ∧ i - (32 - 4) < 0 + 4 ∧ i - (32 - 4) < 4 := by omega
    have h4 : i - (32 - 4) - 0 = i - 28 := by omega
    rw [if_pos h2, if_pos h3, if_pos h1, h4]
  · have h2 : ¬ (32 - 4 ≤ i ∧ i < 32 - 4 + 4 ∧ i < 32) := by omega
    rw [if_neg h2, if_neg h1]
    by_cases h5 : i < 4 * (r / 4)
    · have h6 : 0 ≤ i ∧ i < 0 + 4 * (r / 4) ∧ i < 32 := by omega
      rw [if_pos h6, if_pos h5, Nat.sub_zero]
    · have h6 : ¬ (0 ≤ i ∧ i < 0 + 4 * (r / 4) ∧ i < 32) := by omega
      rw [if_neg h6, if_neg h5]

/-- Every byte of the remainder packet of a tail of `1 ≤ r ≤ 15` bytes. -/
theorem packet_bytes_getD_lt16 (src : List Nat) (r i : Nat) (h15 : r ≤ 15) :
    (LoadRemainderPacket.packet_bytes src r).getD i 0 =
      if i < 4 * (r / 4) then src.getD i 0
      else if r % 4 ≠ 0 ∧ i = 16 then src.getD (4 * (r / 4)) 0
      else if r % 4 ≠ 0 ∧ i = 17 then src.getD (4 * (r / 4) + r % 4 / 2) 0
      else if r % 4 ≠ 0 ∧ i = 18 then src.getD (4 * (r / 4) + r % 4 - 1) 0
      else 0 := by
  have hge : ¬ r ≥ 16 := by omega
  simp only [LoadRemainderPacket.packet_bytes, and_not_3 r (by omega), hge, if_false, and_3,
    Nat.shiftRight_eq_div_pow, pow_one]
  by_cases ht : r % 4 = 0
  · have ht2 : ¬ (r % 4 ≠ 0) := by omega
    simp only [ne_eq, ht, not_true_eq_false, if_false, false_and, CopyBytes_getD,
      ZeroBytes_length, ZeroBytes_getD]
    by_cases h5 : i < 4 * (r / 4)
    · have h6 : 0 ≤ i ∧ i < 0 + 4 * (r / 4) ∧ i < 32 := by omega
      rw [if_pos h6, if_pos h5, Nat.sub_zero]
    · have h6 : ¬ (0 ≤ i ∧ i < 0 + 4 * (r / 4) ∧ i < 32) := by omega
      rw [if_neg h6, if_neg h5]
  · simp only [ne_eq, ht, not_false_eq_true, if_true, true_and, getD_set, List.length_set,
      CopyBytes_length, ZeroBytes_length, CopyBytes_getD, ZeroBytes_getD]
    by_cases h5 : i < 4 * (r / 4)
    · have h6 : 0 ≤ i ∧ i < 0 + 4 * (r / 4) ∧ i < 32 := by omega
      have h7 : ¬ (18 = i ∧ i < 32) := by omega
      have h8 : ¬ (17 = i ∧ i < 32) := by omega
      have h9 : ¬ (16 = i ∧ i < 32) := by omega
      rw [if_neg h7, if_neg h8, if_neg h9, if_pos h6, if_pos h5, Nat.sub_zero]
    · have h6 : ¬ (0 ≤ i ∧ i < 0 + 4 * (r / 4) ∧ i < 32) := by omega
      rw [if_neg h5, if_neg h6]
      by_cases e18 : i = 18
      · subst e18; simp
      · by_cases e17 : i = 17
        · subst e17; simp
        · by_cases e16 : i = 16
          · subst e16; simp
          · have h7 : ¬ (18 = i ∧ i < 32) := by omega
            have h8 : ¬ (17 = i ∧ i < 32) := by omega
            have h9 : ¬ (16 = i ∧ i < 32) := by omega
            rw [if_neg h7, if_neg h8, if_neg h9, if_neg e16, if_neg e17, if_neg e18]

theorem packet_bytes_length (src : List Nat) (r : Nat) :
    (LoadRemainderPacket.packet_bytes src r).length = 32 := by
  simp only [LoadRemainderPacket.packet_bytes]
  split
  · simp [CopyBytes_length, ZeroBytes_length]
  · split <;> simp [CopyBytes_length, ZeroBytes_length]

/-- Claim C9: for a tail of `16 ≤ r ≤ 31` bytes `src`, the 32-byte packet `P`
from which `LoadRemainderPacket` loads its result has `P[i] = src[i]` for
`i < (r & ~3)`, `P[28 + j] = src[r - 4 + j]` for `j < 4`, and `P[i] = 0` for
`(r & ~3) ≤ i < 28`; here `r & ~3` is `4 * (r / 4)`. -/
theorem remainder_packet_long_tail (src : List Nat) (r : Nat) (h16 : 16 ≤ r) (h31 : r ≤ 31) :
    LoadRemainderPacket Lanes src r =
      LoadAtLeast4LanePacketVec Lanes (LoadRemainderPacket.packet_bytes src r) ∧
    (LoadRemainderPacket.packet_bytes src r).length = 32 ∧
    (r &&& 0xfffffffc = 4 * (r / 4)) ∧
    (∀ i, i < 4 * (r / 4) →
      (LoadRemainderPacket.packet_bytes src r).getD i 0 = src.getD i 0) ∧
    (∀ j, j < 4 →
      (LoadRemainderPacket.packet_bytes src r).getD (28 + j) 0 = src.getD (r - 4 + j) 0) ∧
    (∀ i, 4 * (r / 4) ≤ i → i < 28 →
      (LoadRemainderPacket.packet_bytes src r).getD i 0 = 0) := by
  refine ⟨rfl, packet_bytes_length src r, and_not_3 r h31, ?_, ?_, ?_⟩
  · intro i hi
    have h1 : ¬ (28 ≤ i ∧ i < 32) := by omega
    rw [packet_bytes_getD_ge16 src r i h16 h31, if_neg h1, if_pos hi]
  · intro j hj
    have h1 : 28 ≤ 28 + j ∧ 28 + j < 32 := by omega
    have h2 : 28 + j - 28 = j := by omega
    rw [packet_bytes_getD_ge16 src r _ h16 h31, if_pos h1, h2]
  · intro i hi h28
    have h1 : ¬ (28 ≤ i ∧ i < 32) := by omega
    have h2 : ¬ i < 4 * (r / 4) := by omega
    rw [packet_bytes_getD_ge16 src r i h16 h31, if_neg h1, if_neg h2]

/-- Claim C10: for a tail of `1 ≤ r ≤ 15` bytes `src`, with `r4 = r & ~3` and
`t = r & 3`, the 32-byte packet `P` from which `LoadRemainderPacket` loads its
result has `P[i] = src[i]` for `i < r4`; if `t ≠ 0` then `P[16] = src[r4]`,
`P[17] = src[r4 + (t >> 1)]` and `P[18] = src[r4 + t - 1]`; all other bytes
are zero. -/
theorem remainder_packet_short_tail (src : List Nat) (r : Nat) (h1 : 1 ≤ r) (h15 : r ≤ 15) :
    LoadRemainderPacket Lanes src r =
      LoadAtLeast4LanePacketVec Lanes (LoadRemainderPacket.packet_bytes src r) ∧
    (LoadRemainderPacket.packet_bytes src r).length = 32 ∧
    (r &&& 0xfffffffc = 4 * (r / 4) ∧ r &&& 3 = r % 4 ∧ (r % 4) >>> 1 = r % 4 / 2) ∧
    (∀ i, i < 4 * (r / 4) →
      (LoadRemainderPacket.packet_bytes src r).getD i 0 = src.getD i 0) ∧
    (r % 4 ≠ 0 →
      (LoadRemainderPacket.packet_bytes src r).getD 16 0 = src.getD (4 * (r / 4)) 0 ∧
      (LoadRemainderPacket.packet_bytes src r).getD 17 0 =
        src.getD (4 * (r / 4) + r % 4 / 2) 0 ∧
      (LoadRemainderPacket.packet_bytes src r).getD 18 0 =
        src.getD (4 * (r / 4) + r % 4 - 1) 0) ∧
    (∀ i, 4 * (r / 4) ≤ i → (r % 4 = 0 ∨ i < 16 ∨ 18 < i) →
      (LoadRemainderPacket.packet_bytes src r).getD i 0 = 0) := by
  refine ⟨rfl, packet_bytes_length src r,
    ⟨and_not_3 r (by omega), and_3 r, by rw [Nat.shiftRight_eq_div_pow, pow_one]⟩, ?_, ?_, ?_⟩
  · intro i hi
    rw [packet_bytes_getD_lt16 src r i h15, if_pos hi]
  · intro ht
    have h16 : ¬ 16 < 4 * (r / 4) := by omega
    have h17 : ¬ 17 < 4 * (r / 4) := by omega
    have h18 : ¬ 18 < 4 * (r / 4) := by omega
    refine ⟨?_, ?_, ?_⟩
    · rw [packet_bytes_getD_lt16 src r 16 h15, if_neg h16]; simp [ht]
    · rw [packet_bytes_getD_lt16 src r 17 h15, if_neg h17]; simp [ht]
    · rw [packet_bytes_getD_lt16 src r 18 h15, if_neg h18]; simp [ht]
  · intro i hi hother
    have h2 : ¬ i < 4 * (r / 4) := by omega
    have a16 : ¬ (r % 4 ≠ 0 ∧ i = 16) := by omega
    have a17 : ¬ (r % 4 ≠ 0 ∧ i = 17) := by omega
    have a18 : ¬ (r % 4 ≠ 0 ∧ i = 18) := by omega
    rw [packet_bytes_getD_lt16 src r i h15, if_neg h2, if_neg a16, if_neg a17, if_neg a18]

/-! ## Splitting the input of `Update` -/

theorem LoadRegs_StoreRegs (r : Regs Vec4) (state : SimdHwyHashState) :
    LoadRegs Lanes (StoreRegs Lanes r state) = r := by
  rfl

theorem StoreRegs_StoreRegs (r q : Regs Vec4) (state : SimdHwyHashState) :
    StoreRegs Lanes r (StoreRegs Lanes q state) = StoreRegs Lanes r state := by
  rfl

theorem getD_append_left (A B : List Nat) (i : Nat) (h : i < A.length) :
    (A ++ B).getD i 0 = A.getD i 0 := by
  simp [List.getD_eq_getElem?_getD, List.getElem?_append_left h]

theorem LoadU64_drop_append (A B : List Nat) (k : Nat) (h : k + 8 ≤ A.length) :
    LoadU64 ((A ++ B).drop k) = LoadU64 (A.drop k) := by
  simp only [LoadU64, getD_drop]
  rw [getD_append_left A B (k + 0) (by omega), getD_append_left A B (k + 1) (by omega),
    getD_append_left A B (k + 2) (by omega), getD_append_left A B (k + 3) (by omega),
    getD_append_left A B (k + 4) (by omega), getD_append_left A B (k + 5) (by omega),
    getD_append_left A B (k + 6) (by omega), getD_append_left A B (k + 7) (by omega)]

/-- A packet load reads the first 32 bytes only. -/
theorem LoadAtLeast4LanePacketVec_append (A B : List Nat) (h : 32 ≤ A.length) :
    LoadAtLeast4LanePacketVec Lanes (A ++ B) = LoadAtLeast4LanePacketVec Lanes A := by
  have e0 := LoadU64_drop_append A B 0 (by omega)
  have e8 := LoadU64_drop_append A B 8 (by omega)
  have e16 := LoadU64_drop_append A B 16 (by omega)
  have e24 := LoadU64_drop_append A B 24 (by omega)
  simp only [List.drop_zero] at e0
  simp only [LoadAtLeast4LanePacketVec, LoadAtLeast2LanePacketVec, List.drop_drop, e0, e8, e16]
  norm_num [e24]

theorem loop_append (k : Nat) (r : Regs Vec4) (A B : List Nat) (h : A.length = 32 * k) :
    UpdateHwyHashState.loop Lanes k r (A ++ B) =
      ((UpdateHwyHashState.loop Lanes k r A).1, B) := by
  induction k generalizing r A with
  | zero =>
    have hA : A = [] := List.length_eq_zero.mp (by omega)
    subst hA
    rfl
  | succ k ih =>
    have h32 : 32 ≤ A.length := by omega
    have hd : (A.drop 32).length = 32 * k := by rw [List.length_drop]; omega
    rw [UpdateHwyHashState.loop, UpdateHwyHashState.loop,
      LoadAtLeast4LanePacketVec_append A B h32, List.drop_append_of_le_length h32,
      ih _ (A.drop 32) hd]

theorem loop_add (k m : Nat) (r : Regs Vec4) (ptr : List Nat) :
    UpdateHwyHashState.loop Lanes (k + m) r ptr =
      UpdateHwyHashState.loop Lanes m (UpdateHwyHashState.loop Lanes k r ptr).1
        (UpdateHwyHashState.loop Lanes k r ptr).2 := by
  induction k generalizing r ptr with
  | zero => simp [UpdateHwyHashState.loop]
  | succ k ih =>
    rw [show k + 1 + m = (k + m) + 1 by omega, UpdateHwyHashState.loop, UpdateHwyHashState.loop,
      ih]

/-- On an input made of whole packets the registers are those left by the
loop. -/
theorem locals_whole_packets (r : Regs Vec4) (A : List Nat) (k : Nat)
    (h : A.length = 32 * k) (hlen : A.length < 2 ^ 64) :
    UpdateHwyHashState.locals Lanes r A A.length = (UpdateHwyHashState.loop Lanes k r A).1 := by
  have hk : A.length / 32 = k := by omega
  have hr : A.length % 32 = 0 := by omega
  simp only [UpdateHwyHashState.locals, full32_count _ hlen, and_31, hk, hr, ne_eq,
    not_true_eq_false, if_false]

/-- The registers after `A ++ B`, where `A` is made of whole packets, are
those after `B` started from the registers after `A`. -/
theorem locals_append (r : Regs Vec4) (A B : List Nat) (hA : A.length % 32 = 0)
    (hlen : A.length + B.length < 2 ^ 64) :
    UpdateHwyHashState.locals Lanes r (A ++ B) (A ++ B).length =
      UpdateHwyHashState.locals Lanes (UpdateHwyHashState.locals Lanes r A A.length) B
        B.length := by
  have hk : A.length = 32 * (A.length / 32) := by omega
  rw [locals_whole_packets r A (A.length / 32) hk (by omega)]
  have hAB : (A ++ B).length < 2 ^ 64 := by rw [List.length_append]; exact hlen
  have hB : B.length < 2 ^ 64 := by omega
  have hc : (A ++ B).length / 32 = A.length / 32 + B.length / 32 := by
    rw [List.length_append]; omega
  have hm : (A ++ B).length % 32 = B.length % 32 := by
    rw [List.length_append]; omega
  simp only [UpdateHwyHashState.locals, full32_count _ hAB, full32_count _ hB, and_31, hc, hm,
    loop_add, loop_append _ r A B hk]

/-- Two calls of `UpdateHwyHashState`, the first on whole packets, leave the
state of one call on the concatenation. -/
theorem UpdateHwyHashState_append (state : SimdHwyHashState) (A B : List Nat)
    (hA : A.length % 32 = 0) (hlen : A.length + B.length < 2 ^ 64) :
    UpdateHwyHashState (UpdateHwyHashState state A A.length) B B.length =
      UpdateHwyHashState state (A ++ B) (A ++ B).length := by
  simp only [UpdateHwyHashState, LoadRegs_StoreRegs, StoreRegs_StoreRegs,
    locals_append _ A B hA hlen]

/-- Claim C4, as amended: for every key and all byte strings `A` and `B` where
the length of `A` is a multiple of 32 (and the total length fits `size_t`),
the state after `Reset; Update(A); Update(B)` is the state after
`Reset; Update(A ++ B)`, and `Finalize64` of the chunked stream is
`Hash64(A ++ B, key)`. -/
theorem chunking_after_whole_packets (s0 : SimdHwyHashState) (key : U64x4) (A B : List Nat)
    (hA : A.length % 32 = 0) (hlen : A.length + B.length < 2 ^ 64) :
    SimdHwyHash_Update (SimdHwyHash_Update (SimdHwyHash_Reset s0 key) A A.length) B B.length =
        SimdHwyHash_Update (SimdHwyHash_Reset s0 key) (A ++ B) (A ++ B).length ∧
    SimdHwyHash_Finalize64
        (SimdHwyHash_Update (SimdHwyHash_Update (SimdHwyHash_Reset s0 key) A A.length) B
          B.length) =
      SimdHwyHash_Hash64 (A ++ B) (A ++ B).length key := by
  have h : SimdHwyHash_Reset uninitialized key = SimdHwyHash_Reset s0 key := by
    rw [SimdHwyHash_Reset, SimdHwyHash_Reset, ResetHwyHashState_eq, ResetHwyHashState_eq]
  have e := UpdateHwyHashState_append (SimdHwyHash_Reset s0 key) A B hA hlen
  refine ⟨e, ?_⟩
  simp only [SimdHwyHash_Hash64, SimdHwyHash_Update, h, e]

/-- The amended claim C4 on `kData` split after its first packet. -/
theorem chunking_after_whole_packets_witness :
    ((kData.take 32).length % 32 = 0 ∧
      (kData.take 32).length + (kData.drop 32).length < 2 ^ 64) ∧
    SimdHwyHash_Finalize64
        (SimdHwyHash_Update
          (SimdHwyHash_Update (SimdHwyHash_Reset uninitialized kKey) (kData.take 32)
            (kData.take 32).length)
          (kData.drop 32) (kData.drop 32).length) =
      SimdHwyHash_Hash64 (kData.take 32 ++ kData.drop 32)
        (kData.take 32 ++ kData.drop 32).length kKey :=
  ⟨⟨by decide, by decide⟩,
    (chunking_after_whole_packets uninitialized kKey (kData.take 32) (kData.drop 32)
      (by decide) (by decide)).2⟩

/-- Claim C4 as written fails: under `KEY_A`, `Update` with the byte `1`
followed by `Update` with the byte `2` leaves a state other than the one left
by a single `Update` with the bytes `1, 2`, and `Finalize64` of the chunked
stream is not `Hash64` of the two bytes. -/
theorem chunking_fails_on_split_inside_packet :
    SimdHwyHash_Update (SimdHwyHash_Update (SimdHwyHash_Reset uninitialized kKey1234) [1] 1)
        [2] 1 ≠
      SimdHwyHash_Update (SimdHwyHash_Reset uninitialized kKey1234) ([1] ++ [2]) 2 ∧
    SimdHwyHash_Finalize64
        (SimdHwyHash_Update (SimdHwyHash_Update (SimdHwyHash_Reset uninitialized kKey1234) [1] 1)
          [2] 1) ≠
      SimdHwyHash_Hash64 ([1] ++ [2]) 2 kKey1234 := by
  decide

/-- Claim C7: one round `DoHwyHashUpdate` on a state and a packet `A` is the
six steps `v1 += mul0 + A; mul0 ^= low32(v1) * high32(v0); v0 += mul1;
mul1 ^= low32(v0) * high32(v1); v0 += zipper_merge(v1); v1 += zipper_merge(v0)`
taken lane by lane modulo `2^64` in this order, and, stored into the state,
it is the state produced by the scalar reference `UpdateHwyHashState` of the
test. -/
theorem round_is_six_steps_and_reference (state : SimdHwyHashState) (r : Regs Vec4)
    (A : Vec4) :
    DoHwyHashUpdate r A = spec.round r A ∧
    StoreRegs Lanes (DoHwyHashUpdate (LoadRegs Lanes state) A) state =
      test.UpdateHwyHashState state A.get0 A.get1 A.get2 A.get3 :=
  ⟨DoHwyHashUpdate_eq_round r A, DoHwyHashUpdate_eq_test state A⟩

/-- Claim C8 on the one-byte input `kB1` after `Reset` with `KEY_A`. -/
theorem update_mixes_tail_length_witness :
    (1 < 2 ^ 64 ∧ 1 % 32 = 1 ∧ 1 ≤ 1) ∧
    SimdHwyHash_Update (SimdHwyHash_Reset uninitialized kKey1234) kB1 1 =
      StoreRegs Lanes
        (DoHwyHashUpdate
          (UpdateHwyHashState.mixLength
            (UpdateHwyHashState.loop Lanes (1 / 32)
              (LoadRegs Lanes (SimdHwyHash_Reset uninitialized kKey1234)) kB1).1 1)
          (LoadRemainderPacket Lanes
            (UpdateHwyHashState.loop Lanes (1 / 32)
              (LoadRegs Lanes (SimdHwyHash_Reset uninitialized kKey1234)) kB1).2 1))
        (SimdHwyHash_Reset uninitialized kKey1234) :=
  ⟨⟨by decide, by decide, by decide⟩,
    (update_mixes_tail_length (SimdHwyHash_Reset uninitialized kKey1234) kB1 1 1
      (by decide) (by decide) (by decide)).1⟩

/-- Claim C9 on the first 17 bytes of `kB0`: byte 28 of the packet is byte 13
of the tail. -/
theorem remainder_packet_long_tail_witness :
    (16 ≤ 17 ∧ 17 ≤ 31) ∧
    (LoadRemainderPacket.packet_bytes kB0 17).getD (28 + 0) 0 = kB0.getD (17 - 4 + 0) 0 :=
  ⟨⟨by decide, by decide⟩,
    (remainder_packet_long_tail kB0 17 (by decide) (by decide)).2.2.2.2.1 0 (by decide)⟩

/-- Claim C10 on the first 7 bytes of `kB0`: bytes 16, 17 and 18 of the packet
are bytes 4, 5 and 6 of the tail. -/
theorem remainder_packet_short_tail_witness :
    (1 ≤ 7 ∧ 7 ≤ 15 ∧ 7 % 4 ≠ 0) ∧
    (LoadRemainderPacket.packet_bytes kB0 7).getD 16 0 = kB0.getD (4 * (7 / 4)) 0 ∧
    (LoadRemainderPacket.packet_bytes kB0 7).getD 17 0 = kB0.getD (4 * (7 / 4) + 7 % 4 / 2) 0 ∧
    (LoadRemainderPacket.packet_bytes kB0 7).getD 18 0 = kB0.getD (4 * (7 / 4) + 7 % 4 - 1) 0 :=
  ⟨⟨by decide, by decide, by decide⟩,
    (remainder_packet_short_tail kB0 7 (by decide) (by decide)).2.2.2.2.1 (by decide)⟩

/-! ## The finalizers -/

theorem StoreRegs_LoadRegs (state : SimdHwyHashState) :
    StoreRegs Lanes (LoadRegs Lanes state) state = state := by
  rfl

/-- The permute-update round of the kernel, stored into the state, is the
result of the test's `PermuteAndUpdateHwyHashState`. -/
theorem PermuteAndUpdate_eq_test (state : SimdHwyHashState) :
    test.PermuteAndUpdateHwyHashState state =
      StoreRegs Lanes (PermuteAndUpdate (LoadRegs Lanes state)) state := by
  rw [PermuteAndUpdate, DoHwyHashUpdate_eq_test]
  rfl

/-- Iterating the test's permute-update on a state is iterating the kernel's
on its registers. -/
theorem PermuteAndUpdate_iterate_eq_test (n : Nat) (state : SimdHwyHashState) :
    test.PermuteAndUpdateHwyHashState^[n] state =
      StoreRegs Lanes (PermuteAndUpdate^[n] (LoadRegs Lanes state)) state := by
  induction n generalizing state with
  | zero => rfl
  | succ n ih =>
    rw [Function.iterate_succ_apply, Function.iterate_succ_apply, ih, PermuteAndUpdate_eq_test]
    rfl

theorem add4_regroup (a b c d : Nat) :
    ((a + b) % 2 ^ 64 + (c + d) % 2 ^ 64) % 2 ^ 64 = (a + b + c + d) % 2 ^ 64 := by
  omega

theorem add4_sequential (a b c d : Nat) :
    (((a + b) % 2 ^ 64 + c) % 2 ^ 64 + d) % 2 ^ 64 = (a + b + c + d) % 2 ^ 64 := by
  omega

/-- Claim C11: `Finalize64` of a state is `v0[0] + v1[0] + mul0[0] + mul1[0]`
modulo `2^64`, taken in the registers obtained from the state by exactly four
permute-update rounds. -/
theorem finalize64_is_sum_after_four_rounds (s : SimdHwyHashState) :
    SimdHwyHash_Finalize64 s =
      ((PermuteAndUpdate^[4] (LoadRegs Lanes s)).v0.get0 +
        (PermuteAndUpdate^[4] (LoadRegs Lanes s)).v1.get0 +
        (PermuteAndUpdate^[4] (LoadRegs Lanes s)).mul0.get0 +
        (PermuteAndUpdate^[4] (LoadRegs Lanes s)).mul1.get0) % 2 ^ 64 ∧
    StoreRegs Lanes (PermuteAndUpdate^[4] (LoadRegs Lanes s)) s =
      test.PermuteAndUpdateHwyHashState^[4] s := by
  refine ⟨?_, (PermuteAndUpdate_iterate_eq_test 4 s).symm⟩
  rw [← add4_regroup]
  rfl

/-- The two words written by `Finalize128`, from the registers after six
permute-update rounds. -/
theorem Finalize128_eq (s : SimdHwyHashState) :
    Finalize128 s =
      ⟨((PermuteAndUpdate^[6] (LoadRegs Lanes s)).v0.get0 +
          (PermuteAndUpdate^[6] (LoadRegs Lanes s)).mul0.get0 +
          (PermuteAndUpdate^[6] (LoadRegs Lanes s)).v1.get2 +
          (PermuteAndUpdate^[6] (LoadRegs Lanes s)).mul1.get2) % 2 ^ 64,
       ((PermuteAndUpdate^[6] (LoadRegs Lanes s)).v0.get1 +
          (PermuteAndUpdate^[6] (LoadRegs Lanes s)).mul0.get1 +
          (PermuteAndUpdate^[6] (LoadRegs Lanes s)).v1.get3 +
          (PermuteAndUpdate^[6] (LoadRegs Lanes s)).mul1.get3) % 2 ^ 64⟩ := by
  rw [← add4_regroup, ← add4_regroup]
  rfl

/-- The two words written by the test's `HwyHashFinalize128`. -/
theorem test_HwyHashFinalize128_eq (s : SimdHwyHashState) :
    (test.HwyHashFinalize128 s).2 =
      ⟨((PermuteAndUpdate^[6] (LoadRegs Lanes s)).v0.get0 +
          (PermuteAndUpdate^[6] (LoadRegs Lanes s)).mul0.get0 +
          (PermuteAndUpdate^[6] (LoadRegs Lanes s)).v1.get2 +
          (PermuteAndUpdate^[6] (LoadRegs Lanes s)).mul1.get2) % 2 ^ 64,
       ((PermuteAndUpdate^[6] (LoadRegs Lanes s)).v0.get1 +
          (PermuteAndUpdate^[6] (LoadRegs Lanes s)).mul0.get1 +
          (PermuteAndUpdate^[6] (LoadRegs Lanes s)).v1.get3 +
          (PermuteAndUpdate^[6] (LoadRegs Lanes s)).mul1.get3) % 2 ^ 64⟩ := by
  have h : (test.HwyHashFinalize128 s).2 =
      ⟨((((test.PermuteAndUpdateHwyHashState^[6] s).v0.get 0 +
            (test.PermuteAndUpdateHwyHashState^[6] s).mul0.get 0) % 2 ^ 64 +
          (test.PermuteAndUpdateHwyHashState^[6] s).v1.get 2) % 2 ^ 64 +
          (test.PermuteAndUpdateHwyHashState^[6] s).mul1.get 2) % 2 ^ 64,
       ((((test.PermuteAndUpdateHwyHashState^[6] s).v0.get 1 +
            (test.PermuteAndUpdateHwyHashState^[6] s).mul0.get 1) % 2 ^ 64 +
          (test.PermuteAndUpdateHwyHashState^[6] s).v1.get 3) % 2 ^ 64 +
          (test.PermuteAndUpdateHwyHashState^[6] s).mul1.get 3) % 2 ^ 64⟩ := rfl
  rw [h, PermuteAndUpdate_iterate_eq_test, ← add4_sequential, ← add4_sequential]
  rfl

/-- Claim C12: `Finalize128` writes the two words written by the test's scalar
reference `HwyHashFinalize128` on a copy of the state: after exactly six
permute-update rounds, `hash[0] = v0[0] + mul0[0] + v1[2] + mul1[2]` and
`hash[1] = v0[1] + mul0[1] + v1[3] + mul1[3]` modulo `2^64`. -/
theorem finalize128_matches_reference (s : SimdHwyHashState) :
    SimdHwyHash_Finalize128 s = (test.HwyHashFinalize128 s).2 ∧
    SimdHwyHash_Finalize128 s =
      ⟨((PermuteAndUpdate^[6] (LoadRegs Lanes s)).v0.get0 +
          (PermuteAndUpdate^[6] (LoadRegs Lanes s)).mul0.get0 +
          (PermuteAndUpdate^[6] (LoadRegs Lanes s)).v1.get2 +
          (PermuteAndUpdate^[6] (LoadRegs Lanes s)).mul1.get2) % 2 ^ 64,
       ((PermuteAndUpdate^[6] (LoadRegs Lanes s)).v0.get1 +
          (PermuteAndUpdate^[6] (LoadRegs Lanes s)).mul0.get1 +
          (PermuteAndUpdate^[6] (LoadRegs Lanes s)).v1.get3 +
          (PermuteAndUpdate^[6] (LoadRegs Lanes s)).mul1.get3) % 2 ^ 64⟩ ∧
    StoreRegs Lanes (PermuteAndUpdate^[6] (LoadRegs Lanes s)) s =
      test.PermuteAndUpdateHwyHashState^[6] s := by
  refine ⟨?_, ?_, (PermuteAndUpdate_iterate_eq_test 6 s).symm⟩
  · rw [SimdHwyHash_Finalize128, Finalize128_eq, test_HwyHashFinalize128_eq]
  · rw [SimdHwyHash_Finalize128, Finalize128_eq]

/-! ## The modular reduction -/

theorem shiftLeft_and_ones (a k : Nat) :
    ((a &&& 0xffffffffffffffff) <<< k) % 2 ^ 64 = (a <<< k) % 2 ^ 64 := by
  rw [show (0xffffffffffffffff : Nat) = 2 ^ 64 - 1 from rfl, Nat.and_pow_two_sub_one_eq_mod,
    Nat.shiftLeft_eq, Nat.shiftLeft_eq, Nat.mul_mod, Nat.mod_mod, ← Nat.mul_mod]

/-- The four lanes returned by `ModularReduction`. -/
theorem ModularReduction_eq (a01 a23 : Vec4) :
    ModularReduction a01 a23 =
      ⟨a01.get0 ^^^ ((a23.get0 <<< 1) % 2 ^ 64) ^^^ ((a23.get0 <<< 2) % 2 ^ 64),
       a01.get1 ^^^
         ((((a23.get1 &&& 0x3FFFFFFFFFFFFFFF) <<< 1) % 2 ^ 64) ||| (a23.get0 >>> 63)) ^^^
         ((((a23.get1 &&& 0x3FFFFFFFFFFFFFFF) <<< 2) % 2 ^ 64) ||| (a23.get0 >>> 62)),
       a01.get2 ^^^ ((a23.get2 <<< 1) % 2 ^ 64) ^^^ ((a23.get2 <<< 2) % 2 ^ 64),
       a01.get3 ^^^
         ((((a23.get3 &&& 0x3FFFFFFFFFFFFFFF) <<< 1) % 2 ^ 64) ||| (a23.get2 >>> 63)) ^^^
         ((((a23.get3 &&& 0x3FFFFFFFFFFFFFFF) <<< 2) % 2 ^ 64) ||| (a23.get2 >>> 62))⟩ := by
  simp only [ModularReduction, AtLeast4LaneU64VecXor3, AtLeast4LaneU64VecOr,
    AtLeast4LaneU64VecShiftLeft, AtLeast4LaneU64VecShiftRight, AtLeast4LaneU64VecAnd,
    AtLeast4LaneU64VecDup128, ShiftA23LeftBy1Lane, Create4, Xor3, Xor, Or, And, ShiftLeft,
    ShiftRight, shiftLeft_and_ones, Nat.zero_shiftRight, Nat.or_zero, Nat.xor_assoc]

/-- The modular reduction of the kernel on both halves is the test's
`HwyHashModularReduction` on each. -/
theorem ModularReduction_eq_test (a01 a23 : Vec4) :
    ModularReduction a01 a23 =
      ⟨(test.HwyHashModularReduction a23.get1 a23.get0 a01.get1 a01.get0).get0,
       (test.HwyHashModularReduction a23.get1 a23.get0 a01.get1 a01.get0).get1,
       (test.HwyHashModularReduction a23.get3 a23.get2 a01.get3 a01.get2).get0,
       (test.HwyHashModularReduction a23.get3 a23.get2 a01.get3 a01.get2).get1⟩ := by
  rw [ModularReduction_eq]
  rfl

/-- Claim C14: in each 128-bit half `h`, with `a0 = a01[2h]`, `a1 = a01[2h+1]`,
`a2 = a23[2h]` and `a3 = a23[2h+1] & 0x3FFFFFFFFFFFFFFF`, `ModularReduction`
returns `out[2h] = a0 xor (a2 << 1) xor (a2 << 2)` and
`out[2h+1] = a1 xor ((a3 << 1) | (a2 >> 63)) xor ((a3 << 2) | (a2 >> 62))`, the
left shifts taken in 64 bits; these are the words written by the test's
`HwyHashModularReduction`. -/
theorem modular_reduction_lanes (a01 a23 : Vec4) :
    ModularReduction a01 a23 =
      ⟨a01.get0 ^^^ ((a23.get0 <<< 1) % 2 ^ 64) ^^^ ((a23.get0 <<< 2) % 2 ^ 64),
       a01.get1 ^^^
         ((((a23.get1 &&& 0x3FFFFFFFFFFFFFFF) <<< 1) % 2 ^ 64) ||| (a23.get0 >>> 63)) ^^^
         ((((a23.get1 &&& 0x3FFFFFFFFFFFFFFF) <<< 2) % 2 ^ 64) ||| (a23.get0 >>> 62)),
       a01.get2 ^^^ ((a23.get2 <<< 1) % 2 ^ 64) ^^^ ((a23.get2 <<< 2) % 2 ^ 64),
       a01.get3 ^^^
         ((((a23.get3 &&& 0x3FFFFFFFFFFFFFFF) <<< 1) % 2 ^ 64) ||| (a23.get2 >>> 63)) ^^^
         ((((a23.get3 &&& 0x3FFFFFFFFFFFFFFF) <<< 2) % 2 ^ 64) ||| (a23.get2 >>> 62))⟩ ∧
    ModularReduction a01 a23 =
      ⟨(test.HwyHashModularReduction a23.get1 a23.get0 a01.get1 a01.get0).get0,
       (test.HwyHashModularReduction a23.get1 a23.get0 a01.get1 a01.get0).get1,
       (test.HwyHashModularReduction a23.get3 a23.get2 a01.get3 a01.get2).get0,
       (test.HwyHashModularReduction a23.get3 a23.get2 a01.get3 a01.get2).get1⟩ :=
  ⟨ModularReduction_eq a01 a23, ModularReduction_eq_test a01 a23⟩

/-- The four words written by `Finalize256`, from the registers after ten
permute-update rounds. -/
theorem Finalize256_eq (s : SimdHwyHashState) :
    Finalize256 s =
      ⟨(test.HwyHashModularReduction
          (((PermuteAndUpdate^[10] (LoadRegs Lanes s)).v1.get1 +
            (PermuteAndUpdate^[10] (LoadRegs Lanes s)).mul1.get1) % 2 ^ 64)
          (((PermuteAndUpdate^[10] (LoadRegs Lanes s)).v1.get0 +
            (PermuteAndUpdate^[10] (LoadRegs Lanes s)).mul1.get0) % 2 ^ 64)
          (((PermuteAndUpdate^[10] (LoadRegs Lanes s)).v0.get1 +
            (PermuteAndUpdate^[10] (LoadRegs Lanes s)).mul0.get1) % 2 ^ 64)
          (((PermuteAndUpdate^[10] (LoadRegs Lanes s)).v0.get0 +
            (PermuteAndUpdate^[10] (LoadRegs Lanes s)).mul0.get0) % 2 ^ 64)).get0,
       (test.HwyHashModularReduction
          (((PermuteAndUpdate^[10] (LoadRegs Lanes s)).v1.get1 +
            (PermuteAndUpdate^[10] (LoadRegs Lanes s)).mul1.get1) % 2 ^ 64)
          (((PermuteAndUpdate^[10] (LoadRegs Lanes s)).v1.get0 +
            (PermuteAndUpdate^[10] (LoadRegs Lanes s)).mul1.get0) % 2 ^ 64)
          (((PermuteAndUpdate^[10] (LoadRegs Lanes s)).v0.get1 +
            (PermuteAndUpdate^[10] (LoadRegs Lanes s)).mul0.get1) % 2 ^ 64)
          (((PermuteAndUpdate^[10] (LoadRegs Lanes s)).v0.get0 +
            (PermuteAndUpdate^[10] (LoadRegs Lanes s)).mul0.get0) % 2 ^ 64)).get1,
       (test.HwyHashModularReduction
          (((PermuteAndUpdate^[10] (LoadRegs Lanes s)).v1.get3 +
            (PermuteAndUpdate^[10] (LoadRegs Lanes s)).mul1.get3) % 2 ^ 64)
          (((PermuteAndUpdate^[10] (LoadRegs Lanes s)).v1.get2 +
            (PermuteAndUpdate^[10] (LoadRegs Lanes s)).mul1.get2) % 2 ^ 64)
          (((PermuteAndUpdate^[10] (LoadRegs Lanes s)).v0.get3 +
            (PermuteAndUpdate^[10] (LoadRegs Lanes s)).mul0.get3) % 2 ^ 64)
          (((PermuteAndUpdate^[10] (LoadRegs Lanes s)).v0.get2 +
            (PermuteAndUpdate^[10] (LoadRegs Lanes s)).mul0.get2) % 2 ^ 64)).get0,
       (test.HwyHashModularReduction
          (((PermuteAndUpdate^[10] (LoadRegs Lanes s)).v1.get3 +
            (PermuteAndUpdate^[10] (LoadRegs Lanes s)).mul1.get3) % 2 ^ 64)
          (((PermuteAndUpdate^[10] (LoadRegs Lanes s)).v1.get2 +
            (PermuteAndUpdate^[10] (LoadRegs Lanes s)).mul1.get2) % 2 ^ 64)
          (((PermuteAndUpdate^[10] (LoadRegs Lanes s)).v0.get3 +
            (PermuteAndUpdate^[10] (LoadRegs Lanes s)).mul0.get3) % 2 ^ 64)
          (((PermuteAndUpdate^[10] (LoadRegs Lanes s)).v0.get2 +
            (PermuteAndUpdate^[10] (LoadRegs Lanes s)).mul0.get2) % 2 ^ 64)).get1⟩ := by
  have h : Finalize256 s =
      ModularReduction
        (AtLeast4LaneU64VecAdd (PermuteAndUpdate^[10] (LoadRegs Lanes s)).v0
          (PermuteAndUpdate^[10] (LoadRegs Lanes s)).mul0)
        (AtLeast4LaneU64VecAdd (PermuteAndUpdate^[10] (LoadRegs Lanes s)).v1
          (PermuteAndUpdate^[10] (LoadRegs Lanes s)).mul1) := rfl
  rw [h, ModularReduction_eq_test]
  rfl

/-- The four words written by the test's `HwyHashFinalize256` are those
written by `Finalize256`. -/
theorem test_HwyHashFinalize256_eq (s : SimdHwyHashState) :
    (test.HwyHashFinalize256 s).2 = Finalize256 s := by
  have h : (test.HwyHashFinalize256 s).2 =
      ⟨(test.HwyHashModularReduction
          (((test.PermuteAndUpdateHwyHashState^[10] s).v1.get 1 +
            (test.PermuteAndUpdateHwyHashState^[10] s).mul1.get 1) % 2 ^ 64)
          (((test.PermuteAndUpdateHwyHashState^[10] s).v1.get 0 +
            (test.PermuteAndUpdateHwyHashState^[10] s).mul1.get 0) % 2 ^ 64)
          (((test.PermuteAndUpdateHwyHashState^[10] s).v0.get 1 +
            (test.PermuteAndUpdateHwyHashState^[10] s).mul0.get 1) % 2 ^ 64)
          (((test.PermuteAndUpdateHwyHashState^[10] s).v0.get 0 +
            (test.PermuteAndUpdateHwyHashState^[10] s).mul0.get 0) % 2 ^ 64)).get0,
       (test.HwyHashModularReduction
          (((test.PermuteAndUpdateHwyHashState^[10] s).v1.get 1 +
            (test.PermuteAndUpdateHwyHashState^[10] s).mul1.get 1) % 2 ^ 64)
          (((test.PermuteAndUpdateHwyHashState^[10] s).v1.get 0 +
            (test.PermuteAndUpdateHwyHashState^[10] s).mul1.get 0) % 2 ^ 64)
          (((test.PermuteAndUpdateHwyHashState^[10] s).v0.get 1 +
            (test.PermuteAndUpdateHwyHashState^[10] s).mul0.get 1) % 2 ^ 64)
          (((test.PermuteAndUpdateHwyHashState^[10] s).v0.get 0 +
            (test.PermuteAndUpdateHwyHashState^[10] s).mul0.get 0) % 2 ^ 64)).get1,
       (test.HwyHashModularReduction
          (((test.PermuteAndUpdateHwyHashState^[10] s).v1.get 3 +
            (test.PermuteAndUpdateHwyHashState^[10] s).mul1.get 3) % 2 ^ 64)
          (((test.PermuteAndUpdateHwyHashState^[10] s).v1.get 2 +
            (test.PermuteAndUpdateHwyHashState^[10] s).mul1.get 2) % 2 ^ 64)
          (((test.PermuteAndUpdateHwyHashState^[10] s).v0.get 3 +
            (test.PermuteAndUpdateHwyHashState^[10] s).mul0.get 3) % 2 ^ 64)
          (((test.PermuteAndUpdateHwyHashState^[10] s).v0.get 2 +
            (test.PermuteAndUpdateHwyHashState^[10] s).mul0.get 2) % 2 ^ 64)).get0,
       (test.HwyHashModularReduction
          (((test.PermuteAndUpdateHwyHashState^[10] s).v1.get 3 +
            (test.PermuteAndUpdateHwyHashState^[10] s).mul1.get 3) % 2 ^ 64)
          (((test.PermuteAndUpdateHwyHashState^[10] s).v1.get 2 +
            (test.PermuteAndUpdateHwyHashState^[10] s).mul1.get 2) % 2 ^ 64)
          (((test.PermuteAndUpdateHwyHashState^[10] s).v0.get 3 +
            (test.PermuteAndUpdateHwyHashState^[10] s).mul0.get 3) % 2 ^ 64)
          (((test.PermuteAndUpdateHwyHashState^[10] s).v0.get 2 +
            (test.PermuteAndUpdateHwyHashState^[10] s).mul0.get 2) % 2 ^ 64)).get1⟩ := rfl
  rw [h, PermuteAndUpdate_iterate_eq_test, Finalize256_eq]
  rfl

/-- Claim C13: `Finalize256` writes the four words written by the test's
scalar reference `HwyHashFinalize256` on a copy of the state: exactly ten
permute-update rounds, then the modular reduction of `(v1[1] + mul1[1],
v1[0] + mul1[0], v0[1] + mul0[1], v0[0] + mul0[0])` into `hash[0..1]` and of
`(v1[3] + mul1[3], v1[2] + mul1[2], v0[3] + mul0[3], v0[2] + mul0[2])` into
`hash[2..3]`. -/
theorem finalize256_matches_reference (s : SimdHwyHashState) :
    SimdHwyHash_Finalize256 s = (test.HwyHashFinalize256 s).2 ∧
    SimdHwyHash_Finalize256 s =
      ModularReduction
        (AtLeast4LaneU64VecAdd (PermuteAndUpdate^[10] (LoadRegs Lanes s)).v0
          (PermuteAndUpdate^[10] (LoadRegs Lanes s)).mul0)
        (AtLeast4LaneU64VecAdd (PermuteAndUpdate^[10] (LoadRegs Lanes s)).v1
          (PermuteAndUpdate^[10] (LoadRegs Lanes s)).mul1) ∧
    StoreRegs Lanes (PermuteAndUpdate^[10] (LoadRegs Lanes s)) s =
      test.PermuteAndUpdateHwyHashState^[10] s :=
  ⟨(test_HwyHashFinalize256_eq s).symm, rfl, (PermuteAndUpdate_iterate_eq_test 10 s).symm⟩

/-! ## The permutation of the finalizers -/

theorem rot32_swaps_halves (x : Nat) (hx : x < 2 ^ 64) :
    spec.rot32 x = (x % 2 ^ 32) * 2 ^ 32 + x / 2 ^ 32 := by
  have hlo : x / 2 ^ 32 < 2 ^ 32 := by omega
  have hhi : (x * 2 ^ 32) % 2 ^ 64 = 2 ^ 32 * (x % 2 ^ 32) := by
    rw [show (2 : Nat) ^ 64 = 2 ^ 32 * 2 ^ 32 from by norm_num, Nat.mul_mod_mul_right,
      Nat.mul_comm]
  rw [spec.rot32, Nat.shiftLeft_eq, Nat.shiftRight_eq_div_pow, hhi, Nat.lor_comm,
    ← Nat.mul_add_lt_is_or hlo, Nat.mul_comm]

/-- Claim C17, as amended: the packet used by a permute-update round is
obtained from `v0` by exchanging its two 128-bit halves (lanes 0, 1 with lanes
2, 3) and swapping the two 32-bit halves of each `u64`:
`PermuteV0(v0) = [rot32(v0[2]), rot32(v0[3]), rot32(v0[0]), rot32(v0[1])]` with
`rot32(x) = (x >> 32) | (x << 32)`. -/
theorem permute_exchanges_halves (r : Regs Vec4) (v0 : Vec4) :
    PermuteV0 v0 =
      ⟨spec.rot32 v0.get2, spec.rot32 v0.get3, spec.rot32 v0.get0, spec.rot32 v0.get1⟩ ∧
    PermuteAndUpdate r = DoHwyHashUpdate r (PermuteV0 r.v0) ∧
    ∀ x, x < 2 ^ 64 → spec.rot32 x = (x % 2 ^ 32) * 2 ^ 32 + x / 2 ^ 32 :=
  ⟨rfl, rfl, rot32_swaps_halves⟩

/-- The amended claim C17 on the lanes `1, 2, 3, 4`: the 32-bit halves of the
lane `0x100000002` are swapped. -/
theorem permute_exchanges_halves_witness :
    0x100000002 < 2 ^ 64 ∧
    spec.rot32 0x100000002 = (0x100000002 % 2 ^ 32) * 2 ^ 32 + 0x100000002 / 2 ^ 32 :=
  ⟨by decide,
    (permute_exchanges_halves ⟨⟨1, 2, 3, 4⟩, ⟨0, 0, 0, 0⟩, ⟨0, 0, 0, 0⟩, ⟨0, 0, 0, 0⟩⟩
      ⟨1, 2, 3, 4⟩).2.2 0x100000002 (by decide)⟩

/-- Claim C17 as written fails: on the lanes `1, 2, 3, 4` the packet of the
permute-update round is `[rot32(3), rot32(4), rot32(1), rot32(2)]`, not
`[rot32(2), rot32(1), rot32(4), rot32(3)]`. -/
theorem permute_not_within_halves :
    PermuteV0 ⟨1, 2, 3, 4⟩ ≠
      ⟨spec.rot32 2, spec.rot32 1, spec.rot32 4, spec.rot32 3⟩ ∧
    PermuteV0 ⟨1, 2, 3, 4⟩ = ⟨0x300000000, 0x400000000, 0x100000000, 0x200000000⟩ := by
  decide

/-! ## The empty input -/

/-- Claim C18: `Update` with `byte_len = 0` runs the packet loop zero times,
has no remainder round and leaves all sixteen words of the state unchanged;
hence `Hash64` of the empty input is `Finalize64` of the state produced by
`Reset`. -/
theorem update_of_nothing (s s0 : SimdHwyHashState) (r : Regs Vec4) (ptr : List Nat)
    (K : U64x4) :
    SimdHwyHash_Update s ptr 0 = s ∧
    ((0 &&& (2 ^ 64 - 32)) / 32 = 0 ∧ 0 &&& 31 = 0) ∧
    UpdateHwyHashState.locals Lanes r ptr 0 = r ∧
    SimdHwyHash_Hash64 ptr 0 K = SimdHwyHash_Finalize64 (SimdHwyHash_Reset s0 K) := by
  have h : SimdHwyHash_Reset uninitialized K = SimdHwyHash_Reset s0 K := by
    rw [SimdHwyHash_Reset, SimdHwyHash_Reset, ResetHwyHashState_eq, ResetHwyHashState_eq]
  refine ⟨rfl, ⟨by decide, by decide⟩, rfl, ?_⟩
  rw [← h]
  rfl

/-! ## The packet load -/

theorem LoadU64_inj (a0 a1 a2 a3 a4 a5 a6 a7 b0 b1 b2 b3 b4 b5 b6 b7 : Nat)
    (ha0 : a0 < 256) (ha1 : a1 < 256) (ha2 : a2 < 256) (ha3 : a3 < 256)
    (ha4 : a4 < 256) (ha5 : a5 < 256) (ha6 : a6 < 256)
    (hb0 : b0 < 256) (hb1 : b1 < 256) (hb2 : b2 < 256) (hb3 : b3 < 256)
    (hb4 : b4 < 256) (hb5 : b5 < 256) (hb6 : b6 < 256)
    (h : a0 + a1 * 2 ^ 8 + a2 * 2 ^ 16 + a3 * 2 ^ 24 + a4 * 2 ^ 32 + a5 * 2 ^ 40 + a6 * 2 ^ 48 +
        a7 * 2 ^ 56 =
      b0 + b1 * 2 ^ 8 + b2 * 2 ^ 16 + b3 * 2 ^ 24 + b4 * 2 ^ 32 + b5 * 2 ^ 40 + b6 * 2 ^ 48 +
        b7 * 2 ^ 56) :
    a0 = b0 ∧ a1 = b1 ∧ a2 = b2 ∧ a3 = b3 ∧ a4 = b4 ∧ a5 = b5 ∧ a6 = b6 ∧ a7 = b7 := by
  omega

theorem LoadU64_bytes_le (x : Nat) (hx : x < 2 ^ 64) : LoadU64 (spec.bytes_le x) = x := by
  simp only [LoadU64, spec.bytes_le, List.getD_cons_zero, List.getD_cons_succ]
  omega

theorem bytes_le_lt (x b : Nat) (h : b ∈ spec.bytes_le x) : b < 256 := by
  simp only [spec.bytes_le, List.mem_cons, List.mem_singleton, List.not_mem_nil, or_false] at h
  omega

theorem getD_lt_256 (p : List Nat) (hb : ∀ b ∈ p, b < 256) (i : Nat) : p.getD i 0 < 256 := by
  rw [List.getD_eq_getElem?_getD]
  cases h : p[i]? with
  | none => simp
  | some b => exact hb b (List.getElem?_mem h)

theorem ext_getD (p q : List Nat) (hl : p.length = q.length)
    (h : ∀ i, i < p.length → p.getD i 0 = q.getD i 0) : p = q := by
  apply List.ext_getElem hl
  intro n h1 h2
  have e := h n h1
  rw [List.getD_eq_getElem _ _ h1, List.getD_eq_getElem _ _ h2] at e
  exact e

/-- The four lanes loaded from a packet, byte by byte. -/
theorem LoadAtLeast4LanePacketVec_eq (p : List Nat) :
    LoadAtLeast4LanePacketVec Lanes p =
      ⟨p.getD 0 0 + p.getD 1 0 * 2 ^ 8 + p.getD 2 0 * 2 ^ 16 + p.getD 3 0 * 2 ^ 24 +
         p.getD 4 0 * 2 ^ 32 + p.getD 5 0 * 2 ^ 40 + p.getD 6 0 * 2 ^ 48 + p.getD 7 0 * 2 ^ 56,
       p.getD 8 0 + p.getD 9 0 * 2 ^ 8 + p.getD 10 0 * 2 ^ 16 + p.getD 11 0 * 2 ^ 24 +
         p.getD 12 0 * 2 ^ 32 + p.getD 13 0 * 2 ^ 40 + p.getD 14 0 * 2 ^ 48 +
         p.getD 15 0 * 2 ^ 56,
       p.getD 16 0 + p.getD 17 0 * 2 ^ 8 + p.getD 18 0 * 2 ^ 16 + p.getD 19 0 * 2 ^ 24 +
         p.getD 20 0 * 2 ^ 32 + p.getD 21 0 * 2 ^ 40 + p.getD 22 0 * 2 ^ 48 +
         p.getD 23 0 * 2 ^ 56,
       p.getD 24 0 + p.getD 25 0 * 2 ^ 8 + p.getD 26 0 * 2 ^ 16 + p.getD 27 0 * 2 ^ 24 +
         p.getD 28 0 * 2 ^ 32 + p.getD 29 0 * 2 ^ 40 + p.getD 30 0 * 2 ^ 48 +
         p.getD 31 0 * 2 ^ 56⟩ := by
  simp only [LoadAtLeast4LanePacketVec, LoadAtLeast2LanePacketVec, LoadU64, Lanes,
    CombineToAtLeast4LaneVec, Create2, Create4, getD_drop, List.drop_drop]
  norm_num

theorem LoadAtLeast4LanePacketVec_packet_of_lanes (v : Vec4) (h0 : v.get0 < 2 ^ 64)
    (h1 : v.get1 < 2 ^ 64) (h2 : v.get2 < 2 ^ 64) (h3 : v.get3 < 2 ^ 64) :
    LoadAtLeast4LanePacketVec Lanes (spec.packet_of_lanes v) = v := by
  have e0 := LoadU64_bytes_le v.get0 h0
  have e1 := LoadU64_bytes_le v.get1 h1
  have e2 := LoadU64_bytes_le v.get2 h2
  have e3 := LoadU64_bytes_le v.get3 h3
  simp only [LoadU64, spec.bytes_le, List.getD_cons_zero, List.getD_cons_succ] at e0 e1 e2 e3
  rw [LoadAtLeast4LanePacketVec_eq]
  simp only [spec.packet_of_lanes, spec.bytes_le, List.cons_append, List.nil_append,
    List.getD_cons_zero, List.getD_cons_succ, e0, e1, e2, e3]

theorem LoadAtLeast4LanePacketVec_injective (p q : List Nat) (hp : p.length = 32)
    (hq : q.length = 32) (hpb : ∀ b ∈ p, b < 256) (hqb : ∀ b ∈ q, b < 256)
    (h : LoadAtLeast4LanePacketVec Lanes q = LoadAtLeast4LanePacketVec Lanes p) : q = p := by
  rw [LoadAtLeast4LanePacketVec_eq, LoadAtLeast4LanePacketVec_eq, Vec4.mk.injEq] at h
  obtain ⟨h0, h1, h2, h3⟩ := h
  have P := getD_lt_256 p hpb
  have Q := getD_lt_256 q hqb
  have k0 := LoadU64_inj _ _ _ _ _ _ _ _ _ _ _ _ _ _ _ _ (Q 0) (Q 1) (Q 2) (Q 3) (Q 4) (Q 5)
    (Q 6) (P 0) (P 1) (P 2) (P 3) (P 4) (P 5) (P 6) h0
  have k1 := LoadU64_inj _ _ _ _ _ _ _ _ _ _ _ _ _ _ _ _ (Q 8) (Q 9) (Q 10) (Q 11) (Q 12)
    (Q 13) (Q 14) (P 8) (P 9) (P 10) (P 11) (P 12) (P 13) (P 14) h1
  have k2 := LoadU64_inj _ _ _ _ _ _ _ _ _ _ _ _ _ _ _ _ (Q 16) (Q 17) (Q 18) (Q 19) (Q 20)
    (Q 21) (Q 22) (P 16) (P 17) (P 18) (P 19) (P 20) (P 21) (P 22) h2
  have k3 := LoadU64_inj _ _ _ _ _ _ _ _ _ _ _ _ _ _ _ _ (Q 24) (Q 25) (Q 26) (Q 27) (Q 28)
    (Q 29) (Q 30) (P 24) (P 25) (P 26) (P 27) (P 28) (P 29) (P 30) h3
  apply ext_getD q p (by rw [hp, hq])
  intro i hi
  rw [hq] at hi
  interval_cases i
  · exact k0.1
  · exact k0.2.1
  · exact k0.2.2.1
  · exact k0.2.2.2.1
  · exact k0.2.2.2.2.1
  · exact k0.2.2.2.2.2.1
  · exact k0.2.2.2.2.2.2.1
  · exact k0.2.2.2.2.2.2.2
  · exact k1.1
  · exact k1.2.1
  · exact k1.2.2.1
  · exact k1.2.2.2.1
  · exact k1.2.2.2.2.1
  · exact k1.2.2.2.2.2.1
  · exact k1.2.2.2.2.2.2.1
  · exact k1.2.2.2.2.2.2.2
  · exact k2.1
  · exact k2.2.1
  · exact k2.2.2.1
  · exact k2.2.2.2.1
  · exact k2.2.2.2.2.1
  · exact k2.2.2.2.2.2.1
  · exact k2.2.2.2.2.2.2.1
  · exact k2.2.2.2.2.2.2.2
  · exact k3.1
  · exact k3.2.1
  · exact k3.2.2.1
  · exact k3.2.2.2.1
  · exact k3.2.2.2.2.1
  · exact k3.2.2.2.2.2.1
  · exact k3.2.2.2.2.2.2.1
  · exact k3.2.2.2.2.2.2.2

theorem packet_of_lanes_wf (v : Vec4) :
    (spec.packet_of_lanes v).length = 32 ∧ ∀ b ∈ spec.packet_of_lanes v, b < 256 := by
  refine ⟨rfl, fun b hb => ?_⟩
  simp only [spec.packet_of_lanes, List.mem_append] at hb
  rcases hb with ((h | h) | h) | h <;> exact bytes_le_lt _ b h

/-- Claim C20: for a packet `p` of 32 bytes, `LoadAtLeast4LanePacketVec`
returns the lanes `lane i = sum over j < 8 of p[8 i + j] * 2^(8 j)`, each below
`2^64`; two packets with the same lanes are equal, and every four lanes below
`2^64` are the lanes of a packet. -/
theorem load_packet_little_endian (p : List Nat) (hp : p.length = 32)
    (hpb : ∀ b ∈ p, b < 256) :
    LoadAtLeast4LanePacketVec Lanes p =
      ⟨∑ j ∈ Finset.range 8, p.getD (8 * 0 + j) 0 * 2 ^ (8 * j),
       ∑ j ∈ Finset.range 8, p.getD (8 * 1 + j) 0 * 2 ^ (8 * j),
       ∑ j ∈ Finset.range 8, p.getD (8 * 2 + j) 0 * 2 ^ (8 * j),
       ∑ j ∈ Finset.range 8, p.getD (8 * 3 + j) 0 * 2 ^ (8 * j)⟩ ∧
    ((LoadAtLeast4LanePacketVec Lanes p).get0 < 2 ^ 64 ∧
      (LoadAtLeast4LanePacketVec Lanes p).get1 < 2 ^ 64 ∧
      (LoadAtLeast4LanePacketVec Lanes p).get2 < 2 ^ 64 ∧
      (LoadAtLeast4LanePacketVec Lanes p).get3 < 2 ^ 64) ∧
    (∀ q : List Nat, q.length = 32 → (∀ b ∈ q, b < 256) →
      LoadAtLeast4LanePacketVec Lanes q = LoadAtLeast4LanePacketVec Lanes p → q = p) ∧
    (∀ v : Vec4, v.get0 < 2 ^ 64 → v.get1 < 2 ^ 64 → v.get2 < 2 ^ 64 → v.get3 < 2 ^ 64 →
      ∃ q : List Nat, q.length = 32 ∧ (∀ b ∈ q, b < 256) ∧
        LoadAtLeast4LanePacketVec Lanes q = v) := by
  have P := getD_lt_256 p hpb
  refine ⟨?_, ?_, fun q hq hqb h => LoadAtLeast4LanePacketVec_injective p q hp hq hpb hqb h,
    fun v h0 h1 h2 h3 => ⟨spec.packet_of_lanes v, (packet_of_lanes_wf v).1,
      (packet_of_lanes_wf v).2, LoadAtLeast4LanePacketVec_packet_of_lanes v h0 h1 h2 h3⟩⟩
  · rw [LoadAtLeast4LanePacketVec_eq]
    simp [Finset.sum_range_succ]
  · rw [LoadAtLeast4LanePacketVec_eq]
    have a0 := P 0; have a1 := P 1; have a2 := P 2; have a3 := P 3
    have a4 := P 4; have a5 := P 5; have a6 := P 6; have a7 := P 7
    have a8 := P 8; have a9 := P 9; have a10 := P 10; have a11 := P 11
    have a12 := P 12; have a13 := P 13; have a14 := P 14; have a15 := P 15
    have a16 := P 16; have a17 := P 17; have a18 := P 18; have a19 := P 19
    have a20 := P 20; have a21 := P 21; have a22 := P 22; have a23 := P 23
    have a24 := P 24; have a25 := P 25; have a26 := P 26; have a27 := P 27
    have a28 := P 28; have a29 := P 29; have a30 := P 30; have a31 := P 31
    refine ⟨?_, ?_, ?_, ?_⟩ <;> simp only <;> omega

/-- Claim C20 on the first packet of `kData`. -/
theorem load_packet_little_endian_witness :
    ((kData.take 32).length = 32 ∧ ∀ b ∈ kData.take 32, b < 256) ∧
    (LoadAtLeast4LanePacketVec Lanes (kData.take 32)).get0 < 2 ^ 64 :=
  ⟨⟨by decide, by decide⟩,
    (load_packet_little_endian (kData.take 32) (by decide) (by decide)).2.1.1⟩

/-! ## The zipper merge as a permutation of bytes -/

namespace bits

/-- The byte of `x` that starts at bit `k`. -/
theorem field_lt (x k : Nat) : (x >>> k) &&& 255 < 256 :=
  Nat.and_lt_two_pow _ (by norm_num : 255 < 2 ^ 8)

theorem and_mask (x k : Nat) : x &&& (255 <<< k) = ((x >>> k) &&& 255) <<< k := by
  apply Nat.eq_of_testBit_eq
  intro j
  simp only [Nat.testBit_and, Nat.testBit_shiftLeft, Nat.testBit_shiftRight]
  by_cases h : k ≤ j
  · have e : k + (j - k) = j := by omega
    simp [h, e, Bool.and_comm]
  · simp [h]

theorem shiftRight_or (a b s : Nat) : (a ||| b) >>> s = (a >>> s) ||| (b >>> s) := by
  apply Nat.eq_of_testBit_eq
  intro j
  simp only [Nat.testBit_or, Nat.testBit_shiftRight]

theorem shiftLeft_or (a b s : Nat) : (a ||| b) <<< s = (a <<< s) ||| (b <<< s) := by
  apply Nat.eq_of_testBit_eq
  intro j
  simp only [Nat.testBit_or, Nat.testBit_shiftLeft, Bool.and_or_distrib_left]

theorem shiftLeft_shiftRight_le (y k s : Nat) (h : s ≤ k) : (y <<< k) >>> s = y <<< (k - s) := by
  have e : y <<< k = (y <<< (k - s)) <<< s := by
    rw [← Nat.shiftLeft_add]; congr 1; omega
  rw [e, Nat.shiftLeft_shiftRight]

theorem shiftLeft_small (y k : Nat) (hy : y < 256) (hk : k ≤ 56) :
    (y <<< k) % 2 ^ 64 = y <<< k := by
  apply Nat.mod_eq_of_lt
  rw [Nat.shiftLeft_eq]
  calc y * 2 ^ k < 2 ^ 8 * 2 ^ k := Nat.mul_lt_mul_of_pos_right hy (Nat.pow_pos (by norm_num))
    _ = 2 ^ (8 + k) := by rw [Nat.pow_add]
    _ ≤ 2 ^ 64 := Nat.pow_le_pow_right (by norm_num) (by omega)

theorem field_shr (x k s : Nat) (h : s ≤ k) :
    (x &&& (255 <<< k)) >>> s = ((x >>> k) &&& 255) <<< (k - s) := by
  rw [and_mask, shiftLeft_shiftRight_le _ _ _ h]

theorem field_shl (x k s : Nat) (h : k + s ≤ 56) :
    ((x &&& (255 <<< k)) <<< s) % 2 ^ 64 = ((x >>> k) &&& 255) <<< (k + s) := by
  rw [and_mask, ← Nat.shiftLeft_add, shiftLeft_small _ _ (field_lt x k) h]

theorem top_byte (x : Nat) : (x <<< 56) % 2 ^ 64 = ((x >>> 0) &&& 255) <<< 56 := by
  rw [Nat.shiftLeft_eq, Nat.shiftLeft_eq, Nat.shiftRight_zero,
    show (255 : Nat) = 2 ^ 8 - 1 from rfl, Nat.and_pow_two_sub_one_eq_mod,
    show (2 : Nat) ^ 64 = 2 ^ 8 * 2 ^ 56 from by norm_num, Nat.mul_mod_mul_right]

end bits

theorem HwyHashZipperMerge0_fields (v1 v0 : Nat) :
    test.HwyHashZipperMerge0 v1 v0 =
      ((v0 >>> 24) &&& 255) ||| (((v1 >>> 32) &&& 255) <<< 8) |||
      (((v0 >>> 16) &&& 255) <<< 16) ||| (((v0 >>> 40) &&& 255) <<< 24) |||
      (((v1 >>> 48) &&& 255) <<< 32) ||| (((v0 >>> 8) &&& 255) <<< 40) |||
      (((v1 >>> 56) &&& 255) <<< 48) ||| (((v0 >>> 0) &&& 255) <<< 56) := by
  have t1 : (v0 &&& 0xff000000) >>> 24 = (v0 >>> 24) &&& 255 :=
    bits.field_shr v0 24 24 (by decide)
  have t2 : (v1 &&& 0xff00000000) >>> 24 = ((v1 >>> 32) &&& 255) <<< 8 :=
    bits.field_shr v1 32 24 (by decide)
  have t3 : (v0 &&& 0xff0000000000) >>> 16 = ((v0 >>> 40) &&& 255) <<< 24 :=
    bits.field_shr v0 40 16 (by decide)
  have t4 : (v1 &&& 0xff000000000000) >>> 16 = ((v1 >>> 48) &&& 255) <<< 32 :=
    bits.field_shr v1 48 16 (by decide)
  have t5 : v0 &&& 0xff0000 = ((v0 >>> 16) &&& 255) <<< 16 := bits.and_mask v0 16
  have t6 : ((v0 &&& 0xff00) <<< 32) % 2 ^ 64 = ((v0 >>> 8) &&& 255) <<< 40 :=
    bits.field_shl v0 8 32 (by decide)
  have t7 : (v1 &&& 0xff00000000000000) >>> 8 = ((v1 >>> 56) &&& 255) <<< 48 :=
    bits.field_shr v1 56 8 (by decide)
  have t8 := bits.top_byte v0
  rw [test.HwyHashZipperMerge0, bits.shiftRight_or, bits.shiftRight_or, t1, t2, t3, t4, t5, t6,
    t7, t8]
  generalize (v0 >>> 24) &&& 255 = f0
  generalize ((v1 >>> 32) &&& 255) <<< 8 = f1
  generalize ((v0 >>> 16) &&& 255) <<< 16 = f2
  generalize ((v0 >>> 40) &&& 255) <<< 24 = f3
  generalize ((v1 >>> 48) &&& 255) <<< 32 = f4
  generalize ((v0 >>> 8) &&& 255) <<< 40 = f5
  generalize ((v1 >>> 56) &&& 255) <<< 48 = f6
  generalize ((v0 >>> 0) &&& 255) <<< 56 = f7
  ac_rfl

theorem HwyHashZipperMerge1_fields (v1 v0 : Nat) :
    test.HwyHashZipperMerge1 v1 v0 =
      ((v1 >>> 24) &&& 255) ||| (((v0 >>> 32) &&& 255) <<< 8) |||
      (((v1 >>> 16) &&& 255) <<< 16) ||| (((v1 >>> 40) &&& 255) <<< 24) |||
      (((v1 >>> 8) &&& 255) <<< 32) ||| (((v0 >>> 48) &&& 255) <<< 40) |||
      (((v1 >>> 0) &&& 255) <<< 48) ||| (((v0 >>> 56) &&& 255) <<< 56) := by
  have t1 : (v1 &&& 0xff000000) >>> 24 = (v1 >>> 24) &&& 255 :=
    bits.field_shr v1 24 24 (by decide)
  have t2 : (v0 &&& 0xff00000000) >>> 24 = ((v0 >>> 32) &&& 255) <<< 8 :=
    bits.field_shr v0 32 24 (by decide)
  have t3 : v1 &&& 0xff0000 = ((v1 >>> 16) &&& 255) <<< 16 := bits.and_mask v1 16
  have t4 : (v1 &&& 0xff0000000000) >>> 16 = ((v1 >>> 40) &&& 255) <<< 24 :=
    bits.field_shr v1 40 16 (by decide)
  have t5 : ((v1 &&& 0xff00) <<< 24) % 2 ^ 64 = ((v1 >>> 8) &&& 255) <<< 32 :=
    bits.field_shl v1 8 24 (by decide)
  have t6 : (v0 &&& 0xff000000000000) >>> 8 = ((v0 >>> 48) &&& 255) <<< 40 :=
    bits.field_shr v0 48 8 (by decide)
  have t7 : ((v1 &&& 0xff) <<< 48) % 2 ^ 64 = ((v1 >>> 0) &&& 255) <<< 48 :=
    bits.field_shl v1 0 48 (by decide)
  have t8 : v0 &&& 0xff00000000000000 = ((v0 >>> 56) &&& 255) <<< 56 := bits.and_mask v0 56
  rw [test.HwyHashZipperMerge1, bits.shiftRight_or, t1, t2, t3, t4, t5, t6, t7, t8]

theorem bits.add_shl8 (b R : Nat) (hb : b < 256) : b + R * 2 ^ 8 = b ||| (R <<< 8) := by
  rw [Nat.shiftLeft_eq, Nat.lor_comm, Nat.mul_comm R, ← Nat.mul_add_lt_is_or hb, Nat.add_comm]

/-- The little-endian value of eight bytes, as an OR of shifted bytes. -/
theorem LoadU64_eq_or (b0 b1 b2 b3 b4 b5 b6 b7 : Nat) (h0 : b0 < 256) (h1 : b1 < 256)
    (h2 : b2 < 256) (h3 : b3 < 256) (h4 : b4 < 256) (h5 : b5 < 256) (h6 : b6 < 256) :
    LoadU64 [b0, b1, b2, b3, b4, b5, b6, b7] =
      b0 ||| (b1 <<< 8) ||| (b2 <<< 16) ||| (b3 <<< 24) ||| (b4 <<< 32) ||| (b5 <<< 40) |||
        (b6 <<< 48) ||| (b7 <<< 56) := by
  have e : LoadU64 [b0, b1, b2, b3, b4, b5, b6, b7] =
      b0 + (b1 + (b2 + (b3 + (b4 + (b5 + (b6 + b7 * 2 ^ 8) * 2 ^ 8) * 2 ^ 8) * 2 ^ 8) * 2 ^ 8) *
        2 ^ 8) * 2 ^ 8 := by
    simp only [LoadU64, List.getD_cons_zero, List.getD_cons_succ]
    omega
  rw [e, bits.add_shl8 b6 _ h6, bits.add_shl8 b5 _ h5, bits.add_shl8 b4 _ h4,
    bits.add_shl8 b3 _ h3, bits.add_shl8 b2 _ h2, bits.add_shl8 b1 _ h1, bits.add_shl8 b0 _ h0]
  simp only [bits.shiftLeft_or, ← Nat.shiftLeft_add, Nat.reduceAdd, Nat.lor_assoc]

theorem bits.field_eq (x k : Nat) : (x >>> k) &&& 255 = x / 2 ^ k % 256 := by
  rw [Nat.shiftRight_eq_div_pow, show (255 : Nat) = 2 ^ 8 - 1 from rfl,
    Nat.and_pow_two_sub_one_eq_mod]

theorem bytes_le_LoadU64 (b0 b1 b2 b3 b4 b5 b6 b7 : Nat) (h0 : b0 < 256) (h1 : b1 < 256)
    (h2 : b2 < 256) (h3 : b3 < 256) (h4 : b4 < 256) (h5 : b5 < 256) (h6 : b6 < 256)
    (h7 : b7 < 256) :
    spec.bytes_le (LoadU64 [b0, b1, b2, b3, b4, b5, b6, b7]) = [b0, b1, b2, b3, b4, b5, b6, b7] := by
  simp only [LoadU64, spec.bytes_le, List.getD_cons_zero, List.getD_cons_succ, List.cons.injEq,
    and_true]
  omega

/-- The two lanes returned by the scalar `ZipperMerge`, from the bytes of its
operand. -/
theorem ZipperMerge_eq_bytes (x0 x1 : Nat) :
    ZipperMerge ⟨x0, x1⟩ =
      ⟨LoadU64 [x0 / 2 ^ 24 % 256, x1 / 2 ^ 32 % 256, x0 / 2 ^ 16 % 256, x0 / 2 ^ 40 % 256,
                x1 / 2 ^ 48 % 256, x0 / 2 ^ 8 % 256, x1 / 2 ^ 56 % 256, x0 % 256],
       LoadU64 [x1 / 2 ^ 24 % 256, x0 / 2 ^ 32 % 256, x1 / 2 ^ 16 % 256, x1 / 2 ^ 40 % 256,
                x1 / 2 ^ 8 % 256, x0 / 2 ^ 48 % 256, x1 % 256, x0 / 2 ^ 56 % 256]⟩ := by
  have m : ∀ x k : Nat, x / 2 ^ k % 256 < 256 := fun x k => Nat.mod_lt _ (by norm_num)
  have m0 : ∀ x : Nat, x % 256 < 256 := fun x => Nat.mod_lt _ (by norm_num)
  rw [ZipperMerge_eq_test, HwyHashZipperMerge0_fields, HwyHashZipperMerge1_fields,
    LoadU64_eq_or _ _ _ _ _ _ _ _ (m _ _) (m _ _) (m _ _) (m _ _) (m _ _) (m _ _) (m _ _),
    LoadU64_eq_or _ _ _ _ _ _ _ _ (m _ _) (m _ _) (m _ _) (m _ _) (m _ _) (m _ _) (m0 _)]
  simp only [bits.field_eq, pow_zero, Nat.div_one]

/-- The operation `TableLookupBytes` with the index constant of the kernel is
the scalar `ZipperMerge`. -/
theorem TableLookupBytes128_eq_ZipperMerge (x0 x1 : Nat) :
    hwy.TableLookupBytes128 ⟨x0, x1⟩ ⟨0x000f010e05020c03, 0x070806090d0a040b⟩ =
      ZipperMerge ⟨x0, x1⟩ := by
  rw [ZipperMerge_eq_bytes]
  have e : hwy.BlockBytes 0x000f010e05020c03 0x070806090d0a040b =
      [3, 12, 2, 5, 14, 1, 15, 0, 11, 4, 10, 13, 9, 6, 8, 7] := by decide
  simp only [hwy.TableLookupBytes128, e]
  rfl

theorem BlockBytes_ZipperMerge (x0 x1 : Nat) :
    hwy.BlockBytes (ZipperMerge ⟨x0, x1⟩).get0 (ZipperMerge ⟨x0, x1⟩).get1 =
      spec.zipper_merge_bytes (hwy.BlockBytes x0 x1) := by
  have m : ∀ x k : Nat, x / 2 ^ k % 256 < 256 := fun x k => Nat.mod_lt _ (by norm_num)
  have m0 : ∀ x : Nat, x % 256 < 256 := fun x => Nat.mod_lt _ (by norm_num)
  rw [ZipperMerge_eq_bytes]
  simp only [hwy.BlockBytes]
  rw [bytes_le_LoadU64 _ _ _ _ _ _ _ _ (m _ _) (m _ _) (m _ _) (m _ _) (m _ _) (m _ _) (m _ _)
      (m0 _),
    bytes_le_LoadU64 _ _ _ _ _ _ _ _ (m _ _) (m _ _) (m _ _) (m _ _) (m _ _) (m _ _) (m0 _)
      (m _ _)]
  rfl

/-- The zipper merge of the 256-bit kernel is the scalar one on each 128-bit
block. -/
theorem N_AVX2_ZipperMerge_eq (v : Vec4) :
    N_AVX2.ZipperMerge v = spec.zipper_merge v := by
  simp only [N_AVX2.ZipperMerge, hwy.TableLookupBytes, hwy.Dup128VecFromValues,
    TableLookupBytes128_eq_ZipperMerge, spec.zipper_merge]

/-- Claim C15: for the two lanes `x0, x1` of a 128-bit half, viewed as the 16
little-endian bytes `b[0..15]`, the bytes of the result of `ZipperMerge` are,
low to high, `b[3], b[12], b[2], b[5], b[14], b[1], b[15], b[0], b[11], b[4],
b[10], b[13], b[9], b[6], b[8], b[7]`; the scalar mask-and-shift formula, the
table lookup with the constant `(0x000f010e05020c03, 0x070806090d0a040b)`,
whose bytes are these indices, and the test's `HwyHashZipperMerge0(x1, x0)`,
`HwyHashZipperMerge1(x1, x0)` give the same two lanes. -/
theorem zipper_merge_permutes_bytes (x0 x1 : Nat) :
    hwy.BlockBytes (ZipperMerge ⟨x0, x1⟩).get0 (ZipperMerge ⟨x0, x1⟩).get1 =
      [(hwy.BlockBytes x0 x1).getD 3 0, (hwy.BlockBytes x0 x1).getD 12 0,
       (hwy.BlockBytes x0 x1).getD 2 0, (hwy.BlockBytes x0 x1).getD 5 0,
       (hwy.BlockBytes x0 x1).getD 14 0, (hwy.BlockBytes x0 x1).getD 1 0,
       (hwy.BlockBytes x0 x1).getD 15 0, (hwy.BlockBytes x0 x1).getD 0 0,
       (hwy.BlockBytes x0 x1).getD 11 0, (hwy.BlockBytes x0 x1).getD 4 0,
       (hwy.BlockBytes x0 x1).getD 10 0, (hwy.BlockBytes x0 x1).getD 13 0,
       (hwy.BlockBytes x0 x1).getD 9 0, (hwy.BlockBytes x0 x1).getD 6 0,
       (hwy.BlockBytes x0 x1).getD 8 0, (hwy.BlockBytes x0 x1).getD 7 0] ∧
    hwy.TableLookupBytes128 ⟨x0, x1⟩ ⟨0x000f010e05020c03, 0x070806090d0a040b⟩ =
      ZipperMerge ⟨x0, x1⟩ ∧
    hwy.BlockBytes 0x000f010e05020c03 0x070806090d0a040b =
      [3, 12, 2, 5, 14, 1, 15, 0, 11, 4, 10, 13, 9, 6, 8, 7] ∧
    ZipperMerge ⟨x0, x1⟩ =
      ⟨test.HwyHashZipperMerge0 x1 x0, test.HwyHashZipperMerge1 x1 x0⟩ ∧
    (ZipperMerge ⟨x0, x1⟩).get0 < 2 ^ 64 ∧ (ZipperMerge ⟨x0, x1⟩).get1 < 2 ^ 64 := by
  have m : ∀ x k : Nat, x / 2 ^ k % 256 < 256 := fun x k => Nat.mod_lt _ (by norm_num)
  have m0 : ∀ x : Nat, x % 256 < 256 := fun x => Nat.mod_lt _ (by norm_num)
  refine ⟨BlockBytes_ZipperMerge x0 x1, TableLookupBytes128_eq_ZipperMerge x0 x1, by decide,
    ZipperMerge_eq_test x0 x1, ?_, ?_⟩
  · have a0 := m x0 24; have a1 := m x1 32; have a2 := m x0 16; have a3 := m x0 40
    have a4 := m x1 48; have a5 := m x0 8; have a6 := m x1 56; have a7 := m0 x0
    rw [ZipperMerge_eq_bytes]
    simp only [LoadU64, List.getD_cons_zero, List.getD_cons_succ]
    omega
  · have a0 := m x1 24; have a1 := m x0 32; have a2 := m x1 16; have a3 := m x1 40
    have a4 := m x1 8; have a5 := m x0 48; have a6 := m0 x1; have a7 := m x0 56
    rw [ZipperMerge_eq_bytes]
    simp only [LoadU64, List.getD_cons_zero, List.getD_cons_succ]
    omega

/-- Claim C16, as amended: for the second 128-bit half of a 4-lane vector
(lanes 2 and 3, viewed as the 16 little-endian bytes `c[0..15]`), the zipper
merge used by the round returns the bytes, low to high, `c[3], c[12], c[2],
c[5], c[14], c[1], c[15], c[0], c[11], c[4], c[10], c[13], c[9], c[6], c[8],
c[7]`: half 1 uses the same index vector as half 0. -/
theorem zipper_merge_second_half (r : Regs Vec4) (a v : Vec4) :
    DoHwyHashUpdate r a = spec.round r a ∧
    ((spec.zipper_merge v).get2 = (ZipperMerge ⟨v.get2, v.get3⟩).get0 ∧
      (spec.zipper_merge v).get3 = (ZipperMerge ⟨v.get2, v.get3⟩).get1 ∧
      (spec.zipper_merge v).get0 = (ZipperMerge ⟨v.get0, v.get1⟩).get0 ∧
      (spec.zipper_merge v).get1 = (ZipperMerge ⟨v.get0, v.get1⟩).get1) ∧
    hwy.BlockBytes (spec.zipper_merge v).get2 (spec.zipper_merge v).get3 =
      [(hwy.BlockBytes v.get2 v.get3).getD 3 0, (hwy.BlockBytes v.get2 v.get3).getD 12 0,
       (hwy.BlockBytes v.get2 v.get3).getD 2 0, (hwy.BlockBytes v.get2 v.get3).getD 5 0,
       (hwy.BlockBytes v.get2 v.get3).getD 14 0, (hwy.BlockBytes v.get2 v.get3).getD 1 0,
       (hwy.BlockBytes v.get2 v.get3).getD 15 0, (hwy.BlockBytes v.get2 v.get3).getD 0 0,
       (hwy.BlockBytes v.get2 v.get3).getD 11 0, (hwy.BlockBytes v.get2 v.get3).getD 4 0,
       (hwy.BlockBytes v.get2 v.get3).getD 10 0, (hwy.BlockBytes v.get2 v.get3).getD 13 0,
       (hwy.BlockBytes v.get2 v.get3).getD 9 0, (hwy.BlockBytes v.get2 v.get3).getD 6 0,
       (hwy.BlockBytes v.get2 v.get3).getD 8 0, (hwy.BlockBytes v.get2 v.get3).getD 7 0] ∧
    N_AVX2.ZipperMerge v = spec.zipper_merge v :=
  ⟨DoHwyHashUpdate_eq_round r a, ⟨rfl, rfl, rfl, rfl⟩,
    BlockBytes_ZipperMerge v.get2 v.get3, N_AVX2_ZipperMerge_eq v⟩

/-- Claim C16 as written fails: in a round on a state with `v0 = mul0 = mul1 =
0`, a zero packet and `v1` with lanes 2 and 3 holding the bytes `c[i] = i`,
the new lanes 2 and 3 of `v0` are the zipper merge of half 1 of `v1`; their
bytes are `3, 12, 2, 5, 14, 1, 15, 0, 11, 4, 10, 13, 9, 6, 8, 7`, the index
vector of half 0, and not `11, 4, 10, 13, 9, 6, 8, 7, 3, 12, 2, 5, 14, 1, 15,
0`. -/
theorem zipper_merge_second_half_not_swapped :
    (DoHwyHashUpdate
        ⟨⟨0, 0, 0, 0⟩, ⟨0, 0, 0x0706050403020100, 0x0f0e0d0c0b0a0908⟩, ⟨0, 0, 0, 0⟩,
          ⟨0, 0, 0, 0⟩⟩
        ⟨0, 0, 0, 0⟩).v0 = ⟨0, 0, 0x000f010e05020c03, 0x070806090d0a040b⟩ ∧
    hwy.BlockBytes 0x0706050403020100 0x0f0e0d0c0b0a0908 =
      [0, 1, 2, 3, 4, 5, 6, 7, 8, 9, 10, 11, 12, 13, 14, 15] ∧
    hwy.BlockBytes 0x000f010e05020c03 0x070806090d0a040b =
      [3, 12, 2, 5, 14, 1, 15, 0, 11, 4, 10, 13, 9, 6, 8, 7] ∧
    hwy.BlockBytes 0x000f010e05020c03 0x070806090d0a040b ≠
      [11, 4, 10, 13, 9, 6, 8, 7, 3, 12, 2, 5, 14, 1, 15, 0] := by
  decide

/-! ## The 256-bit kernel against the scalar kernel -/

theorem hwy_swap_u32_eq (x : Nat) (hx : x < 2 ^ 64) :
    (x >>> 32) % 2 ^ 32 + (x % 2 ^ 32) * 2 ^ 32 = RotateRight 32 x := by
  have e : RotateRight 32 x = spec.rot32 x := rfl
  rw [e, rot32_swaps_halves x hx, Nat.shiftRight_eq_div_pow]
  omega

theorem hwy_Reverse2_eq (v : Vec4) (h : v.lt64) :
    hwy.BitCastU32ToU64 (hwy.Reverse2 (hwy.BitCastU64ToU32 v)) =
      ⟨RotateRight 32 v.get0, RotateRight 32 v.get1, RotateRight 32 v.get2,
       RotateRight 32 v.get3⟩ := by
  rw [← hwy_swap_u32_eq _ h.1, ← hwy_swap_u32_eq _ h.2.1, ← hwy_swap_u32_eq _ h.2.2.1,
    ← hwy_swap_u32_eq _ h.2.2.2]
  rfl

theorem N_AVX2_Reset_eq (state : SimdHwyHashState) (key : U64x4) (hk : key.lt64) :
    N_AVX2.ResetHwyHashState state key = ResetHwyHashState state key := by
  have e : N_AVX2.ResetHwyHashState state key =
      { v0 := ⟨key.a0 ^^^ kMul0.a0, key.a1 ^^^ kMul0.a1, key.a2 ^^^ kMul0.a2,
               key.a3 ^^^ kMul0.a3⟩
        v1 := ⟨((key.a0 >>> 32) % 2 ^ 32 + (key.a0 % 2 ^ 32) * 2 ^ 32) ^^^ kMul1.a0,
               ((key.a1 >>> 32) % 2 ^ 32 + (key.a1 % 2 ^ 32) * 2 ^ 32) ^^^ kMul1.a1,
               ((key.a2 >>> 32) % 2 ^ 32 + (key.a2 % 2 ^ 32) * 2 ^ 32) ^^^ kMul1.a2,
               ((key.a3 >>> 32) % 2 ^ 32 + (key.a3 % 2 ^ 32) * 2 ^ 32) ^^^ kMul1.a3⟩
        mul0 := kMul0
        mul1 := kMul1 } := rfl
  rw [e, ResetHwyHashState_eq, hwy_swap_u32_eq _ hk.1, hwy_swap_u32_eq _ hk.2.1,
    hwy_swap_u32_eq _ hk.2.2.1, hwy_swap_u32_eq _ hk.2.2.2]

theorem hwy_mul_even_eq (x y : Nat) (hy : y < 2 ^ 64) :
    (x % 2 ^ 32) * ((y >>> 32) % 2 ^ 32) = Mul (And x 0xffffffff) (ShiftRight 32 y) := by
  have hx : x % 2 ^ 32 < 2 ^ 32 := Nat.mod_lt _ (by norm_num)
  have hy2 : y >>> 32 < 2 ^ 32 := by rw [Nat.shiftRight_eq_div_pow]; omega
  have hp : (x % 2 ^ 32) * (y >>> 32) < 2 ^ 64 := by
    calc (x % 2 ^ 32) * (y >>> 32) < 2 ^ 32 * 2 ^ 32 := Nat.mul_lt_mul'' hx hy2
      _ = 2 ^ 64 := by norm_num
  rw [Mul, And, ShiftRight, show (0xffffffff : Nat) = 2 ^ 32 - 1 from rfl,
    Nat.and_pow_two_sub_one_eq_mod, Nat.mod_eq_of_lt hy2, Nat.mod_eq_of_lt hp]

theorem hwy_MulEven_eq (x y : Vec4) (hy : y.lt64) :
    hwy.MulEven (hwy.BitCastU64ToU32 x) (hwy.Reverse2 (hwy.BitCastU64ToU32 y)) =
      ⟨Mul (And x.get0 0xffffffff) (ShiftRight 32 y.get0),
       Mul (And x.get1 0xffffffff) (ShiftRight 32 y.get1),
       Mul (And x.get2 0xffffffff) (ShiftRight 32 y.get2),
       Mul (And x.get3 0xffffffff) (ShiftRight 32 y.get3)⟩ := by
  rw [← hwy_mul_even_eq _ _ hy.1, ← hwy_mul_even_eq _ _ hy.2.1, ← hwy_mul_even_eq _ _ hy.2.2.1,
    ← hwy_mul_even_eq _ _ hy.2.2.2]
  rfl

theorem hwy_Add_lt64 (a b : Vec4) : (hwy.Add a b).lt64 :=
  ⟨Nat.mod_lt _ (by norm_num), Nat.mod_lt _ (by norm_num), Nat.mod_lt _ (by norm_num),
    Nat.mod_lt _ (by norm_num)⟩

/-- The round of the 256-bit kernel is the round of the scalar kernel. -/
theorem N_AVX2_DoHwyHashUpdate_eq (r : Regs Vec4) (a : Vec4) (h : r.v0.lt64) :
    N_AVX2.DoHwyHashUpdate r a = DoHwyHashUpdate r a := by
  rw [DoHwyHashUpdate_eq_round]
  simp only [N_AVX2.DoHwyHashUpdate, N_AVX2.HwyHashUpdateStep1, N_AVX2.AtLeast2LaneU64VecAdd,
    N_AVX2_ZipperMerge_eq, hwy_MulEven_eq _ _ h, hwy_MulEven_eq _ _ (hwy_Add_lt64 _ _)]
  rfl

theorem DoHwyHashUpdate_v0_lt64 (r : Regs Vec4) (a : Vec4) : (DoHwyHashUpdate r a).v0.lt64 :=
  ⟨Nat.mod_lt _ (by norm_num), Nat.mod_lt _ (by norm_num), Nat.mod_lt _ (by norm_num),
    Nat.mod_lt _ (by norm_num)⟩

theorem N_AVX2_LoadAtLeast4LanePacketVec_eq (p : List Nat) :
    N_AVX2.LoadAtLeast4LanePacketVec N_AVX2.Lanes p = LoadAtLeast4LanePacketVec Lanes p := by
  rw [LoadAtLeast4LanePacketVec_eq]
  rfl

theorem N_AVX2_loop_eq (n : Nat) (r : Regs Vec4) (p : List Nat) (h : r.v0.lt64) :
    N_AVX2.UpdateHwyHashState.loop N_AVX2.Lanes n r p = UpdateHwyHashState.loop Lanes n r p := by
  induction n generalizing r p with
  | zero => rfl
  | succ n ih =>
    rw [N_AVX2.UpdateHwyHashState.loop, UpdateHwyHashState.loop,
      N_AVX2_LoadAtLeast4LanePacketVec_eq, N_AVX2_DoHwyHashUpdate_eq _ _ h,
      ih _ _ (DoHwyHashUpdate_v0_lt64 _ _)]

theorem loop_v0_lt64 (n : Nat) (r : Regs Vec4) (p : List Nat) (h : r.v0.lt64) :
    (UpdateHwyHashState.loop Lanes n r p).1.v0.lt64 := by
  induction n generalizing r p with
  | zero => exact h
  | succ n ih =>
    rw [UpdateHwyHashState.loop]
    exact ih _ _ (DoHwyHashUpdate_v0_lt64 _ _)

theorem hwy_Rol32_eq (a r : Nat) (ha : a < 2 ^ 32) (h1 : 1 ≤ r) (h31 : r ≤ 31) :
    hwy.Rol32 a r = spec.rotl32 a r := by
  have e1 : r % 32 = r := by omega
  have e2 : (32 - r) % 32 = 32 - r := by omega
  have hlt : ((a <<< r) % 2 ^ 32) ||| (a >>> (32 - r)) < 2 ^ 32 := by
    apply Nat.or_lt_two_pow (Nat.mod_lt _ (by norm_num))
    rw [Nat.shiftRight_eq_div_pow]
    exact Nat.lt_of_le_of_lt (Nat.div_le_self _ _) ha
  rw [hwy.Rol32, e1, e2, ← rol_u32 a r ha h1 h31, Nat.mod_eq_of_lt hlt]

theorem hwy_len_lanes (r : Nat) (h31 : r ≤ 31) :
    hwy.BitCastU64ToU32 (hwy.BitCastU32ToU64 (hwy.SetU32 r)) = [r, r, r, r, r, r, r, r] ∧
    hwy.BitCastU32ToU64 (hwy.SetU32 r) =
      ⟨(r <<< 32) ||| r, (r <<< 32) ||| r, (r <<< 32) ||| r, (r <<< 32) ||| r⟩ := by
  have : ∀ m, m < 32 →
      hwy.BitCastU64ToU32 (hwy.BitCastU32ToU64 (hwy.SetU32 m)) = [m, m, m, m, m, m, m, m] ∧
      hwy.BitCastU32ToU64 (hwy.SetU32 m) =
        ⟨(m <<< 32) ||| m, (m <<< 32) ||| m, (m <<< 32) ||| m, (m <<< 32) ||| m⟩ := by
    decide
  exact this r (by omega)

theorem hwy_rotate_lane (x r : Nat) (h1 : 1 ≤ r) (h31 : r ≤ 31) :
    hwy.Rol32 (x % 2 ^ 32) r + hwy.Rol32 ((x >>> 32) % 2 ^ 32) r * 2 ^ 32 =
      spec.rotate_u32_halves x r := by
  have m : ∀ z : Nat, z % 2 ^ 32 < 2 ^ 32 := fun z => Nat.mod_lt _ (by norm_num)
  rw [hwy_Rol32_eq _ r (m _) h1 h31, hwy_Rol32_eq _ r (m _) h1 h31, spec.rotate_u32_halves,
    Nat.shiftRight_eq_div_pow, Nat.add_comm]

/-- The length mix of the 256-bit kernel is that of the scalar kernel. -/
theorem N_AVX2_mixLength_eq (q : Regs Vec4) (r : Nat) (h1 : 1 ≤ r) (h31 : r ≤ 31) :
    N_AVX2.UpdateHwyHashState.mixLength q r = UpdateHwyHashState.mixLength q r := by
  have e : N_AVX2.UpdateHwyHashState.mixLength q r =
      { q with
        v0 := hwy.Add q.v0 (hwy.BitCastU32ToU64 (hwy.SetU32 r))
        v1 := hwy.BitCastU32ToU64
          (hwy.Rol (hwy.BitCastU64ToU32 q.v1)
            (hwy.BitCastU64ToU32 (hwy.BitCastU32ToU64 (hwy.SetU32 r)))) } := rfl
  rw [e, (hwy_len_lanes r h31).1, (hwy_len_lanes r h31).2, mixLength_eq q r h1 h31,
    ← hwy_rotate_lane _ r h1 h31, ← hwy_rotate_lane _ r h1 h31, ← hwy_rotate_lane _ r h1 h31,
    ← hwy_rotate_lane _ r h1 h31]
  rfl

theorem mixLength_v0_lt64 (q : Regs Vec4) (r : Nat) :
    (UpdateHwyHashState.mixLength q r).v0.lt64 :=
  ⟨Nat.mod_lt _ (by norm_num), Nat.mod_lt _ (by norm_num), Nat.mod_lt _ (by norm_num),
    Nat.mod_lt _ (by norm_num)⟩

theorem hwy_PermuteV0_eq (v : Vec4) (h : v.lt64) : N_AVX2.PermuteV0 v = PermuteV0 v := by
  rw [N_AVX2.PermuteV0, hwy_Reverse2_eq v h]
  rfl

theorem N_AVX2_PermuteAndUpdate_eq (r : Regs Vec4) (h : r.v0.lt64) :
    N_AVX2.PermuteAndUpdate r = PermuteAndUpdate r := by
  rw [N_AVX2.PermuteAndUpdate, PermuteAndUpdate, hwy_PermuteV0_eq _ h,
    N_AVX2_DoHwyHashUpdate_eq _ _ h]

theorem PermuteAndUpdate_v0_lt64 (r : Regs Vec4) : (PermuteAndUpdate r).v0.lt64 :=
  DoHwyHashUpdate_v0_lt64 _ _

theorem N_AVX2_PermuteAndUpdate_iterate_eq (n : Nat) (r : Regs Vec4) (h : r.v0.lt64) :
    N_AVX2.PermuteAndUpdate^[n] r = PermuteAndUpdate^[n] r := by
  induction n generalizing r with
  | zero => rfl
  | succ n ih =>
    rw [Function.iterate_succ_apply, Function.iterate_succ_apply,
      N_AVX2_PermuteAndUpdate_eq r h, ih _ (PermuteAndUpdate_v0_lt64 r)]

theorem LoadRegs_v0_lt64 (s : SimdHwyHashState) (h : s.v0.lt64) : (LoadRegs Lanes s).v0.lt64 :=
  h

theorem N_AVX2_Finalize64_eq (s : SimdHwyHashState) (h : s.v0.lt64) :
    N_AVX2.Finalize64 s = Finalize64 s := by
  have e : N_AVX2.Finalize64 s =
      (((N_AVX2.PermuteAndUpdate^[4] (LoadRegs Lanes s)).v0.get0 +
          (N_AVX2.PermuteAndUpdate^[4] (LoadRegs Lanes s)).v1.get0) % 2 ^ 64 +
        ((N_AVX2.PermuteAndUpdate^[4] (LoadRegs Lanes s)).mul0.get0 +
          (N_AVX2.PermuteAndUpdate^[4] (LoadRegs Lanes s)).mul1.get0) % 2 ^ 64) % 2 ^ 64 := rfl
  rw [e, N_AVX2_PermuteAndUpdate_iterate_eq 4 _ (LoadRegs_v0_lt64 s h)]
  rfl

theorem N_AVX2_Finalize128_eq (s : SimdHwyHashState) (h : s.v0.lt64) :
    N_AVX2.Finalize128 s = Finalize128 s := by
  have e : N_AVX2.Finalize128 s =
      N_AVX2.Exactly2LaneU64VecAdd
        (N_AVX2.Exactly2LaneU64VecAdd
          (N_AVX2.GetLowerExactly2LaneU64Vec (N_AVX2.PermuteAndUpdate^[6] (LoadRegs Lanes s)).v0)
          (N_AVX2.GetLowerExactly2LaneU64Vec
            (N_AVX2.PermuteAndUpdate^[6] (LoadRegs Lanes s)).mul0))
        (N_AVX2.Exactly2LaneU64VecAdd
          (N_AVX2.GetUpperExactly2LaneU64Vec (N_AVX2.PermuteAndUpdate^[6] (LoadRegs Lanes s)).v1)
          (N_AVX2.GetUpperExactly2LaneU64Vec
            (N_AVX2.PermuteAndUpdate^[6] (LoadRegs Lanes s)).mul1)) := rfl
  rw [e, N_AVX2_PermuteAndUpdate_iterate_eq 6 _ (LoadRegs_v0_lt64 s h)]
  rfl

theorem N_AVX2_ModularReduction_eq (a01 a23 : Vec4) :
    N_AVX2.ModularReduction a01 a23 = ModularReduction a01 a23 := by
  rfl

theorem N_AVX2_Finalize256_eq (s : SimdHwyHashState) (h : s.v0.lt64) :
    N_AVX2.Finalize256 s = Finalize256 s := by
  have e : N_AVX2.Finalize256 s =
      N_AVX2.ModularReduction
        (N_AVX2.AtLeast4LaneU64VecAdd (N_AVX2.PermuteAndUpdate^[10] (LoadRegs Lanes s)).v0
          (N_AVX2.PermuteAndUpdate^[10] (LoadRegs Lanes s)).mul0)
        (N_AVX2.AtLeast4LaneU64VecAdd (N_AVX2.PermuteAndUpdate^[10] (LoadRegs Lanes s)).v1
          (N_AVX2.PermuteAndUpdate^[10] (LoadRegs Lanes s)).mul1) := rfl
  rw [e, N_AVX2_PermuteAndUpdate_iterate_eq 10 _ (LoadRegs_v0_lt64 s h)]
  rfl

theorem BitCastU32ToU64_eq_load (w P : List Nat)
    (h : ∀ k, k < 8 → w.getD k 0 =
      P.getD (4 * k) 0 + P.getD (4 * k + 1) 0 * 2 ^ 8 + P.getD (4 * k + 2) 0 * 2 ^ 16 +
        P.getD (4 * k + 3) 0 * 2 ^ 24) :
    hwy.BitCastU32ToU64 w = LoadAtLeast4LanePacketVec Lanes P := by
  have h0 := h 0 (by norm_num)
  have h1 := h 1 (by norm_num)
  have h2 := h 2 (by norm_num)
  have h3 := h 3 (by norm_num)
  have h4 := h 4 (by norm_num)
  have h5 := h 5 (by norm_num)
  have h6 := h 6 (by norm_num)
  have h7 := h 7 (by norm_num)
  simp only [Nat.reduceMul, Nat.reduceAdd] at h0 h1 h2 h3 h4 h5 h6 h7
  rw [LoadAtLeast4LanePacketVec_eq, hwy.BitCastU32ToU64, h0, h1, h2, h3, h4, h5, h6, h7]
  congr 1 <;> ring

theorem BitCastU8ToU32_getD (f : Nat → Nat) (k : Nat) (hk : k < 8) :
    (hwy.BitCastU8ToU32 ((List.range 32).map f)).getD k 0 =
      f (4 * k) + f (4 * k + 1) * 2 ^ 8 + f (4 * k + 2) * 2 ^ 16 + f (4 * k + 3) * 2 ^ 24 := by
  interval_cases k <;> rfl

theorem BitCastU8ToU32_length (v : List Nat) : (hwy.BitCastU8ToU32 v).length = 8 := by
  simp [hwy.BitCastU8ToU32]

theorem or3_bytes (a b c : Nat) (ha : a < 256) (hb : b < 256) (hc : c < 256) :
    a ||| ((b <<< 8) % 2 ^ 32) ||| ((c <<< 16) % 2 ^ 32) = a + b * 2 ^ 8 + c * 2 ^ 16 := by
  have e1 : (b <<< 8) % 2 ^ 32 = b * 2 ^ 8 := by
    rw [Nat.shiftLeft_eq]; omega
  have e2 : (c <<< 16) % 2 ^ 32 = c * 2 ^ 16 := by
    rw [Nat.shiftLeft_eq]; omega
  have s1 : a ||| b * 2 ^ 8 = a + b * 2 ^ 8 := by
    rw [Nat.lor_comm, Nat.mul_comm, ← Nat.mul_add_lt_is_or ha, Nat.add_comm]
  have hab : a + b * 2 ^ 8 < 2 ^ 16 := by omega
  rw [e1, e2, s1, Nat.lor_comm, Nat.mul_comm c, ← Nat.mul_add_lt_is_or hab, Nat.add_comm]

/-- The remainder packet of the 256-bit kernel is that of the scalar kernel. -/
theorem N_AVX2_LoadRemainderPacket_eq (ptr : List Nat) (r : Nat) (h1 : 1 ≤ r) (h31 : r ≤ 31)
    (hb : ∀ b ∈ ptr, b < 256) :
    N_AVX2.LoadRemainderPacket N_AVX2.Lanes ptr r = LoadRemainderPacket Lanes ptr r := by
  have B := getD_lt_256 ptr hb
  rw [LoadRemainderPacket]
  by_cases h16 : 16 ≤ r
  · have hge : r ≥ 16 := h16
    have e : N_AVX2.LoadRemainderPacket N_AVX2.Lanes ptr r =
        hwy.BitCastU32ToU64
          (hwy.InsertLane
            (hwy.BitCastU8ToU32
              ((List.range 32).map fun i => if i < r &&& 0xfffffffc then ptr.getD i 0 else 0))
            7 (N_AVX2.LoadU32 (ptr.drop (r - 4)))) := by
      simp only [N_AVX2.LoadRemainderPacket, hge, if_true, N_AVX2.CombineToAtLeast4LaneVec,
        hwy.LoadN_U8]
    rw [e]
    apply BitCastU32ToU64_eq_load
    intro k hk
    rw [hwy.InsertLane, getD_set, BitCastU8ToU32_length, BitCastU8ToU32_getD _ k hk,
      and_not_3 r h31]
    by_cases h7 : k = 7
    · subst h7
      have c : 7 = 7 ∧ 7 < 8 := ⟨rfl, by norm_num⟩
      rw [if_pos c, packet_bytes_getD_ge16 ptr r _ h16 h31,
        packet_bytes_getD_ge16 ptr r _ h16 h31, packet_bytes_getD_ge16 ptr r _ h16 h31,
        packet_bytes_getD_ge16 ptr r _ h16 h31]
      simp only [N_AVX2.LoadU32, getD_drop]
      norm_num
    · have c : ¬ (7 = k ∧ k < 8) := by omega
      have n0 : ¬ (28 ≤ 4 * k ∧ 4 * k < 32) := by omega
      have n1 : ¬ (28 ≤ 4 * k + 1 ∧ 4 * k + 1 < 32) := by omega
      have n2 : ¬ (28 ≤ 4 * k + 2 ∧ 4 * k + 2 < 32) := by omega
      have n3 : ¬ (28 ≤ 4 * k + 3 ∧ 4 * k + 3 < 32) := by omega
      rw [if_neg c, packet_bytes_getD_ge16 ptr r _ h16 h31,
        packet_bytes_getD_ge16 ptr r _ h16 h31, packet_bytes_getD_ge16 ptr r _ h16 h31,
        packet_bytes_getD_ge16 ptr r _ h16 h31, if_neg n0, if_neg n1, if_neg n2, if_neg n3]
  · have hlt : ¬ r ≥ 16 := h16
    have h15 : r ≤ 15 := by omega
    by_cases ht : r % 4 = 0
    · have e : N_AVX2.LoadRemainderPacket N_AVX2.Lanes ptr r =
          hwy.BitCastU32ToU64
            (hwy.BitCastU8ToU32
              ((List.range 32).map fun i =>
                if i < r &&& 0xfffffffc then ptr.getD i 0 else 0)) := by
        simp only [N_AVX2.LoadRemainderPacket, hlt, if_false, and_3, ht, ne_eq,
          not_true_eq_false, N_AVX2.CombineToAtLeast4LaneVec, hwy.LoadN_U8]
      rw [e]
      apply BitCastU32ToU64_eq_load
      intro k hk
      have a16 : ∀ i, ¬ (r % 4 ≠ 0 ∧ i = 16) := fun i h => h.1 ht
      have a17 : ∀ i, ¬ (r % 4 ≠ 0 ∧ i = 17) := fun i h => h.1 ht
      have a18 : ∀ i, ¬ (r % 4 ≠ 0 ∧ i = 18) := fun i h => h.1 ht
      rw [BitCastU8ToU32_getD _ k hk, and_not_3 r h31, packet_bytes_getD_lt16 ptr r _ h15,
        packet_bytes_getD_lt16 ptr r _ h15, packet_bytes_getD_lt16 ptr r _ h15,
        packet_bytes_getD_lt16 ptr r _ h15]
      simp only [a16, a17, a18, if_false]
    · have tne : r &&& 3 ≠ 0 := by rw [and_3]; exact ht
      have e : N_AVX2.LoadRemainderPacket N_AVX2.Lanes ptr r =
          hwy.BitCastU32ToU64
            (hwy.InsertLane
              (hwy.BitCastU8ToU32
                ((List.range 32).map fun i =>
                  if i < r &&& 0xfffffffc then ptr.getD i 0 else 0))
              4 (ptr.getD (r &&& 0xfffffffc) 0 |||
                  ((ptr.getD ((r &&& 0xfffffffc) + ((r &&& 3) >>> 1)) 0 <<< 8) % 2 ^ 32) |||
                  ((ptr.getD ((r &&& 0xfffffffc) + (r &&& 3) - 1) 0 <<< 16) % 2 ^ 32))) := by
        simp only [N_AVX2.LoadRemainderPacket, hlt, if_false, tne, ne_eq, not_false_eq_true,
          if_true, N_AVX2.CombineToAtLeast4LaneVec, hwy.LoadN_U8]
      rw [e, or3_bytes _ _ _ (B _) (B _) (B _)]
      apply BitCastU32ToU64_eq_load
      intro k hk
      rw [hwy.InsertLane, getD_set, BitCastU8ToU32_length, BitCastU8ToU32_getD _ k hk,
        and_not_3 r h31, and_3, Nat.shiftRight_eq_div_pow, pow_one,
        packet_bytes_getD_lt16 ptr r _ h15, packet_bytes_getD_lt16 ptr r _ h15,
        packet_bytes_getD_lt16 ptr r _ h15, packet_bytes_getD_lt16 ptr r _ h15]
      have hu : 4 * (r / 4) ≤ 12 := by omega
      by_cases h4 : k = 4
      · subst h4
        have c : 4 = 4 ∧ 4 < 8 := ⟨rfl, by norm_num⟩
        have n16 : ¬ (4 * 4 < 4 * (r / 4)) := by omega
        have n17 : ¬ (4 * 4 + 1 < 4 * (r / 4)) := by omega
        have n18 : ¬ (4 * 4 + 2 < 4 * (r / 4)) := by omega
        have n19 : ¬ (4 * 4 + 3 < 4 * (r / 4)) := by omega
        rw [if_pos c, if_neg n16, if_neg n17, if_neg n18, if_neg n19]
        simp [ht]
      · have c : ¬ (4 = k ∧ k < 8) := by omega
        have m0 : ¬ (r % 4 ≠ 0 ∧ 4 * k = 16) := by omega
        have m1 : ¬ (r % 4 ≠ 0 ∧ 4 * k + 1 = 16) := by omega
        have m2 : ¬ (r % 4 ≠ 0 ∧ 4 * k + 2 = 16) := by omega
        have m3 : ¬ (r % 4 ≠ 0 ∧ 4 * k + 3 = 16) := by omega
        have p0 : ¬ (r % 4 ≠ 0 ∧ 4 * k = 17) := by omega
        have p1 : ¬ (r % 4 ≠ 0 ∧ 4 * k + 1 = 17) := by omega
        have p2 : ¬ (r % 4 ≠ 0 ∧ 4 * k + 2 = 17) := by omega
        have p3 : ¬ (r % 4 ≠ 0 ∧ 4 * k + 3 = 17) := by omega
        have q0 : ¬ (r % 4 ≠ 0 ∧ 4 * k = 18) := by omega
        have q1 : ¬ (r % 4 ≠ 0 ∧ 4 * k + 1 = 18) := by omega
        have q2 : ¬ (r % 4 ≠ 0 ∧ 4 * k + 2 = 18) := by omega
        have q3 : ¬ (r % 4 ≠ 0 ∧ 4 * k + 3 = 18) := by omega
        rw [if_neg c]
        simp only [m0, m1, m2, m3, p0, p1, p2, p3, q0, q1, q2, q3, if_false]

theorem loop_ptr_mem (n : Nat) (r : Regs Vec4) (p : List Nat) (b : Nat)
    (h : b ∈ (UpdateHwyHashState.loop Lanes n r p).2) : b ∈ p := by
  induction n generalizing r p with
  | zero => exact h
  | succ n ih =>
    rw [UpdateHwyHashState.loop] at h
    exact List.mem_of_mem_drop (ih _ _ h)

theorem N_AVX2_locals_eq (r : Regs Vec4) (ptr : List Nat) (byte_len : Nat) (h : r.v0.lt64)
    (hb : ∀ b ∈ ptr, b < 256) :
    N_AVX2.UpdateHwyHashState.locals N_AVX2.Lanes r ptr byte_len =
      UpdateHwyHashState.locals Lanes r ptr byte_len := by
  simp only [N_AVX2.UpdateHwyHashState.locals, UpdateHwyHashState.locals,
    N_AVX2_loop_eq _ _ _ h]
  by_cases hr : byte_len &&& 31 = 0
  · simp only [hr, ne_eq, not_true_eq_false, if_false]
  · have h1 : 1 ≤ byte_len &&& 31 := by omega
    have h31 : byte_len &&& 31 ≤ 31 := by rw [and_31]; omega
    have hb2 : ∀ b ∈ (UpdateHwyHashState.loop Lanes ((byte_len &&& (2 ^ 64 - 32)) / 32) r ptr).2,
        b < 256 := fun b hm => hb b (loop_ptr_mem _ _ _ b hm)
    simp only [ne_eq, hr, not_false_eq_true, if_true, N_AVX2_mixLength_eq _ _ h1 h31,
      N_AVX2_LoadRemainderPacket_eq _ _ h1 h31 hb2,
      N_AVX2_DoHwyHashUpdate_eq _ _ (mixLength_v0_lt64 _ _)]

theorem locals_v0_lt64 (r : Regs Vec4) (ptr : List Nat) (byte_len : Nat) (h : r.v0.lt64) :
    (UpdateHwyHashState.locals Lanes r ptr byte_len).v0.lt64 := by
  simp only [UpdateHwyHashState.locals]
  split
  · exact DoHwyHashUpdate_v0_lt64 _ _
  · exact loop_v0_lt64 _ _ _ h

/-- The function `UpdateHwyHashState` of the 256-bit kernel is that of the
scalar kernel, on a state whose `v0` holds 64-bit words and on bytes. -/
theorem N_AVX2_UpdateHwyHashState_eq (s : SimdHwyHashState) (ptr : List Nat) (byte_len : Nat)
    (h : s.v0.lt64) (hb : ∀ b ∈ ptr, b < 256) :
    N_AVX2.UpdateHwyHashState s ptr byte_len = UpdateHwyHashState s ptr byte_len := by
  have e : N_AVX2.UpdateHwyHashState s ptr byte_len =
      StoreRegs Lanes
        (N_AVX2.UpdateHwyHashState.locals N_AVX2.Lanes (LoadRegs Lanes s) ptr byte_len) s := rfl
  rw [e, N_AVX2_locals_eq _ _ _ (LoadRegs_v0_lt64 s h) hb]
  rfl

theorem UpdateHwyHashState_v0_lt64 (s : SimdHwyHashState) (ptr : List Nat) (byte_len : Nat)
    (h : s.v0.lt64) : (UpdateHwyHashState s ptr byte_len).v0.lt64 :=
  locals_v0_lt64 (LoadRegs Lanes s) ptr byte_len (LoadRegs_v0_lt64 s h)

theorem ResetHwyHashState_v0_lt64 (s : SimdHwyHashState) (key : U64x4) (hk : key.lt64) :
    (ResetHwyHashState s key).v0.lt64 := by
  rw [ResetHwyHashState_eq]
  exact ⟨Nat.xor_lt_two_pow hk.1 (by decide), Nat.xor_lt_two_pow hk.2.1 (by decide),
    Nat.xor_lt_two_pow hk.2.2.1 (by decide), Nat.xor_lt_two_pow hk.2.2.2 (by decide)⟩

/-- Claim C19: for every key of four 64-bit words and every input of bytes,
the scalar kernel and the 256-bit vector kernel (`MulEven` of `u32` lanes,
`Rol` on `u32` lanes, `TableLookupBytes` zipper merge, `Per4LaneBlockShuffle`
permutation, `ShiftLeftLanes` in the modular reduction, `LoadN` and
`InsertLane` for the remainder packet) leave the same state after `Reset` and
after `Update` and return the same 64-, 128- and 256-bit digests. -/
theorem kernels_agree (s0 : SimdHwyHashState) (key : U64x4) (ptr : List Nat) (byte_len : Nat)
    (hk : key.lt64) (hb : ∀ b ∈ ptr, b < 256) :
    N_AVX2.ResetHwyHashState s0 key = ResetHwyHashState s0 key ∧
    N_AVX2.UpdateHwyHashState (N_AVX2.ResetHwyHashState s0 key) ptr byte_len =
      UpdateHwyHashState (ResetHwyHashState s0 key) ptr byte_len ∧
    N_AVX2.Finalize64
        (N_AVX2.UpdateHwyHashState (N_AVX2.ResetHwyHashState s0 key) ptr byte_len) =
      Finalize64 (UpdateHwyHashState (ResetHwyHashState s0 key) ptr byte_len) ∧
    N_AVX2.Finalize128
        (N_AVX2.UpdateHwyHashState (N_AVX2.ResetHwyHashState s0 key) ptr byte_len) =
      Finalize128 (UpdateHwyHashState (ResetHwyHashState s0 key) ptr byte_len) ∧
    N_AVX2.Finalize256
        (N_AVX2.UpdateHwyHashState (N_AVX2.ResetHwyHashState s0 key) ptr byte_len) =
      Finalize256 (UpdateHwyHashState (ResetHwyHashState s0 key) ptr byte_len) := by
  have e1 := N_AVX2_Reset_eq s0 key hk
  have w1 := ResetHwyHashState_v0_lt64 s0 key hk
  have e2 := N_AVX2_UpdateHwyHashState_eq (ResetHwyHashState s0 key) ptr byte_len w1 hb
  have w2 := UpdateHwyHashState_v0_lt64 (ResetHwyHashState s0 key) ptr byte_len w1
  rw [e1, e2]
  exact ⟨rfl, rfl, N_AVX2_Finalize64_eq _ w2, N_AVX2_Finalize128_eq _ w2,
    N_AVX2_Finalize256_eq _ w2⟩

set_option maxRecDepth 100000 in
/-- Claim C19 on the first 33 bytes of `kData` under `KEY_B`: both kernels
return the digest `kExpected64[33]`. -/
theorem kernels_agree_witness :
    (kKey.lt64 ∧ ∀ b ∈ kData, b < 256) ∧
    N_AVX2.Finalize64 (N_AVX2.UpdateHwyHashState (N_AVX2.ResetHwyHashState uninitialized kKey)
        kData 33) =
      Finalize64 (UpdateHwyHashState (ResetHwyHashState uninitialized kKey) kData 33) :=
  ⟨⟨⟨by decide, by decide, by decide, by decide⟩, by decide⟩,
    (kernels_agree uninitialized kKey kData 33 ⟨by decide, by decide, by decide, by decide⟩
      (by decide)).2.2.1⟩

/-! ## Streams of aligned chunks -/

theorem stream_updates_aligned (s : SimdHwyHashState) (chunks : List (List Nat))
    (last : List Nat) (h : ∀ c ∈ chunks, c.length % 32 = 0)
    (hlen : (chunks.flatten ++ last).length < 2 ^ 64) :
    spec.stream_updates s (chunks ++ [last]) =
      UpdateHwyHashState s (chunks.flatten ++ last) (chunks.flatten ++ last).length := by
  induction chunks generalizing s with
  | nil => rfl
  | cons c cs ih =>
    have hc : c.length % 32 = 0 := h c (List.mem_cons_self _ _)
    have hcs : ∀ d ∈ cs, d.length % 32 = 0 := fun d hd => h d (List.mem_cons_of_mem _ hd)
    have e : (c :: cs).flatten ++ last = c ++ (cs.flatten ++ last) := by
      simp [List.append_assoc]
    rw [e] at hlen ⊢
    have hl2 : c.length + (cs.flatten ++ last).length < 2 ^ 64 := by
      rw [List.length_append] at hlen; exact hlen
    have hl3 : (cs.flatten ++ last).length < 2 ^ 64 := by omega
    rw [← UpdateHwyHashState_append s c _ hc hl2, ← ih _ hcs hl3]
    rfl

/-- Claim C21: for every state `s` and byte strings `A` and `B` where the
length of `A` is a multiple of 32, `Update(A)` followed by `Update(B)` leaves
the state of one `Update(A ++ B)`; and for chunks whose lengths, except that
of the last one, are multiples of 32, the stream of updates leaves the state
of one update with the concatenation, so that `Finalize64`, `Finalize128` and
`Finalize256` of the stream started by `Reset` are `Hash64`, `Hash128` and
`Hash256` of the concatenation.  All lengths fit `size_t`. -/
theorem aligned_chunks_stream (s s0 : SimdHwyHashState) (key : U64x4) (A B : List Nat)
    (chunks : List (List Nat)) (last : List Nat)
    (hA : A.length % 32 = 0) (hAB : A.length + B.length < 2 ^ 64)
    (hchunks : ∀ c ∈ chunks, c.length % 32 = 0)
    (hlen : (chunks.flatten ++ last).length < 2 ^ 64) :
    SimdHwyHash_Update (SimdHwyHash_Update s A A.length) B B.length =
        SimdHwyHash_Update s (A ++ B) (A ++ B).length ∧
    spec.stream_updates s (chunks ++ [last]) =
        SimdHwyHash_Update s (chunks.flatten ++ last) (chunks.flatten ++ last).length ∧
    SimdHwyHash_Finalize64 (spec.stream_updates (SimdHwyHash_Reset s0 key) (chunks ++ [last])) =
        SimdHwyHash_Hash64 (chunks.flatten ++ last) (chunks.flatten ++ last).length key ∧
    SimdHwyHash_Finalize128 (spec.stream_updates (SimdHwyHash_Reset s0 key) (chunks ++ [last])) =
        SimdHwyHash_Hash128 (chunks.flatten ++ last) (chunks.flatten ++ last).length key ∧
    SimdHwyHash_Finalize256 (spec.stream_updates (SimdHwyHash_Reset s0 key) (chunks ++ [last])) =
        SimdHwyHash_Hash256 (chunks.flatten ++ last) (chunks.flatten ++ last).length key := by
  have h : SimdHwyHash_Reset uninitialized key = SimdHwyHash_Reset s0 key := by
    rw [SimdHwyHash_Reset, SimdHwyHash_Reset, ResetHwyHashState_eq, ResetHwyHashState_eq]
  have e := stream_updates_aligned (SimdHwyHash_Reset s0 key) chunks last hchunks hlen
  refine ⟨UpdateHwyHashState_append s A B hA hAB,
    stream_updates_aligned s chunks last hchunks hlen, ?_, ?_, ?_⟩
  · simp only [SimdHwyHash_Hash64, SimdHwyHash_Update, h, e]
  · simp only [SimdHwyHash_Hash128, SimdHwyHash_Update, h, e]
  · simp only [SimdHwyHash_Hash256, SimdHwyHash_Update, h, e]

/-- Claim C21 on `kData` (65 bytes) streamed as the chunks of 32, 0, 32 and 1
bytes, from the state left by `Reset` with `kKey`. -/
theorem aligned_chunks_stream_witness :
    SimdHwyHash_Finalize64
        (spec.stream_updates (SimdHwyHash_Reset uninitialized kKey)
          ([kData.take 32, [], (kData.drop 32).take 32] ++ [kData.drop 64])) =
      SimdHwyHash_Hash64 kData 65 kKey :=
  (aligned_chunks_stream uninitialized uninitialized kKey (kData.take 32) (kData.drop 32)
    [kData.take 32, [], (kData.drop 32).take 32] (kData.drop 64)
    (by decide) (by decide) (by decide) (by decide)).2.2.1

/-! ## The sequence of rounds of `Update` -/

theorem getD_take (l : List Nat) (k i : Nat) :
    (l.take k).getD i 0 = if i < k then l.getD i 0 else 0 := by
  simp only [List.getD_eq_getElem?_getD, List.getElem?_take]
  split <;> rfl

/-- The remainder packet of `r ≤ 31` bytes is made from the first `r` bytes at
`ptr`. -/
theorem packet_bytes_take (ptr : List Nat) (r : Nat) (h31 : r ≤ 31) :
    LoadRemainderPacket.packet_bytes (ptr.take r) r = LoadRemainderPacket.packet_bytes ptr r := by
  apply ext_getD _ _ (by rw [packet_bytes_length, packet_bytes_length])
  intro i _
  by_cases h16 : 16 ≤ r
  · rw [packet_bytes_getD_ge16 _ r i h16 h31, packet_bytes_getD_ge16 _ r i h16 h31]
    simp only [getD_take]
    split
    · rw [if_pos (by omega)]
    · split
      · rw [if_pos (by omega)]
      · rfl
  · have h15 : r ≤ 15 := by omega
    rw [packet_bytes_getD_lt16 _ r i h15, packet_bytes_getD_lt16 _ r i h15]
    simp only [getD_take]
    split
    · rw [if_pos (by omega)]
    · split
      · rw [if_pos (by omega)]
      · split
        · rw [if_pos (by omega)]
        · split
          · rw [if_pos (by omega)]
          · rfl

/-- The loop of `UpdateHwyHashState` over `k` packets is the sequence of the
rounds on the packets at the offsets `0, 32, ..., 32 * (k - 1)`, and it leaves
`ptr` advanced by `32 * k`. -/
theorem loop_eq_full_rounds (k : Nat) (r : Regs Vec4) (data : List Nat) :
    UpdateHwyHashState.loop Lanes k r data = (spec.full_rounds r data k, data.drop (32 * k)) := by
  induction k with
  | zero => rfl
  | succ k ih =>
    rw [loop_add k 1, ih]
    simp only [UpdateHwyHashState.loop, spec.full_rounds, List.range_succ, List.foldl_append,
      List.foldl_cons, List.foldl_nil, List.drop_drop]
    rw [show 32 * k + 32 = 32 * (k + 1) by omega]

theorem locals_eq_update_rounds (r : Regs Vec4) (data : List Nat) (n : Nat) (hn : n < 2 ^ 64) :
    UpdateHwyHashState.locals Lanes r data n = spec.update_rounds r data n := by
  have h31 : n % 32 ≤ 31 := by omega
  simp only [UpdateHwyHashState.locals, full32_count _ hn, and_31, loop_eq_full_rounds,
    spec.update_rounds, spec.remainder_round, spec.tail_bytes, LoadRemainderPacket,
    packet_bytes_take _ _ h31]

/-- The loop with its test kept stops after `k` iterations when
`full32_end_ptr` is `32 * k` bytes after `ptr`. -/
theorem loop_until_eq (data : List Nat) (k fuel : Nat) (hf : k ≤ fuel) (r : Regs Vec4)
    (ptr : Nat) :
    UpdateHwyHashState.loop_until Lanes data (ptr + 32 * k) fuel r ptr =
      some ((List.range k).foldl
        (fun q i =>
          DoHwyHashUpdate q (LoadAtLeast4LanePacketVec Lanes (data.drop (ptr + 32 * i)))) r,
        ptr + 32 * k) := by
  induction k generalizing fuel r ptr with
  | zero =>
    cases fuel with
    | zero => simp [UpdateHwyHashState.loop_until]
    | succ f => simp [UpdateHwyHashState.loop_until]
  | succ k ih =>
    cases fuel with
    | zero => omega
    | succ f =>
      have hne : ptr ≠ ptr + 32 * (k + 1) := by omega
      have e : ptr + 32 * (k + 1) = ptr + 32 + 32 * k := by omega
      rw [UpdateHwyHashState.loop_until, if_pos hne, e, ih f (by omega)]
      simp only [List.range_succ_eq_map, List.foldl_cons, List.foldl_map, Nat.mul_zero,
        Nat.add_zero]
      have e2 : ∀ i : Nat, ptr + 32 + 32 * i = ptr + 32 * i.succ := fun i => by omega
      simp only [e2]

theorem loop_until_full_rounds (data : List Nat) (n fuel : Nat) (hn : n < 2 ^ 64)
    (hf : n / 32 ≤ fuel) (r : Regs Vec4) :
    UpdateHwyHashState.loop_until Lanes data (n &&& (2 ^ 64 - 32)) fuel r 0 =
      some (spec.full_rounds r data (n / 32), 32 * (n / 32)) := by
  have e := loop_until_eq data (n / 32) fuel hf r 0
  simp only [Nat.zero_add] at e
  rw [and_neg_32 n hn, e, spec.full_rounds]

/-- Claim C22: for every state and every input of `n` bytes (`n` a `size_t`),
`Update` — a total function — stores the registers left by exactly `n / 32`
full-packet rounds over the packets at the byte offsets `0, 32, 64, ...` in
increasing order, followed by exactly one remainder round, over the bytes at
the offsets `32 * (n / 32) .. n - 1`, if and only if `n % 32 ≠ 0`; the loop
`for (; ptr != full32_end_ptr; ptr += 32)` with its test kept stops, given at
least `n / 32` iterations, with the registers of the full-packet rounds and
`ptr` at the offset `32 * (n / 32)`. -/
theorem update_round_sequence (state : SimdHwyHashState) (data : List Nat) (n : Nat)
    (hn : n < 2 ^ 64) :
    UpdateHwyHashState state data n =
        StoreRegs Lanes (spec.update_rounds (LoadRegs Lanes state) data n) state ∧
    (List.range (n / 32)).length = n / 32 ∧
    (n % 32 = 0 →
      spec.update_rounds (LoadRegs Lanes state) data n =
        (List.range (n / 32)).foldl
          (fun q i =>
            DoHwyHashUpdate q (LoadAtLeast4LanePacketVec Lanes (data.drop (32 * i))))
          (LoadRegs Lanes state)) ∧
    (n % 32 ≠ 0 →
      spec.update_rounds (LoadRegs Lanes state) data n =
        DoHwyHashUpdate
          (UpdateHwyHashState.mixLength
            ((List.range (n / 32)).foldl
              (fun q i =>
                DoHwyHashUpdate q (LoadAtLeast4LanePacketVec Lanes (data.drop (32 * i))))
              (LoadRegs Lanes state))
            (n % 32))
          (LoadRemainderPacket Lanes ((data.drop (32 * (n / 32))).take (n % 32)) (n % 32))) ∧
    (∀ fuel, n / 32 ≤ fuel →
      UpdateHwyHashState.loop_until Lanes data (n &&& (2 ^ 64 - 32)) fuel (LoadRegs Lanes state)
          0 =
        some ((List.range (n / 32)).foldl
          (fun q i =>
            DoHwyHashUpdate q (LoadAtLeast4LanePacketVec Lanes (data.drop (32 * i))))
          (LoadRegs Lanes state), 32 * (n / 32))) := by
  refine ⟨?_, List.length_range _, ?_, ?_,
    fun fuel hf => loop_until_full_rounds data n fuel hn hf _⟩
  · rw [UpdateHwyHashState]
    simp only [locals_eq_update_rounds _ _ _ hn]
  · intro h
    simp only [spec.update_rounds, h, ne_eq, not_true_eq_false, if_false, spec.full_rounds]
  · intro h
    simp only [spec.update_rounds, h, ne_eq, not_false_eq_true, if_true, spec.full_rounds,
      spec.remainder_round, spec.tail_bytes]

/-- Claim C22 on the 65 bytes of `kData`: two full-packet rounds and one
remainder round over the byte at the offset 64. -/
theorem update_round_sequence_witness :
    65 < 2 ^ 64 ∧ 65 % 32 ≠ 0 ∧
    UpdateHwyHashState (SimdHwyHash_Reset uninitialized kKey) kData 65 =
      StoreRegs Lanes
        (spec.update_rounds (LoadRegs Lanes (SimdHwyHash_Reset uninitialized kKey)) kData 65)
        (SimdHwyHash_Reset uninitialized kKey) :=
  ⟨by decide, by decide,
    (update_round_sequence (SimdHwyHash_Reset uninitialized kKey) kData 65 (by decide)).1⟩

/-! ## The permute-update round and the masked multiply -/

/-- Claim C23: for every state, one `PermuteAndUpdate` round, stored into the
state, is the result of the test's `PermuteAndUpdateHwyHashState`; it is one
full round whose packet is `[rot32(v0[2]), rot32(v0[3]), rot32(v0[0]),
rot32(v0[1])]`, `rot32(x) = (x >> 32) | (x << 32)`, taken from `v0` as it was
before the round; `rot32` swaps the 32-bit halves of each `u64`. -/
theorem permute_and_update_is_reference_round (state : SimdHwyHashState)
    (h : state.v0.lt64) :
    StoreRegs Lanes (PermuteAndUpdate (LoadRegs Lanes state)) state =
        test.PermuteAndUpdateHwyHashState state ∧
    PermuteAndUpdate (LoadRegs Lanes state) =
        DoHwyHashUpdate (LoadRegs Lanes state)
          ⟨spec.rot32 state.v0.a2, spec.rot32 state.v0.a3, spec.rot32 state.v0.a0,
           spec.rot32 state.v0.a1⟩ ∧
    test.PermuteAndUpdateHwyHashState state =
        test.UpdateHwyHashState state (spec.rot32 state.v0.a2) (spec.rot32 state.v0.a3)
          (spec.rot32 state.v0.a0) (spec.rot32 state.v0.a1) ∧
    spec.rot32 state.v0.a0 = (state.v0.a0 % 2 ^ 32) * 2 ^ 32 + state.v0.a0 / 2 ^ 32 ∧
    spec.rot32 state.v0.a1 = (state.v0.a1 % 2 ^ 32) * 2 ^ 32 + state.v0.a1 / 2 ^ 32 ∧
    spec.rot32 state.v0.a2 = (state.v0.a2 % 2 ^ 32) * 2 ^ 32 + state.v0.a2 / 2 ^ 32 ∧
    spec.rot32 state.v0.a3 = (state.v0.a3 % 2 ^ 32) * 2 ^ 32 + state.v0.a3 / 2 ^ 32 :=
  ⟨(PermuteAndUpdate_eq_test state).symm, rfl, rfl, rot32_swaps_halves _ h.1,
    rot32_swaps_halves _ h.2.1, rot32_swaps_halves _ h.2.2.1, rot32_swaps_halves _ h.2.2.2⟩

/-- Claim C23 on the state left by `Reset` with the key of the test. -/
theorem permute_and_update_is_reference_round_witness :
    (SimdHwyHash_Reset uninitialized kKey).v0.lt64 ∧
    StoreRegs Lanes (PermuteAndUpdate (LoadRegs Lanes (SimdHwyHash_Reset uninitialized kKey)))
        (SimdHwyHash_Reset uninitialized kKey) =
      test.PermuteAndUpdateHwyHashState (SimdHwyHash_Reset uninitialized kKey) :=
  ⟨⟨by decide, by decide, by decide, by decide⟩,
    (permute_and_update_is_reference_round (SimdHwyHash_Reset uninitialized kKey)
      ⟨by decide, by decide, by decide, by decide⟩).1⟩

theorem mul_low_high_exact (x y : Nat) (hy : y < 2 ^ 64) :
    Mul (And x 0xffffffff) (ShiftRight 32 y) = (x % 2 ^ 32) * (y / 2 ^ 32) := by
  rw [← hwy_mul_even_eq x y hy, Nat.shiftRight_eq_div_pow]
  congr 1
  omega

/-- Claim C24: for all `u64` lanes `x` and `y`, the masked multiply of the
scalar and EMU128 kernels, `(x & 0xffffffff) * (y >> 32)` modulo `2^64`, is the
lane of `MulEven` on the `u32` lanes of `x` and of `y` with each adjacent pair
of `u32` lanes of `y` reversed, and both are the full product of the low 32
bits of `x` and the high 32 bits of `y`, which is below `2^64`. -/
theorem masked_multiply_is_mul_even (x y : Vec4) (hy : y.lt64) :
    hwy.MulEven (hwy.BitCastU64ToU32 x) (hwy.Reverse2 (hwy.BitCastU64ToU32 y)) =
        ⟨Mul (And x.get0 0xffffffff) (ShiftRight 32 y.get0),
         Mul (And x.get1 0xffffffff) (ShiftRight 32 y.get1),
         Mul (And x.get2 0xffffffff) (ShiftRight 32 y.get2),
         Mul (And x.get3 0xffffffff) (ShiftRight 32 y.get3)⟩ ∧
    hwy.MulEven (hwy.BitCastU64ToU32 x) (hwy.Reverse2 (hwy.BitCastU64ToU32 y)) =
        ⟨(x.get0 % 2 ^ 32) * (y.get0 / 2 ^ 32), (x.get1 % 2 ^ 32) * (y.get1 / 2 ^ 32),
         (x.get2 % 2 ^ 32) * (y.get2 / 2 ^ 32), (x.get3 % 2 ^ 32) * (y.get3 / 2 ^ 32)⟩ ∧
    (hwy.MulEven (hwy.BitCastU64ToU32 x) (hwy.Reverse2 (hwy.BitCastU64ToU32 y))).lt64 := by
  have e := hwy_MulEven_eq x y hy
  refine ⟨e, ?_, ?_⟩
  · rw [e, mul_low_high_exact _ _ hy.1, mul_low_high_exact _ _ hy.2.1,
      mul_low_high_exact _ _ hy.2.2.1, mul_low_high_exact _ _ hy.2.2.2]
  · rw [e]
    exact ⟨Nat.mod_lt _ (by norm_num), Nat.mod_lt _ (by norm_num), Nat.mod_lt _ (by norm_num),
      Nat.mod_lt _ (by norm_num)⟩

/-- Claim C24 on lanes with all bits set and with distinct halves. -/
theorem masked_multiply_is_mul_even_witness :
    (Vec4.mk 0xffffffffffffffff 0x123456789abcdef0 0 0x100000000).lt64 ∧
    hwy.MulEven (hwy.BitCastU64ToU32 ⟨0xffffffffffffffff, 0x0fedcba987654321, 5, 7⟩)
        (hwy.Reverse2
          (hwy.BitCastU64ToU32 ⟨0xffffffffffffffff, 0x123456789abcdef0, 0, 0x100000000⟩)) =
      ⟨Mul (And 0xffffffffffffffff 0xffffffff) (ShiftRight 32 0xffffffffffffffff),
       Mul (And 0x0fedcba987654321 0xffffffff) (ShiftRight 32 0x123456789abcdef0),
       Mul (And 5 0xffffffff) (ShiftRight 32 0),
       Mul (And 7 0xffffffff) (ShiftRight 32 0x100000000)⟩ :=
  ⟨⟨by decide, by decide, by decide, by decide⟩,
    (masked_multiply_is_mul_even ⟨0xffffffffffffffff, 0x0fedcba987654321, 5, 7⟩
      ⟨0xffffffffffffffff, 0x123456789abcdef0, 0, 0x100000000⟩
      ⟨by decide, by decide, by decide, by decide⟩).1⟩

/-! ## The finalizers leave the state alone -/

/-- Claim C25: `Finalize64`, `Finalize128` and `Finalize256` never write to
the state: all sixteen words of `s` are the same after the call as before; the
values they produce are those of the functions of the kernel; so the same
finalizer called twice returns the same digest, and a finalizer called after
any other one returns the digest taken from a fresh copy of the state. -/
theorem finalize_leaves_state (s : SimdHwyHashState) :
    ((Finalize64.call s).1 = s ∧ (Finalize128.call s).1 = s ∧ (Finalize256.call s).1 = s) ∧
    ((Finalize64.call s).2 = SimdHwyHash_Finalize64 s ∧
      (Finalize128.call s).2 = SimdHwyHash_Finalize128 s ∧
      (Finalize256.call s).2 = SimdHwyHash_Finalize256 s) ∧
    ((Finalize64.call (Finalize64.call s).1).2 = (Finalize64.call s).2 ∧
      (Finalize128.call (Finalize128.call s).1).2 = (Finalize128.call s).2 ∧
      (Finalize256.call (Finalize256.call s).1).2 = (Finalize256.call s).2) ∧
    ((Finalize128.call (Finalize64.call s).1).2 = (Finalize128.call s).2 ∧
      (Finalize256.call (Finalize64.call s).1).2 = (Finalize256.call s).2 ∧
      (Finalize64.call (Finalize128.call s).1).2 = (Finalize64.call s).2 ∧
      (Finalize256.call (Finalize128.call s).1).2 = (Finalize256.call s).2 ∧
      (Finalize64.call (Finalize256.call s).1).2 = (Finalize64.call s).2 ∧
      (Finalize128.call (Finalize256.call s).1).2 = (Finalize128.call s).2) ∧
    (Finalize256.call (Finalize128.call (Finalize64.call s).1).1).2 = (Finalize256.call s).2 ∧
    (Finalize64.call (Finalize128.call (Finalize256.call s).1).1).2 = (Finalize64.call s).2 :=
  ⟨⟨rfl, rfl, rfl⟩, ⟨rfl, rfl, rfl⟩, ⟨rfl, rfl, rfl⟩, ⟨rfl, rfl, rfl, rfl, rfl, rfl⟩, rfl, rfl⟩

/-! ## The shift counts of the scalar rotate -/

theorem vu64_len_x4_halves (r : Nat) :
    GetLowerAtLeast2LaneVec (UpdateHwyHashState.vu64_len_x4 r) =
        ⟨((r <<< 32) % 2 ^ 64) ||| r, ((r <<< 32) % 2 ^ 64) ||| r⟩ ∧
    GetUpperAtLeast2LaneVec (UpdateHwyHashState.vu64_len_x4 r) =
        ⟨((r <<< 32) % 2 ^ 64) ||| r, ((r <<< 32) % 2 ^ 64) ||| r⟩ :=
  ⟨rfl, rfl⟩

/-- Claim C30: `Update` calls the scalar rotate only under
`remainder_len != 0`, with both halves of `vu64_len_x4` as the count vector
`b`; the rotate computes each 32-bit half with the counts `shl_amt` and
`shr_amt`.  In each such call `shl_amt` is the remainder length, between 1 and
31, `shr_amt = (-shl_amt) & 31` is `32 - shl_amt`, between 1 and 31, and
`(a << shl_amt) | (a >> shr_amt)` truncated to 32 bits is `a` rotated left by
`shl_amt`: its bit `i` is bit `i - shl_amt` modulo 32 of `a`. -/
theorem rotate_shift_counts (byte_len : Nat) (h : byte_len &&& 31 ≠ 0) (b : Vec2)
    (hb : b = GetLowerAtLeast2LaneVec (UpdateHwyHashState.vu64_len_x4 (byte_len &&& 31)) ∨
      b = GetUpperAtLeast2LaneVec (UpdateHwyHashState.vu64_len_x4 (byte_len &&& 31))) :
    (∀ q : Regs Vec4,
      UpdateHwyHashState.mixLength q (byte_len &&& 31) =
        { q with
          v0 := AtLeast4LaneU64VecAdd q.v0 (UpdateHwyHashState.vu64_len_x4 (byte_len &&& 31))
          v1 := AtLeast4LaneU64VecRol32 q.v1
            (UpdateHwyHashState.vu64_len_x4 (byte_len &&& 31)) }) ∧
    (∀ a : Vec2,
      AtLeast2LaneU64VecRolU32 a b =
        Create2
          (((AtLeast2LaneU64VecRolU32.rot ((a.get0 >>> 32) % 2 ^ 32)
                (AtLeast2LaneU64VecRolU32.shl_amt b) (AtLeast2LaneU64VecRolU32.shr_amt b)
              <<< 32) % 2 ^ 64) |||
            AtLeast2LaneU64VecRolU32.rot (a.get0 % 2 ^ 32)
              (AtLeast2LaneU64VecRolU32.shl_amt b) (AtLeast2LaneU64VecRolU32.shr_amt b))
          (((AtLeast2LaneU64VecRolU32.rot ((a.get1 >>> 32) % 2 ^ 32)
                (AtLeast2LaneU64VecRolU32.shl_amt b) (AtLeast2LaneU64VecRolU32.shr_amt b)
              <<< 32) % 2 ^ 64) |||
            AtLeast2LaneU64VecRolU32.rot (a.get1 % 2 ^ 32)
              (AtLeast2LaneU64VecRolU32.shl_amt b) (AtLeast2LaneU64VecRolU32.shr_amt b))) ∧
    AtLeast2LaneU64VecRolU32.shl_amt b = byte_len % 32 ∧
    (1 ≤ AtLeast2LaneU64VecRolU32.shl_amt b ∧ AtLeast2LaneU64VecRolU32.shl_amt b ≤ 31) ∧
    AtLeast2LaneU64VecRolU32.shr_amt b = 32 - AtLeast2LaneU64VecRolU32.shl_amt b ∧
    (1 ≤ AtLeast2LaneU64VecRolU32.shr_amt b ∧ AtLeast2LaneU64VecRolU32.shr_amt b ≤ 31) ∧
    ∀ a, a < 2 ^ 32 →
      AtLeast2LaneU64VecRolU32.rot a (AtLeast2LaneU64VecRolU32.shl_amt b)
          (AtLeast2LaneU64VecRolU32.shr_amt b) =
        spec.rotl32 a (AtLeast2LaneU64VecRolU32.shl_amt b) ∧
      ∀ i, i < 32 →
        (AtLeast2LaneU64VecRolU32.rot a (AtLeast2LaneU64VecRolU32.shl_amt b)
            (AtLeast2LaneU64VecRolU32.shr_amt b)).testBit i =
          a.testBit ((i + 32 - AtLeast2LaneU64VecRolU32.shl_amt b) % 32) := by
  have hr := and_31 byte_len
  rw [hr] at h hb
  have h1 : 1 ≤ byte_len % 32 := by omega
  have h31 : byte_len % 32 ≤ 31 := by omega
  have hb2 : b = ⟨(((byte_len % 32) <<< 32) % 2 ^ 64) ||| (byte_len % 32),
      (((byte_len % 32) <<< 32) % 2 ^ 64) ||| (byte_len % 32)⟩ := by
    rcases hb with hb | hb
    · rw [hb, (vu64_len_x4_halves _).1]
    · rw [hb, (vu64_len_x4_halves _).2]
  have hshl : AtLeast2LaneU64VecRolU32.shl_amt b = byte_len % 32 := by
    rw [hb2, AtLeast2LaneU64VecRolU32.shl_amt]
    exact shl_amt_eq _ h31
  have hshr : AtLeast2LaneU64VecRolU32.shr_amt b = 32 - byte_len % 32 := by
    rw [AtLeast2LaneU64VecRolU32.shr_amt, hshl]
    exact shr_amt_eq _ h1 h31
  refine ⟨fun q => rfl, fun a => rfl, hshl, ?_, ?_, ?_, ?_⟩
  · rw [hshl]; exact ⟨h1, h31⟩
  · rw [hshr, hshl]
  · rw [hshr]; omega
  · intro a ha
    have e : AtLeast2LaneU64VecRolU32.rot a (AtLeast2LaneU64VecRolU32.shl_amt b)
        (AtLeast2LaneU64VecRolU32.shr_amt b) = spec.rotl32 a (byte_len % 32) := by
      rw [hshl, hshr, AtLeast2LaneU64VecRolU32.rot]
      exact rol_u32 a _ ha h1 h31
    refine ⟨by rw [e, hshl], ?_⟩
    intro i hi
    rw [e, hshl]
    exact rotl32_testBit a _ i ha h1 h31 hi

/-- Claim C30 on an input of 65 bytes: the remainder length is 1, the counts
are 1 and 31, and `0x80000001` rotated left by one bit is `3`. -/
theorem rotate_shift_counts_witness :
    65 &&& 31 ≠ 0 ∧
    AtLeast2LaneU64VecRolU32.shl_amt
        (GetLowerAtLeast2LaneVec (UpdateHwyHashState.vu64_len_x4 (65 &&& 31))) = 1 ∧
    AtLeast2LaneU64VecRolU32.shr_amt
        (GetLowerAtLeast2LaneVec (UpdateHwyHashState.vu64_len_x4 (65 &&& 31))) = 31 ∧
    AtLeast2LaneU64VecRolU32.rot 0x80000001 1 31 = 3 ∧
    AtLeast2LaneU64VecRolU32.rot 0x80000001
        (AtLeast2LaneU64VecRolU32.shl_amt
          (GetLowerAtLeast2LaneVec (UpdateHwyHashState.vu64_len_x4 (65 &&& 31))))
        (AtLeast2LaneU64VecRolU32.shr_amt
          (GetLowerAtLeast2LaneVec (UpdateHwyHashState.vu64_len_x4 (65 &&& 31)))) =
      spec.rotl32 0x80000001
        (AtLeast2LaneU64VecRolU32.shl_amt
          (GetLowerAtLeast2LaneVec (UpdateHwyHashState.vu64_len_x4 (65 &&& 31)))) :=
  ⟨by decide, by decide, by decide, by decide,
    ((rotate_shift_counts 65 (by decide)
      (GetLowerAtLeast2LaneVec (UpdateHwyHashState.vu64_len_x4 (65 &&& 31)))
      (Or.inl rfl)).2.2.2.2.2.2 0x80000001 (by decide)).1⟩

/-! ## The remainder packet keeps every byte of the tail -/

/-- Every byte of a tail of `r` bytes is found in the buffer of the remainder
packet at its position. -/
theorem packet_bytes_position (src : List Nat) (r i : Nat) (h31 : r ≤ 31) (hi : i < r) :
    (LoadRemainderPacket.packet_bytes src r).getD (spec.packet_position r i) 0 =
      src.getD i 0 := by
  by_cases h16 : 16 ≤ r
  · rw [packet_bytes_getD_ge16 src r _ h16 h31, spec.packet_position]
    by_cases h4 : i < 4 * (r / 4)
    · rw [if_pos h4, if_neg (by omega), if_pos h4]
    · rw [if_neg h4, if_pos h16, if_pos (by omega)]
      congr 1
      omega
  · have h15 : r ≤ 15 := by omega
    rw [packet_bytes_getD_lt16 src r _ h15, spec.packet_position]
    by_cases h4 : i < 4 * (r / 4)
    · rw [if_pos h4, if_pos h4]
    · rw [if_neg h4, if_neg h16, if_neg (by omega)]
      have ht : r % 4 ≠ 0 := by omega
      by_cases e0 : i = 4 * (r / 4)
      · rw [if_pos ⟨ht, by omega⟩, e0]
      · rw [if_neg (by omega)]
        by_cases e1 : i = 4 * (r / 4) + 1
        · rw [if_pos ⟨ht, by omega⟩]
          congr 1
          omega
        · rw [if_neg (by omega), if_pos ⟨ht, by omega⟩]
          congr 1
          omega

theorem packet_position_lt (r i : Nat) (h31 : r ≤ 31) (hi : i < r) :
    spec.packet_position r i < 32 := by
  rw [spec.packet_position]
  split
  · omega
  · split <;> omega

/-- Two tails of `r` bytes with the same buffer of the remainder packet are
the same. -/
theorem packet_bytes_injective (r : Nat) (h31 : r ≤ 31) (src src2 : List Nat)
    (hl : src.length = r) (hl2 : src2.length = r)
    (h : LoadRemainderPacket.packet_bytes src r = LoadRemainderPacket.packet_bytes src2 r) :
    src = src2 := by
  apply ext_getD _ _ (by rw [hl, hl2])
  intro i hi
  rw [hl] at hi
  rw [← packet_bytes_position src r i h31 hi, ← packet_bytes_position src2 r i h31 hi, h]

/-- The bytes of the buffer of the remainder packet are bytes when those of
the source are. -/
theorem packet_bytes_lt_256 (src : List Nat) (r : Nat) (h31 : r ≤ 31)
    (hb : ∀ b ∈ src, b < 256) : ∀ b ∈ LoadRemainderPacket.packet_bytes src r, b < 256 := by
  intro b hm
  obtain ⟨n, hn, e⟩ := List.getElem_of_mem hm
  have e2 : (LoadRemainderPacket.packet_bytes src r).getD n 0 = b := by
    rw [List.getD_eq_getElem _ _ hn, e]
  have S := getD_lt_256 src hb
  rw [← e2]
  by_cases h16 : 16 ≤ r
  · rw [packet_bytes_getD_ge16 src r _ h16 h31]
    split
    · exact S _
    · split
      · exact S _
      · norm_num
  · rw [packet_bytes_getD_lt16 src r _ (by omega)]
    split
    · exact S _
    · split
      · exact S _
      · split
        · exact S _
        · split
          · exact S _
          · norm_num

/-- Claim C28: for every remainder length `r ≤ 31`, so for `1 ≤ r ≤ 31`, every source
byte `src[i]`, `i < r`, is found unchanged in the 32-byte buffer of the
remainder packet at a position below 32 that depends on `r` and `i` only, so
two different tails of `r` bytes give different buffers, and different
packets of four lanes when the bytes are below 256. -/
theorem remainder_packet_injective (r : Nat) (h31 : r ≤ 31) (src src2 : List Nat)
    (hl : src.length = r) (hl2 : src2.length = r) :
    (∀ i, i < r →
      spec.packet_position r i < 32 ∧
      (LoadRemainderPacket.packet_bytes src r).getD (spec.packet_position r i) 0 =
        src.getD i 0) ∧
    (src ≠ src2 →
      LoadRemainderPacket.packet_bytes src r ≠ LoadRemainderPacket.packet_bytes src2 r) ∧
    ((∀ b ∈ src, b < 256) → (∀ b ∈ src2, b < 256) → src ≠ src2 →
      LoadRemainderPacket Lanes src r ≠ LoadRemainderPacket Lanes src2 r) := by
  refine ⟨fun i hi => ⟨packet_position_lt r i h31 hi, packet_bytes_position src r i h31 hi⟩,
    fun hne h => hne (packet_bytes_injective r h31 src src2 hl hl2 h), ?_⟩
  intro hb hb2 hne h
  apply hne
  apply packet_bytes_injective r h31 src src2 hl hl2
  exact LoadAtLeast4LanePacketVec_injective _ _ (packet_bytes_length _ _)
    (packet_bytes_length _ _) (packet_bytes_lt_256 _ _ h31 hb2) (packet_bytes_lt_256 _ _ h31 hb)
    h

/-- Claim C28 on the tails `[1, 2, 3, 4, 5]` and `[1, 2, 3, 4, 6]`, which
differ in the byte that the packet holds at the positions 16, 17 and 18. -/
theorem remainder_packet_injective_witness :
    LoadRemainderPacket Lanes [1, 2, 3, 4, 5] 5 ≠ LoadRemainderPacket Lanes [1, 2, 3, 4, 6] 5 :=
  (remainder_packet_injective 5 (by decide) [1, 2, 3, 4, 5] [1, 2, 3, 4, 6] rfl rfl).2.2 (by decide) (by decide) (by decide)

/-! ## The accesses of the remainder packet -/

/-- A copy whose source and destination ranges lie inside the objects passes
every check and is the unchecked copy. -/
theorem CopyBytes_checked_eq (src : List Nat) (soff : Nat) (dst : List Nat) (doff n : Nat)
    (hs : soff + n ≤ src.length) (hd : doff + n ≤ dst.length) :
    CopyBytes.checked src soff dst doff n = some (CopyBytes (src.drop soff) dst doff n) := by
  induction n with
  | zero => rfl
  | succ n ih =>
    rw [CopyBytes.checked, ih (by omega) (by omega)]
    simp only [CopyBytes, CopyBytes_length, getD_drop]
    rw [if_pos ⟨by omega, by omega⟩]

theorem AssignByte_checked_eq (dst : List Nat) (i : Nat) (src : List Nat) (j : Nat)
    (hj : j < src.length) (hi : i < dst.length) :
    AssignByte.checked dst i src j = some (dst.set i (src.getD j 0)) := by
  rw [AssignByte.checked, if_pos ⟨hj, hi⟩]

/-- On a source of exactly `r` bytes, `1 ≤ r ≤ 31`, the remainder packet
passes every check. -/
theorem packet_bytes_checked_eq (r : Nat) (h1 : 1 ≤ r) (h31 : r ≤ 31) (ptr : List Nat)
    (hl : ptr.length = r) :
    LoadRemainderPacket.packet_bytes_checked ptr r =
      some (LoadRemainderPacket.packet_bytes ptr r) := by
  have hu : 4 * (r / 4) ≤ r := by omega
  have c1 := CopyBytes_checked_eq ptr 0 (ZeroBytes 32) 0 (4 * (r / 4)) (by omega)
    (by rw [ZeroBytes_length]; omega)
  rw [List.drop_zero] at c1
  rw [LoadRemainderPacket.packet_bytes_checked, LoadRemainderPacket.packet_bytes]
  simp only [and_not_3 r h31, and_3, c1]
  by_cases h16 : r ≥ 16
  · have c2 := CopyBytes_checked_eq ptr (r - 4) (ZeroBytes 4) 0 4 (by omega)
      (by rw [ZeroBytes_length])
    have c3 := CopyBytes_checked_eq (CopyBytes (ptr.drop (r - 4)) (ZeroBytes 4) 0 4) 0
      (CopyBytes ptr (ZeroBytes 32) 0 (4 * (r / 4))) (32 - 4) 4
      (by rw [CopyBytes_length, ZeroBytes_length])
      (by rw [CopyBytes_length, ZeroBytes_length])
    rw [List.drop_zero] at c3
    rw [if_pos h16, if_pos h16, if_neg (by omega)]
    simp only [c2, c3]
  · rw [if_neg h16, if_neg h16]
    by_cases ht : r % 4 ≠ 0
    · rw [if_pos ht, if_pos ht]
      have a1 := AssignByte_checked_eq (CopyBytes ptr (ZeroBytes 32) 0 (4 * (r / 4))) 16 ptr
        (4 * (r / 4)) (by omega) (by rw [CopyBytes_length, ZeroBytes_length]; omega)
      have a2 := AssignByte_checked_eq
        ((CopyBytes ptr (ZeroBytes 32) 0 (4 * (r / 4))).set 16 (ptr.getD (4 * (r / 4)) 0)) 17 ptr
        (4 * (r / 4) + (r % 4) >>> 1)
        (by rw [Nat.shiftRight_eq_div_pow]; omega)
        (by rw [List.length_set, CopyBytes_length, ZeroBytes_length]; omega)
      have a3 := AssignByte_checked_eq
        (((CopyBytes ptr (ZeroBytes 32) 0 (4 * (r / 4))).set 16 (ptr.getD (4 * (r / 4)) 0)).set 17
          (ptr.getD (4 * (r / 4) + (r % 4) >>> 1) 0)) 18 ptr
        (4 * (r / 4) + r % 4 - 1) (by omega)
        (by rw [List.length_set, List.length_set, CopyBytes_length, ZeroBytes_length]; omega)
      simp only [a1, a2]
      rw [if_neg (by omega), a3]
    · rw [if_neg ht, if_neg ht]

/-- The pointer that `UpdateHwyHashState` passes to `LoadRemainderPacket` on
an input of exactly `n` bytes has exactly `n % 32` bytes left. -/
theorem loop_ptr_length (q : Regs Vec4) (data : List Nat) (n : Nat) (hn : n < 2 ^ 64)
    (hd : data.length = n) :
    (UpdateHwyHashState.loop Lanes ((n &&& (2 ^ 64 - 32)) / 32) q data).2.length = n % 32 := by
  rw [full32_count n hn, loop_eq_full_rounds, List.length_drop, hd]
  omega

/-- Claim C29: for every remainder length `r` with `1 ≤ r ≤ 31` and a source
of exactly `r` bytes, `LoadRemainderPacket` with every access checked does not
fail and gives the packet of the unchecked function: the prefix copy reads the
indices below `r & ~3`, at most `r`; for `r ≥ 16` the trailing copy reads
`r - 4 .. r - 1` with `4 ≤ r` and writes `28 .. 31`; for `r < 16` the three
single reads use `r4`, `r4 + (t >> 1)` and `r4 + t - 1`, all at most `r - 1`;
and in `UpdateHwyHashState`, on an input of exactly `n` bytes, the pointer
passed has exactly `n & 31` bytes left. -/
theorem remainder_packet_accesses_in_bounds (r : Nat) (h1 : 1 ≤ r) (h31 : r ≤ 31)
    (ptr : List Nat) (hl : ptr.length = r) :
    LoadRemainderPacket.packet_bytes_checked ptr r =
        some (LoadRemainderPacket.packet_bytes ptr r) ∧
    ((r &&& 0xfffffffc) ≤ r ∧ (r &&& 0xfffffffc) ≤ 32) ∧
    (16 ≤ r → 4 ≤ r ∧ r - 4 + 4 ≤ r ∧ 32 - 4 + 4 ≤ 32) ∧
    (r < 16 → r &&& 3 ≠ 0 →
      (r &&& 0xfffffffc) ≤ r - 1 ∧ (r &&& 0xfffffffc) + ((r &&& 3) >>> 1) ≤ r - 1 ∧
      1 ≤ (r &&& 0xfffffffc) + (r &&& 3) ∧ (r &&& 0xfffffffc) + (r &&& 3) - 1 ≤ r - 1) ∧
    (∀ (q : Regs Vec4) (data : List Nat) (n : Nat), n < 2 ^ 64 → data.length = n →
      n &&& 31 = r →
      (UpdateHwyHashState.loop Lanes ((n &&& (2 ^ 64 - 32)) / 32) q data).2.length = r ∧
      LoadRemainderPacket.packet_bytes_checked
          (UpdateHwyHashState.loop Lanes ((n &&& (2 ^ 64 - 32)) / 32) q data).2 r =
        some (LoadRemainderPacket.packet_bytes
          (UpdateHwyHashState.loop Lanes ((n &&& (2 ^ 64 - 32)) / 32) q data).2 r)) := by
  refine ⟨packet_bytes_checked_eq r h1 h31 ptr hl, ?_, ?_, ?_, ?_⟩
  · rw [and_not_3 r h31]; omega
  · intro h16; omega
  · intro h16 ht
    rw [and_not_3 r h31, and_3, Nat.shiftRight_eq_div_pow] at *
    omega
  · intro q data n hn hd hr
    rw [and_31] at hr
    have e := loop_ptr_length q data n hn hd
    rw [hr] at e
    exact ⟨e, packet_bytes_checked_eq r h1 h31 _ e⟩

/-- Claim C29 on the 5-byte tail `[1, 2, 3, 4, 5]`; with one byte less in the
source the checked function fails. -/
theorem remainder_packet_accesses_in_bounds_witness :
    LoadRemainderPacket.packet_bytes_checked [1, 2, 3, 4, 5] 5 =
        some (LoadRemainderPacket.packet_bytes [1, 2, 3, 4, 5] 5) ∧
    LoadRemainderPacket.packet_bytes_checked [1, 2, 3, 4] 5 = none :=
  ⟨(remainder_packet_accesses_in_bounds 5 (by decide) (by decide) [1, 2, 3, 4, 5] rfl).1,
    by decide⟩

/-! ## The round is a bijection -/

theorem lanewise_sub64_add64 (x y : Vec4) (hx : x.lt64) :
    spec.lanewise spec.sub64 (spec.lanewise spec.add64 x y) y = x := by
  obtain ⟨h0, h1, h2, h3⟩ := hx
  obtain ⟨x0, x1, x2, x3⟩ := x
  simp only [spec.lanewise, spec.sub64, spec.add64, Vec4.mk.injEq] at *
  omega

theorem lanewise_add64_sub64 (x y : Vec4) (hx : x.lt64) :
    spec.lanewise spec.add64 (spec.lanewise spec.sub64 x y) y = x := by
  obtain ⟨h0, h1, h2, h3⟩ := hx
  obtain ⟨x0, x1, x2, x3⟩ := x
  simp only [spec.lanewise, spec.sub64, spec.add64, Vec4.mk.injEq] at *
  omega

theorem lanewise_xor_xor (m p : Vec4) :
    spec.lanewise Nat.xor (spec.lanewise Nat.xor m p) p = m := by
  obtain ⟨m0, m1, m2, m3⟩ := m
  have e : ∀ a b : Nat, Nat.xor (Nat.xor a b) b = a := fun a b => Nat.xor_cancel_right b a
  simp only [spec.lanewise, e]

theorem lanewise_add64_lt64 (x y : Vec4) : (spec.lanewise spec.add64 x y).lt64 :=
  ⟨Nat.mod_lt _ (by norm_num), Nat.mod_lt _ (by norm_num), Nat.mod_lt _ (by norm_num),
    Nat.mod_lt _ (by norm_num)⟩

theorem lanewise_sub64_lt64 (x y : Vec4) : (spec.lanewise spec.sub64 x y).lt64 :=
  ⟨Nat.mod_lt _ (by norm_num), Nat.mod_lt _ (by norm_num), Nat.mod_lt _ (by norm_num),
    Nat.mod_lt _ (by norm_num)⟩

theorem lanewise_xor_mul_lt64 (m x y : Vec4) (hm : m.lt64) :
    (spec.lanewise Nat.xor m (spec.lanewise spec.mul_low_high x y)).lt64 := by
  have p : ∀ a b : Nat, spec.mul_low_high a b < 2 ^ 64 := fun a b => Nat.mod_lt _ (by norm_num)
  exact ⟨Nat.xor_lt_two_pow hm.1 (p _ _), Nat.xor_lt_two_pow hm.2.1 (p _ _),
    Nat.xor_lt_two_pow hm.2.2.1 (p _ _), Nat.xor_lt_two_pow hm.2.2.2 (p _ _)⟩

/-- Undoing the six steps after a round gives back registers whose `v0` and
`v1` are below `2^64`. -/
theorem round_inverse_round (r : Regs Vec4) (A : Vec4) (h0 : r.v0.lt64) (h1 : r.v1.lt64) :
    spec.round_inverse (spec.round r A) A = r := by
  obtain ⟨v0, v1, mul0, mul1⟩ := r
  simp only [spec.round, spec.round_inverse]
  simp only [lanewise_sub64_add64 _ _ (lanewise_add64_lt64 _ _), lanewise_xor_xor,
    lanewise_sub64_add64 _ _ h0, lanewise_sub64_add64 _ _ h1]

/-- A round after the six steps undone gives back registers whose `v0` and
`v1` are below `2^64`. -/
theorem round_round_inverse (t : Regs Vec4) (A : Vec4) (h0 : t.v0.lt64) (h1 : t.v1.lt64) :
    spec.round (spec.round_inverse t A) A = t := by
  obtain ⟨v0, v1, mul0, mul1⟩ := t
  simp only [spec.round, spec.round_inverse]
  simp only [lanewise_add64_sub64 _ _ (lanewise_sub64_lt64 _ _), lanewise_xor_xor,
    lanewise_add64_sub64 _ _ h0, lanewise_add64_sub64 _ _ h1]

theorem round_lt64 (r : Regs Vec4) (A : Vec4) (hr : r.lt64) : (spec.round r A).lt64 :=
  ⟨lanewise_add64_lt64 _ _, lanewise_add64_lt64 _ _, lanewise_xor_mul_lt64 _ _ _ hr.2.2.1,
    lanewise_xor_mul_lt64 _ _ _ hr.2.2.2⟩

theorem round_inverse_lt64 (t : Regs Vec4) (A : Vec4) (ht : t.lt64) :
    (spec.round_inverse t A).lt64 :=
  ⟨lanewise_sub64_lt64 _ _, lanewise_sub64_lt64 _ _, lanewise_xor_mul_lt64 _ _ _ ht.2.2.1,
    lanewise_xor_mul_lt64 _ _ _ ht.2.2.2⟩

/-- Claim C26: for every fixed packet `A`, one round `DoHwyHashUpdate` is a
bijection on the registers of sixteen `u64` words: it maps them to sixteen
`u64` words, two different registers never map to the same ones, and every
`t` has the preimage obtained by undoing the six steps in reverse order, which
also undoes the round. -/
theorem round_is_bijection (A : Vec4) (r r2 t : Regs Vec4) (hr : r.lt64) (hr2 : r2.lt64)
    (ht : t.lt64) :
    (DoHwyHashUpdate r A).lt64 ∧
    spec.round_inverse (DoHwyHashUpdate r A) A = r ∧
    (r ≠ r2 → DoHwyHashUpdate r A ≠ DoHwyHashUpdate r2 A) ∧
    (spec.round_inverse t A).lt64 ∧
    DoHwyHashUpdate (spec.round_inverse t A) A = t := by
  simp only [DoHwyHashUpdate_eq_round]
  refine ⟨round_lt64 r A hr, round_inverse_round r A hr.1 hr.2.1, ?_,
    round_inverse_lt64 t A ht, round_round_inverse t A ht.1 ht.2.1⟩
  intro hne h
  apply hne
  rw [← round_inverse_round r A hr.1 hr.2.1, ← round_inverse_round r2 A hr2.1 hr2.2.1, h]

set_option maxRecDepth 100000 in
/-- Claim C26 on the registers left by `Reset` with the key of the test and
the first packet of `kData`. -/
theorem round_is_bijection_witness :
    (LoadRegs Lanes (SimdHwyHash_Reset uninitialized kKey)).lt64 ∧
    spec.round_inverse
        (DoHwyHashUpdate (LoadRegs Lanes (SimdHwyHash_Reset uninitialized kKey))
          (LoadAtLeast4LanePacketVec Lanes kData))
        (LoadAtLeast4LanePacketVec Lanes kData) =
      LoadRegs Lanes (SimdHwyHash_Reset uninitialized kKey) ∧
    DoHwyHashUpdate
        (spec.round_inverse (LoadRegs Lanes (SimdHwyHash_Reset uninitialized kKey))
          (LoadAtLeast4LanePacketVec Lanes kData))
        (LoadAtLeast4LanePacketVec Lanes kData) =
      LoadRegs Lanes (SimdHwyHash_Reset uninitialized kKey) :=
  ⟨by decide,
    (round_is_bijection (LoadAtLeast4LanePacketVec Lanes kData)
      (LoadRegs Lanes (SimdHwyHash_Reset uninitialized kKey))
      (LoadRegs Lanes (SimdHwyHash_Reset uninitialized kKey))
      (LoadRegs Lanes (SimdHwyHash_Reset uninitialized kKey))
      (by decide) (by decide) (by decide)).2.1,
    (round_is_bijection (LoadAtLeast4LanePacketVec Lanes kData)
      (LoadRegs Lanes (SimdHwyHash_Reset uninitialized kKey))
      (LoadRegs Lanes (SimdHwyHash_Reset uninitialized kKey))
      (LoadRegs Lanes (SimdHwyHash_Reset uninitialized kKey))
      (by decide) (by decide) (by decide)).2.2.2.2⟩

/-! ## `Update` is injective in a short input -/

theorem LoadAtLeast4LanePacketVec_lt64 (p : List Nat) (hb : ∀ b ∈ p, b < 256) :
    (LoadAtLeast4LanePacketVec Lanes p).lt64 := by
  have P := getD_lt_256 p hb
  rw [LoadAtLeast4LanePacketVec_eq]
  simp only [Vec4.lt64]
  refine ⟨?_, ?_, ?_, ?_⟩
  · have := P 0; have := P 1; have := P 2; have := P 3
    have := P 4; have := P 5; have := P 6; have := P 7
    omega
  · have := P 8; have := P 9; have := P 10; have := P 11
    have := P 12; have := P 13; have := P 14; have := P 15
    omega
  · have := P 16; have := P 17; have := P 18; have := P 19
    have := P 20; have := P 21; have := P 22; have := P 23
    omega
  · have := P 24; have := P 25; have := P 26; have := P 27
    have := P 28; have := P 29; have := P 30; have := P 31
    omega

theorem lanewise_add64_cancel (v m A B : Vec4) (hA : A.lt64) (hB : B.lt64)
    (h : spec.lanewise spec.add64 v (spec.lanewise spec.add64 m A) =
      spec.lanewise spec.add64 v (spec.lanewise spec.add64 m B)) : A = B := by
  obtain ⟨a0, a1, a2, a3⟩ := A
  obtain ⟨b0, b1, b2, b3⟩ := B
  obtain ⟨h0, h1, h2, h3⟩ := hA
  obtain ⟨k0, k1, k2, k3⟩ := hB
  simp only [spec.lanewise, spec.add64, Vec4.mk.injEq] at *
  omega

/-- For fixed registers the round is injective in the packet. -/
theorem round_injective_in_packet (q : Regs Vec4) (A B : Vec4) (hA : A.lt64) (hB : B.lt64)
    (h : DoHwyHashUpdate q A = DoHwyHashUpdate q B) : A = B := by
  rw [DoHwyHashUpdate_eq_round, DoHwyHashUpdate_eq_round] at h
  have h0 : (spec.round q A).v0 = (spec.round q B).v0 := by rw [h]
  have h1 : (spec.round q A).v1 = (spec.round q B).v1 := by rw [h]
  have e : ∀ C : Vec4,
      spec.lanewise spec.sub64 (spec.round q C).v1 (spec.zipper_merge (spec.round q C).v0) =
        spec.lanewise spec.add64 q.v1 (spec.lanewise spec.add64 q.mul0 C) := fun C =>
    lanewise_sub64_add64 _ _ (lanewise_add64_lt64 _ _)
  apply lanewise_add64_cancel q.v1 q.mul0 A B hA hB
  rw [← e A, ← e B, h0, h1]

theorem StoreRegs_injective (r q : Regs Vec4) (s : SimdHwyHashState)
    (h : StoreRegs Lanes r s = StoreRegs Lanes q s) : r = q := by
  rw [← LoadRegs_StoreRegs r s, ← LoadRegs_StoreRegs q s, h]

theorem locals_one_packet (r : Regs Vec4) (X : List Nat) :
    UpdateHwyHashState.locals Lanes r X 32 =
      DoHwyHashUpdate r (LoadAtLeast4LanePacketVec Lanes X) := by
  rfl

theorem locals_short (r : Regs Vec4) (X : List Nat) (n : Nat) (h1 : 1 ≤ n) (h31 : n ≤ 31) :
    UpdateHwyHashState.locals Lanes r X n =
      DoHwyHashUpdate (UpdateHwyHashState.mixLength r n) (LoadRemainderPacket Lanes X n) := by
  have hn : n < 2 ^ 64 := by omega
  have h0 : n / 32 = 0 := by omega
  have hm : n % 32 = n := by omega
  have hne : n ≠ 0 := by omega
  simp only [UpdateHwyHashState.locals, full32_count n hn, and_31, h0, hm,
    UpdateHwyHashState.loop, ne_eq, hne, not_false_eq_true, if_true]

/-- Claim C27: for every state `s` and every length `n` with `1 ≤ n ≤ 32`,
`Update` is injective in the input bytes: byte strings `X ≠ Y` of the same
length `n` leave different states. -/
theorem update_injective_in_input (s : SimdHwyHashState) (n : Nat) (h1 : 1 ≤ n) (h32 : n ≤ 32)
    (X Y : List Nat) (hX : X.length = n) (hY : Y.length = n) (hbX : ∀ b ∈ X, b < 256)
    (hbY : ∀ b ∈ Y, b < 256) (hne : X ≠ Y) :
    SimdHwyHash_Update s X n ≠ SimdHwyHash_Update s Y n := by
  intro h
  apply hne
  have h2 := StoreRegs_injective _ _ _ h
  by_cases e32 : n = 32
  · subst e32
    rw [locals_one_packet, locals_one_packet] at h2
    have h3 := round_injective_in_packet _ _ _ (LoadAtLeast4LanePacketVec_lt64 X hbX)
      (LoadAtLeast4LanePacketVec_lt64 Y hbY) h2
    exact LoadAtLeast4LanePacketVec_injective Y X hY hX hbY hbX h3
  · have h31 : n ≤ 31 := by omega
    rw [locals_short _ X n h1 h31, locals_short _ Y n h1 h31] at h2
    have h3 := round_injective_in_packet _ _ _
      (LoadAtLeast4LanePacketVec_lt64 _ (packet_bytes_lt_256 X n h31 hbX))
      (LoadAtLeast4LanePacketVec_lt64 _ (packet_bytes_lt_256 Y n h31 hbY)) h2
    apply packet_bytes_injective n h31 X Y hX hY
    exact LoadAtLeast4LanePacketVec_injective _ _ (packet_bytes_length _ _)
      (packet_bytes_length _ _) (packet_bytes_lt_256 Y n h31 hbY)
      (packet_bytes_lt_256 X n h31 hbX) h3

/-- Claim C27 on two inputs of two bytes that differ in the last byte, from
the state left by `Reset` with the key of the test. -/
theorem update_injective_in_input_witness :
    SimdHwyHash_Update (SimdHwyHash_Reset uninitialized kKey) [7, 8] 2 ≠
      SimdHwyHash_Update (SimdHwyHash_Reset uninitialized kKey) [7, 9] 2 :=
  update_injective_in_input (SimdHwyHash_Reset uninitialized kKey) 2 (by decide) (by decide)
    [7, 8] [7, 9] rfl rfl (by decide) (by decide) (by decide)

/-! ## The product of the round does not wrap -/

/-- Claim C31: for all `u64` lanes `x` and `y`, the wrapping product
`Mul(And(x, 0xffffffff), ShiftRight<32>(y))` of the round never wraps: the
exact product of its operands is `(x mod 2^32) * floor(y / 2^32)`, at most
`(2^32 - 1)^2 < 2^64`, so the values XORed into `mul0` and `mul1` by
`HwyHashUpdateStep1` are exact products. -/
theorem round_product_exact (x y : Nat) (r : Regs Nat) (a : Nat) (hy : y < 2 ^ 64)
    (h0 : r.v0 < 2 ^ 64) :
    And x 0xffffffff * ShiftRight 32 y = (x % 2 ^ 32) * (y / 2 ^ 32) ∧
    And x 0xffffffff * ShiftRight 32 y ≤ (2 ^ 32 - 1) ^ 2 ∧
    (2 ^ 32 - 1) ^ 2 < 2 ^ 64 ∧
    Mul (And x 0xffffffff) (ShiftRight 32 y) = (x % 2 ^ 32) * (y / 2 ^ 32) ∧
    (HwyHashUpdateStep1 r a).mul0 =
      r.mul0 ^^^ ((HwyHashUpdateStep1 r a).v1 % 2 ^ 32) * (r.v0 / 2 ^ 32) ∧
    (HwyHashUpdateStep1 r a).mul1 =
      r.mul1 ^^^
        ((HwyHashUpdateStep1 r a).v0 % 2 ^ 32) * ((HwyHashUpdateStep1 r a).v1 / 2 ^ 32) := by
  have hm : And x 0xffffffff = x % 2 ^ 32 := by
    rw [And, show (0xffffffff : Nat) = 2 ^ 32 - 1 from rfl, Nat.and_pow_two_sub_one_eq_mod]
  have hs : ShiftRight 32 y = y / 2 ^ 32 := by rw [ShiftRight, Nat.shiftRight_eq_div_pow]
  have hx : x % 2 ^ 32 ≤ 2 ^ 32 - 1 := by omega
  have hq : y / 2 ^ 32 ≤ 2 ^ 32 - 1 := by omega
  have hv1 : (HwyHashUpdateStep1 r a).v1 < 2 ^ 64 := Nat.mod_lt _ (by norm_num)
  refine ⟨by rw [hm, hs], ?_, by norm_num, mul_low_high_exact x y hy, ?_, ?_⟩
  · rw [hm, hs, pow_two]
    exact Nat.mul_le_mul hx hq
  · rw [← mul_low_high_exact _ _ h0]
    rfl
  · rw [← mul_low_high_exact _ _ hv1]
    rfl

/-- Claim C31 on the largest operands: `0xffffffff * 0xffffffff` is the exact
product. -/
theorem round_product_exact_witness :
    Mul (And 0xffffffffffffffff 0xffffffff) (ShiftRight 32 0xffffffffffffffff) =
      (0xffffffffffffffff % 2 ^ 32) * (0xffffffffffffffff / 2 ^ 32) :=
  (round_product_exact 0xffffffffffffffff 0xffffffffffffffff ⟨0, 0, 0, 0⟩ 0 (by decide)
    (by decide)).2.2.2.1

/-! ## The top bits dropped by the modular reduction -/

/-- Claim C33: the modular reduction does not depend on the two most
significant bits of the lanes 1 and 3 of `a23`: for `a23` and `b23` that agree
in the lanes 0 and 2 and in the low 62 bits of the lanes 1 and 3,
`ModularReduction(a01, a23) = ModularReduction(a01, b23)`. -/
theorem modular_reduction_ignores_top_bits (a01 a23 b23 : Vec4) (h0 : a23.get0 = b23.get0)
    (h2 : a23.get2 = b23.get2) (h1 : a23.get1 % 2 ^ 62 = b23.get1 % 2 ^ 62)
    (h3 : a23.get3 % 2 ^ 62 = b23.get3 % 2 ^ 62) :
    ModularReduction a01 a23 = ModularReduction a01 b23 := by
  have e : ∀ z : Nat, z &&& 0x3FFFFFFFFFFFFFFF = z % 2 ^ 62 := fun z => by
    rw [show (0x3FFFFFFFFFFFFFFF : Nat) = 2 ^ 62 - 1 from rfl, Nat.and_pow_two_sub_one_eq_mod]
  rw [ModularReduction_eq, ModularReduction_eq]
  simp only [e, h0, h1, h2, h3]

/-- Claim C33 on two vectors that differ in the bits 62 and 63 of the lanes 1
and 3 only. -/
theorem modular_reduction_ignores_top_bits_witness :
    ModularReduction ⟨1, 2, 3, 4⟩ ⟨5, 0xC000000000000006, 7, 0x8000000000000008⟩ =
      ModularReduction ⟨1, 2, 3, 4⟩ ⟨5, 6, 7, 0x4000000000000008⟩ :=
  modular_reduction_ignores_top_bits ⟨1, 2, 3, 4⟩ ⟨5, 0xC000000000000006, 7, 0x8000000000000008⟩
    ⟨5, 6, 7, 0x4000000000000008⟩ rfl rfl (by decide) (by decide)

/-! ## The permutation is an involution -/

theorem RotateRight_32_involutive (x : Nat) (hx : x < 2 ^ 64) :
    RotateRight 32 (RotateRight 32 x) = x ∧ RotateRight 32 x < 2 ^ 64 := by
  have e : ∀ z, RotateRight 32 z = spec.rot32 z := fun z => rfl
  have h1 := rot32_swaps_halves x hx
  have hy : spec.rot32 x < 2 ^ 64 := by rw [h1]; omega
  have h2 := rot32_swaps_halves _ hy
  rw [e, e, h2]
  refine ⟨?_, hy⟩
  rw [h1]
  omega

theorem PermuteV0_involutive (v : Vec4) (hv : v.lt64) :
    PermuteV0 (PermuteV0 v) = v ∧ (PermuteV0 v).lt64 := by
  obtain ⟨v0, v1, v2, v3⟩ := v
  obtain ⟨h0, h1, h2, h3⟩ := hv
  simp only at h0 h1 h2 h3
  simp only [PermuteV0, Create4, Vec4.lt64, (RotateRight_32_involutive _ h0).1,
    (RotateRight_32_involutive _ h1).1, (RotateRight_32_involutive _ h2).1,
    (RotateRight_32_involutive _ h3).1, (RotateRight_32_involutive _ h0).2,
    (RotateRight_32_involutive _ h1).2, (RotateRight_32_involutive _ h2).2,
    (RotateRight_32_involutive _ h3).2, and_self]

/-- Claim C34: `PermuteV0` is an involution on vectors of four `u64` lanes:
`PermuteV0(PermuteV0(v)) = v`; it maps such vectors to such vectors, so it is
injective and every `v` is the image of `PermuteV0(v)`; the same holds for
the `PermuteV0` of the 256-bit kernel. -/
theorem permute_is_involution (v w : Vec4) (hv : v.lt64) (hw : w.lt64) :
    PermuteV0 (PermuteV0 v) = v ∧
    (PermuteV0 v).lt64 ∧
    (PermuteV0 v = PermuteV0 w → v = w) ∧
    (∃ u : Vec4, u.lt64 ∧ PermuteV0 u = v) ∧
    N_AVX2.PermuteV0 (N_AVX2.PermuteV0 v) = v := by
  have hi := PermuteV0_involutive v hv
  refine ⟨hi.1, hi.2, ?_, ⟨PermuteV0 v, hi.2, hi.1⟩, ?_⟩
  · intro h
    rw [← hi.1, ← (PermuteV0_involutive w hw).1, h]
  · rw [hwy_PermuteV0_eq v hv, hwy_PermuteV0_eq _ hi.2, hi.1]

/-- Claim C34 on a vector of four different lanes. -/
theorem permute_is_involution_witness :
    PermuteV0
        (PermuteV0 ⟨0x0123456789abcdef, 0xfedcba9876543210, 0xffffffff00000000, 1⟩) =
      ⟨0x0123456789abcdef, 0xfedcba9876543210, 0xffffffff00000000, 1⟩ :=
  (permute_is_involution ⟨0x0123456789abcdef, 0xfedcba9876543210, 0xffffffff00000000, 1⟩
    ⟨0, 0, 0, 0⟩ (by decide) (by decide)).1

/-! ## The key is recovered from the reset state -/

/-- Claim C35: for every key `K` and whatever the state held before, the
state `s` left by `Reset(K)` has `s.v0[i] xor s.mul0[i] = K[i]` for each lane
`i` in `0..3`, so two different keys give different states. -/
theorem reset_injective_in_key (s0 s1 : SimdHwyHashState) (K K2 : U64x4) :
    ((SimdHwyHash_Reset s0 K).v0.get 0 ^^^ (SimdHwyHash_Reset s0 K).mul0.get 0 = K.get 0 ∧
      (SimdHwyHash_Reset s0 K).v0.get 1 ^^^ (SimdHwyHash_Reset s0 K).mul0.get 1 = K.get 1 ∧
      (SimdHwyHash_Reset s0 K).v0.get 2 ^^^ (SimdHwyHash_Reset s0 K).mul0.get 2 = K.get 2 ∧
      (SimdHwyHash_Reset s0 K).v0.get 3 ^^^ (SimdHwyHash_Reset s0 K).mul0.get 3 = K.get 3) ∧
    (K ≠ K2 → SimdHwyHash_Reset s0 K ≠ SimdHwyHash_Reset s1 K2) := by
  have c : ∀ k m : Nat, (k ^^^ m) ^^^ m = k := fun k m => Nat.xor_cancel_right m k
  have e : ∀ (s : SimdHwyHashState) (L : U64x4),
      (SimdHwyHash_Reset s L).v0.get 0 ^^^ (SimdHwyHash_Reset s L).mul0.get 0 = L.a0 ∧
      (SimdHwyHash_Reset s L).v0.get 1 ^^^ (SimdHwyHash_Reset s L).mul0.get 1 = L.a1 ∧
      (SimdHwyHash_Reset s L).v0.get 2 ^^^ (SimdHwyHash_Reset s L).mul0.get 2 = L.a2 ∧
      (SimdHwyHash_Reset s L).v0.get 3 ^^^ (SimdHwyHash_Reset s L).mul0.get 3 = L.a3 := by
    intro s L
    rw [SimdHwyHash_Reset, ResetHwyHashState_eq]
    exact ⟨c _ _, c _ _, c _ _, c _ _⟩
  refine ⟨e s0 K, ?_⟩
  intro hne h
  apply hne
  obtain ⟨a0, a1, a2, a3⟩ := e s0 K
  obtain ⟨b0, b1, b2, b3⟩ := e s1 K2
  rw [h] at a0 a1 a2 a3
  obtain ⟨k0, k1, k2, k3⟩ := K
  obtain ⟨l0, l1, l2, l3⟩ := K2
  simp only at a0 a1 a2 a3 b0 b1 b2 b3
  rw [U64x4.mk.injEq]
  exact ⟨a0.symm.trans b0, a1.symm.trans b1, a2.symm.trans b2, a3.symm.trans b3⟩

/-- Claim C35 on the key of the test and the key `1, 2, 3, 4`, from different
prior states. -/
theorem reset_injective_in_key_witness :
    SimdHwyHash_Reset uninitialized kKey ≠
      SimdHwyHash_Reset (SimdHwyHash_Reset uninitialized kKey) kKey1234 :=
  (reset_injective_in_key uninitialized (SimdHwyHash_Reset uninitialized kKey) kKey
    kKey1234).2 (by decide)

/-! ## The modular reduction is linear -/

theorem shiftLeft_mod_xor (x y k : Nat) :
    ((x ^^^ y) <<< k) % 2 ^ 64 = ((x <<< k) % 2 ^ 64) ^^^ ((y <<< k) % 2 ^ 64) := by
  apply Nat.eq_of_testBit_eq
  intro i
  simp only [Nat.testBit_mod_two_pow, Nat.testBit_xor, Nat.testBit_shiftLeft]
  by_cases h1 : i < 64 <;> by_cases h2 : k ≤ i <;> simp [h1, h2]

theorem shiftRight_xor (x y k : Nat) : (x ^^^ y) >>> k = (x >>> k) ^^^ (y >>> k) := by
  apply Nat.eq_of_testBit_eq
  intro i
  simp only [Nat.testBit_xor, Nat.testBit_shiftRight]

theorem and_xor_mask (x y m : Nat) : (x ^^^ y) &&& m = (x &&& m) ^^^ (y &&& m) := by
  apply Nat.eq_of_testBit_eq
  intro i
  simp only [Nat.testBit_xor, Nat.testBit_and]
  cases x.testBit i <;> cases y.testBit i <;> cases m.testBit i <;> rfl

/-- The operands of an OR of the modular reduction have no set bit in common,
so the OR is an XOR. -/
theorem shifted_or_carry (z w k : Nat) (hk : k ≤ 64) (hw : w < 2 ^ 64) :
    ((z <<< k) % 2 ^ 64) &&& (w >>> (64 - k)) = 0 ∧
    ((z <<< k) % 2 ^ 64) ||| (w >>> (64 - k)) = ((z <<< k) % 2 ^ 64) ^^^ (w >>> (64 - k)) := by
  have hd : ∀ i, (((z <<< k) % 2 ^ 64).testBit i && (w >>> (64 - k)).testBit i) = false := by
    intro i
    simp only [Nat.testBit_mod_two_pow, Nat.testBit_shiftLeft, Nat.testBit_shiftRight]
    by_cases h2 : k ≤ i
    · have hw2 : w.testBit (64 - k + i) = false :=
        Nat.testBit_lt_two_pow
          (Nat.lt_of_lt_of_le hw (Nat.pow_le_pow_right (by norm_num) (by omega)))
      simp [hw2]
    · simp [h2]
  constructor
  · apply Nat.eq_of_testBit_eq
    intro i
    rw [Nat.testBit_and, hd i, Nat.zero_testBit]
  · apply Nat.eq_of_testBit_eq
    intro i
    have h := hd i
    rw [Nat.testBit_or, Nat.testBit_xor]
    cases h1 : ((z <<< k) % 2 ^ 64).testBit i <;> cases h2 : (w >>> (64 - k)).testBit i <;>
      simp_all

/-- An odd lane of the modular reduction as an XOR of five terms. -/
theorem modular_reduction_odd_lane (a1 a3 a2 : Nat) (h2 : a2 < 2 ^ 64) :
    a1 ^^^ ((((a3 &&& 0x3FFFFFFFFFFFFFFF) <<< 1) % 2 ^ 64) ||| (a2 >>> 63)) ^^^
        ((((a3 &&& 0x3FFFFFFFFFFFFFFF) <<< 2) % 2 ^ 64) ||| (a2 >>> 62)) =
      a1 ^^^ ((((a3 &&& 0x3FFFFFFFFFFFFFFF) <<< 1) % 2 ^ 64) ^^^ (a2 >>> 63)) ^^^
        ((((a3 &&& 0x3FFFFFFFFFFFFFFF) <<< 2) % 2 ^ 64) ^^^ (a2 >>> 62)) := by
  have e1 := (shifted_or_carry (a3 &&& 0x3FFFFFFFFFFFFFFF) a2 1 (by norm_num) h2).2
  have e2 := (shifted_or_carry (a3 &&& 0x3FFFFFFFFFFFFFFF) a2 2 (by norm_num) h2).2
  simp only [Nat.reduceSub] at e1 e2
  rw [e1, e2]

theorem xor5_regroup (a b c d e p q s t u : Nat) :
    (a ^^^ p) ^^^ ((b ^^^ q) ^^^ (c ^^^ s)) ^^^ ((d ^^^ t) ^^^ (e ^^^ u)) =
      (a ^^^ (b ^^^ c) ^^^ (d ^^^ e)) ^^^ (p ^^^ (q ^^^ s) ^^^ (t ^^^ u)) := by
  ac_rfl

/-- Claim C32: `ModularReduction` is linear over GF(2) on vectors of `u64`
lanes: `ModularReduction(a01 xor b01, a23 xor b23)` is the lane by lane XOR of
`ModularReduction(a01, a23)` and `ModularReduction(b01, b23)`, and
`ModularReduction(0, 0) = 0`; the two operands of each OR have no set bit in
common, so each OR acts as XOR. -/
theorem modular_reduction_linear (a01 a23 b01 b23 : Vec4) (ha : a23.lt64) (hb : b23.lt64) :
    ModularReduction (hwy.Xor a01 b01) (hwy.Xor a23 b23) =
        hwy.Xor (ModularReduction a01 a23) (ModularReduction b01 b23) ∧
    ModularReduction ⟨0, 0, 0, 0⟩ ⟨0, 0, 0, 0⟩ = ⟨0, 0, 0, 0⟩ ∧
    ((((a23.get1 &&& 0x3FFFFFFFFFFFFFFF) <<< 1) % 2 ^ 64) &&& (a23.get0 >>> 63) = 0 ∧
      (((a23.get1 &&& 0x3FFFFFFFFFFFFFFF) <<< 2) % 2 ^ 64) &&& (a23.get0 >>> 62) = 0 ∧
      (((a23.get3 &&& 0x3FFFFFFFFFFFFFFF) <<< 1) % 2 ^ 64) &&& (a23.get2 >>> 63) = 0 ∧
      (((a23.get3 &&& 0x3FFFFFFFFFFFFFFF) <<< 2) % 2 ^ 64) &&& (a23.get2 >>> 62) = 0) := by
  obtain ⟨a0, a1, a2, a3⟩ := ha
  obtain ⟨b0, b1, b2, b3⟩ := hb
  have x0 : a23.get0 ^^^ b23.get0 < 2 ^ 64 := Nat.xor_lt_two_pow a0 b0
  have x2 : a23.get2 ^^^ b23.get2 < 2 ^ 64 := Nat.xor_lt_two_pow a2 b2
  refine ⟨?_, by decide, ?_⟩
  · simp only [ModularReduction_eq, hwy.Xor, Vec4.mk.injEq]
    refine ⟨?_, ?_, ?_, ?_⟩
    · simp only [shiftLeft_mod_xor]
      generalize a01.get0 = p
      generalize b01.get0 = q
      generalize (a23.get0 <<< 1) % 2 ^ 64 = s
      generalize (b23.get0 <<< 1) % 2 ^ 64 = t
      generalize (a23.get0 <<< 2) % 2 ^ 64 = u
      generalize (b23.get0 <<< 2) % 2 ^ 64 = v
      ac_rfl
    · rw [modular_reduction_odd_lane _ _ _ x0, modular_reduction_odd_lane _ _ _ a0,
        modular_reduction_odd_lane _ _ _ b0]
      simp only [and_xor_mask, shiftLeft_mod_xor, shiftRight_xor]
      exact xor5_regroup _ _ _ _ _ _ _ _ _ _
    · simp only [shiftLeft_mod_xor]
      generalize a01.get2 = p
      generalize b01.get2 = q
      generalize (a23.get2 <<< 1) % 2 ^ 64 = s
      generalize (b23.get2 <<< 1) % 2 ^ 64 = t
      generalize (a23.get2 <<< 2) % 2 ^ 64 = u
      generalize (b23.get2 <<< 2) % 2 ^ 64 = v
      ac_rfl
    · rw [modular_reduction_odd_lane _ _ _ x2, modular_reduction_odd_lane _ _ _ a2,
        modular_reduction_odd_lane _ _ _ b2]
      simp only [and_xor_mask, shiftLeft_mod_xor, shiftRight_xor]
      exact xor5_regroup _ _ _ _ _ _ _ _ _ _
  · have c := fun z w k hk hw => (shifted_or_carry z w k hk hw).1
    have c1 := c (a23.get1 &&& 0x3FFFFFFFFFFFFFFF) a23.get0 1 (by norm_num) a0
    have c2 := c (a23.get1 &&& 0x3FFFFFFFFFFFFFFF) a23.get0 2 (by norm_num) a0
    have c3 := c (a23.get3 &&& 0x3FFFFFFFFFFFFFFF) a23.get2 1 (by norm_num) a2
    have c4 := c (a23.get3 &&& 0x3FFFFFFFFFFFFFFF) a23.get2 2 (by norm_num) a2
    simp only [Nat.reduceSub] at c1 c2 c3 c4
    exact ⟨c1, c2, c3, c4⟩

/-- Claim C32 on vectors whose lanes 0 and 2 of `a23` carry into the lanes 1
and 3. -/
theorem modular_reduction_linear_witness :
    ModularReduction (hwy.Xor ⟨1, 2, 3, 4⟩ ⟨5, 6, 7, 8⟩)
        (hwy.Xor ⟨0xC000000000000001, 0xffffffffffffffff, 0x8000000000000000, 9⟩
          ⟨0x4000000000000000, 0x1fffffffffffffff, 0xffffffffffffffff, 10⟩) =
      hwy.Xor
        (ModularReduction ⟨1, 2, 3, 4⟩
          ⟨0xC000000000000001, 0xffffffffffffffff, 0x8000000000000000, 9⟩)
        (ModularReduction ⟨5, 6, 7, 8⟩
          ⟨0x4000000000000000, 0x1fffffffffffffff, 0xffffffffffffffff, 10⟩) :=
  (modular_reduction_linear ⟨1, 2, 3, 4⟩
    ⟨0xC000000000000001, 0xffffffffffffffff, 0x8000000000000000, 9⟩ ⟨5, 6, 7, 8⟩
    ⟨0x4000000000000000, 0x1fffffffffffffff, 0xffffffffffffffff, 10⟩ (by decide)
    (by decide)).1

/-! ## The remainder packet of the vector kernels -/

theorem Combine128_eq_load (wlo whi P : List Nat)
    (hlo : ∀ k, k < 4 → wlo.getD k 0 =
      P.getD (4 * k) 0 + P.getD (4 * k + 1) 0 * 2 ^ 8 + P.getD (4 * k + 2) 0 * 2 ^ 16 +
        P.getD (4 * k + 3) 0 * 2 ^ 24)
    (hhi : ∀ k, k < 4 → whi.getD k 0 =
      P.getD (16 + 4 * k) 0 + P.getD (16 + 4 * k + 1) 0 * 2 ^ 8 +
        P.getD (16 + 4 * k + 2) 0 * 2 ^ 16 + P.getD (16 + 4 * k + 3) 0 * 2 ^ 24) :
    N_SSE4.CombineToAtLeast4LaneVec (hwy.BitCastU32x4ToU64 wlo) (hwy.BitCastU32x4ToU64 whi) =
      LoadAtLeast4LanePacketVec Lanes P := by
  have l0 := hlo 0 (by norm_num)
  have l1 := hlo 1 (by norm_num)
  have l2 := hlo 2 (by norm_num)
  have l3 := hlo 3 (by norm_num)
  have u0 := hhi 0 (by norm_num)
  have u1 := hhi 1 (by norm_num)
  have u2 := hhi 2 (by norm_num)
  have u3 := hhi 3 (by norm_num)
  simp only [Nat.reduceMul, Nat.reduceAdd] at l0 l1 l2 l3 u0 u1 u2 u3
  rw [LoadAtLeast4LanePacketVec_eq, N_SSE4.CombineToAtLeast4LaneVec, hwy.BitCastU32x4ToU64,
    hwy.BitCastU32x4ToU64, l0, l1, l2, l3, u0, u1, u2, u3]
  congr 1 <;> ring

theorem BitCastU8x16ToU32_getD (f : Nat → Nat) (k : Nat) (hk : k < 4) :
    (hwy.BitCastU8x16ToU32 ((List.range 16).map f)).getD k 0 =
      f (4 * k) + f (4 * k + 1) * 2 ^ 8 + f (4 * k + 2) * 2 ^ 16 + f (4 * k + 3) * 2 ^ 24 := by
  interval_cases k <;> rfl

theorem BitCastU8x16ToU32_length (v : List Nat) : (hwy.BitCastU8x16ToU32 v).length = 4 := by
  simp [hwy.BitCastU8x16ToU32]

/-- The low vector of the 128-bit remainder packet holds the bytes 0 to 15 of
the scalar packet buffer. -/
theorem N_SSE4_low_lanes (ptr : List Nat) (r : Nat) (h31 : r ≤ 31) (k : Nat) (hk : k < 4) :
    (hwy.BitCastU8x16ToU32
        ((List.range 16).map fun i =>
          if i < min (4 * (r / 4)) (N_SSE4.Lanes * 8) then ptr.getD i 0 else 0)).getD k 0 =
      (LoadRemainderPacket.packet_bytes ptr r).getD (4 * k) 0 +
        (LoadRemainderPacket.packet_bytes ptr r).getD (4 * k + 1) 0 * 2 ^ 8 +
        (LoadRemainderPacket.packet_bytes ptr r).getD (4 * k + 2) 0 * 2 ^ 16 +
        (LoadRemainderPacket.packet_bytes ptr r).getD (4 * k + 3) 0 * 2 ^ 24 := by
  have hL : N_SSE4.Lanes * 8 = 16 := rfl
  rw [BitCastU8x16ToU32_getD _ k hk, hL]
  have key : ∀ i, i < 16 →
      (if i < min (4 * (r / 4)) 16 then ptr.getD i 0 else 0) =
        (LoadRemainderPacket.packet_bytes ptr r).getD i 0 := by
    intro i hi
    by_cases h16 : 16 ≤ r
    · have c1 : i < min (4 * (r / 4)) 16 := by omega
      have c2 : ¬ (28 ≤ i ∧ i < 32) := by omega
      have c3 : i < 4 * (r / 4) := by omega
      rw [packet_bytes_getD_ge16 ptr r i h16 h31, if_pos c1, if_neg c2, if_pos c3]
    · rw [packet_bytes_getD_lt16 ptr r i (by omega)]
      by_cases h4 : i < 4 * (r / 4)
      · have c1 : i < min (4 * (r / 4)) 16 := by omega
        rw [if_pos c1, if_pos h4]
      · have c1 : ¬ i < min (4 * (r / 4)) 16 := by omega
        have c2 : ¬ (r % 4 ≠ 0 ∧ i = 16) := by omega
        have c3 : ¬ (r % 4 ≠ 0 ∧ i = 17) := by omega
        have c4 : ¬ (r % 4 ≠ 0 ∧ i = 18) := by omega
        rw [if_neg c1, if_neg h4, if_neg c2, if_neg c3, if_neg c4]
  rw [key _ (by omega), key _ (by omega), key _ (by omega), key _ (by omega)]

/-- The high vector of the 128-bit remainder packet before `InsertLane` holds
the bytes of the prefix from the offset 16 on. -/
theorem N_SSE4_high_lanes (ptr : List Nat) (r : Nat) (k : Nat) (hk : k < 4) :
    (hwy.BitCastU8x16ToU32
        ((List.range 16).map fun i =>
          if i < 4 * (r / 4) - min (4 * (r / 4)) (N_SSE4.Lanes * 8) then
            (ptr.drop (min (4 * (r / 4)) (N_SSE4.Lanes * 8))).getD i 0
          else 0)).getD k 0 =
      (if 16 + 4 * k < 4 * (r / 4) then ptr.getD (16 + 4 * k) 0 else 0) +
        (if 16 + 4 * k + 1 < 4 * (r / 4) then ptr.getD (16 + 4 * k + 1) 0 else 0) * 2 ^ 8 +
        (if 16 + 4 * k + 2 < 4 * (r / 4) then ptr.getD (16 + 4 * k + 2) 0 else 0) * 2 ^ 16 +
        (if 16 + 4 * k + 3 < 4 * (r / 4) then ptr.getD (16 + 4 * k + 3) 0 else 0) * 2 ^ 24 := by
  have hL : N_SSE4.Lanes * 8 = 16 := rfl
  rw [BitCastU8x16ToU32_getD _ k hk, hL]
  have key : ∀ i,
      (if i < 4 * (r / 4) - min (4 * (r / 4)) 16 then
          (ptr.drop (min (4 * (r / 4)) 16)).getD i 0
        else 0) =
        if 16 + i < 4 * (r / 4) then ptr.getD (16 + i) 0 else 0 := by
    intro i
    by_cases h : 16 + i < 4 * (r / 4)
    · have c1 : i < 4 * (r / 4) - min (4 * (r / 4)) 16 := by omega
      have c2 : min (4 * (r / 4)) 16 = 16 := by omega
      rw [if_pos c1, if_pos h, c2, getD_drop]
    · have c1 : ¬ i < 4 * (r / 4) - min (4 * (r / 4)) 16 := by omega
      rw [if_neg c1, if_neg h]
  rw [key, key, key, key]
  simp only [Nat.add_assoc]

/-- The remainder packet of the 128-bit kernel is that of the scalar kernel. -/
theorem N_SSE4_LoadRemainderPacket_eq (ptr : List Nat) (r : Nat) (h31 : r ≤ 31)
    (hb : ∀ b ∈ ptr, b < 256) :
    N_SSE4.LoadRemainderPacket N_SSE4.Lanes ptr r = LoadRemainderPacket Lanes ptr r := by
  have B := getD_lt_256 ptr hb
  rw [LoadRemainderPacket]
  by_cases h16 : 16 ≤ r
  · have hge : r ≥ 16 := h16
    have e : N_SSE4.LoadRemainderPacket N_SSE4.Lanes ptr r =
        N_SSE4.CombineToAtLeast4LaneVec
          (hwy.BitCastU32x4ToU64
            (hwy.BitCastU8x16ToU32
              ((List.range 16).map fun i =>
                if i < min (4 * (r / 4)) (N_SSE4.Lanes * 8) then ptr.getD i 0 else 0)))
          (hwy.BitCastU32x4ToU64
            (hwy.InsertLane
              (hwy.BitCastU8x16ToU32
                ((List.range 16).map fun i =>
                  if i < 4 * (r / 4) - min (4 * (r / 4)) (N_SSE4.Lanes * 8) then
                    (ptr.drop (min (4 * (r / 4)) (N_SSE4.Lanes * 8))).getD i 0
                  else 0))
              3 (N_SSE4.LoadU32 (ptr.drop (r - 4))))) := by
      simp only [N_SSE4.LoadRemainderPacket, hge, if_true, hwy.LoadN_U8x16, and_not_3 r h31]
    rw [e]
    apply Combine128_eq_load _ _ _ (N_SSE4_low_lanes ptr r h31)
    intro k hk
    rw [hwy.InsertLane, getD_set, BitCastU8x16ToU32_length, N_SSE4_high_lanes ptr r k hk,
      packet_bytes_getD_ge16 ptr r _ h16 h31, packet_bytes_getD_ge16 ptr r _ h16 h31,
      packet_bytes_getD_ge16 ptr r _ h16 h31, packet_bytes_getD_ge16 ptr r _ h16 h31]
    by_cases h3 : k = 3
    · subst h3
      have c : 3 = 3 ∧ 3 < 4 := ⟨rfl, by norm_num⟩
      rw [if_pos c]
      simp only [N_SSE4.LoadU32, getD_drop]
      norm_num
    · have c : ¬ (3 = k ∧ k < 4) := by omega
      have n0 : ¬ (28 ≤ 16 + 4 * k ∧ 16 + 4 * k < 32) := by omega
      have n1 : ¬ (28 ≤ 16 + 4 * k + 1 ∧ 16 + 4 * k + 1 < 32) := by omega
      have n2 : ¬ (28 ≤ 16 + 4 * k + 2 ∧ 16 + 4 * k + 2 < 32) := by omega
      have n3 : ¬ (28 ≤ 16 + 4 * k + 3 ∧ 16 + 4 * k + 3 < 32) := by omega
      rw [if_neg c, if_neg n0, if_neg n1, if_neg n2, if_neg n3]
  · have hlt : ¬ r ≥ 16 := h16
    have h15 : r ≤ 15 := by omega
    have z0 : ∀ j, ¬ (16 + j < 4 * (r / 4)) := fun j => by omega
    by_cases ht : r % 4 = 0
    · have e : N_SSE4.LoadRemainderPacket N_SSE4.Lanes ptr r =
          N_SSE4.CombineToAtLeast4LaneVec
            (hwy.BitCastU32x4ToU64
              (hwy.BitCastU8x16ToU32
                ((List.range 16).map fun i =>
                  if i < min (4 * (r / 4)) (N_SSE4.Lanes * 8) then ptr.getD i 0 else 0)))
            (hwy.BitCastU32x4ToU64
              (hwy.BitCastU8x16ToU32
                ((List.range 16).map fun i =>
                  if i < 4 * (r / 4) - min (4 * (r / 4)) (N_SSE4.Lanes * 8) then
                    (ptr.drop (min (4 * (r / 4)) (N_SSE4.Lanes * 8))).getD i 0
                  else 0))) := by
        simp only [N_SSE4.LoadRemainderPacket, hlt, if_false, and_3, ht, ne_eq,
          not_true_eq_false, hwy.LoadN_U8x16, and_not_3 r h31]
      rw [e]
      apply Combine128_eq_load _ _ _ (N_SSE4_low_lanes ptr r h31)
      intro k hk
      have a16 : ∀ i, ¬ (r % 4 ≠ 0 ∧ i = 16) := fun i h => h.1 ht
      have a17 : ∀ i, ¬ (r % 4 ≠ 0 ∧ i = 17) := fun i h => h.1 ht
      have a18 : ∀ i, ¬ (r % 4 ≠ 0 ∧ i = 18) := fun i h => h.1 ht
      rw [N_SSE4_high_lanes ptr r k hk, packet_bytes_getD_lt16 ptr r _ h15,
        packet_bytes_getD_lt16 ptr r _ h15, packet_bytes_getD_lt16 ptr r _ h15,
        packet_bytes_getD_lt16 ptr r _ h15]
      simp only [a16, a17, a18, if_false]
    · have tne : r &&& 3 ≠ 0 := by rw [and_3]; exact ht
      have e : N_SSE4.LoadRemainderPacket N_SSE4.Lanes ptr r =
          N_SSE4.CombineToAtLeast4LaneVec
            (hwy.BitCastU32x4ToU64
              (hwy.BitCastU8x16ToU32
                ((List.range 16).map fun i =>
                  if i < min (4 * (r / 4)) (N_SSE4.Lanes * 8) then ptr.getD i 0 else 0)))
            (hwy.BitCastU32x4ToU64
              (hwy.InsertLane
                (hwy.BitCastU8x16ToU32
                  ((List.range 16).map fun i =>
                    if i < 4 * (r / 4) - min (4 * (r / 4)) (N_SSE4.Lanes * 8) then
                      (ptr.drop (min (4 * (r / 4)) (N_SSE4.Lanes * 8))).getD i 0
                    else 0))
                0 (ptr.getD (4 * (r / 4)) 0 |||
                    ((ptr.getD (4 * (r / 4) + ((r &&& 3) >>> 1)) 0 <<< 8) % 2 ^ 32) |||
                    ((ptr.getD (4 * (r / 4) + (r &&& 3) - 1) 0 <<< 16) % 2 ^ 32)))) := by
        simp only [N_SSE4.LoadRemainderPacket, hlt, if_false, tne, ne_eq, not_false_eq_true,
          if_true, hwy.LoadN_U8x16, and_not_3 r h31]
      rw [e, or3_bytes _ _ _ (B _) (B _) (B _)]
      apply Combine128_eq_load _ _ _ (N_SSE4_low_lanes ptr r h31)
      intro k hk
      rw [hwy.InsertLane, getD_set, BitCastU8x16ToU32_length, N_SSE4_high_lanes ptr r k hk,
        and_3, Nat.shiftRight_eq_div_pow, pow_one,
        packet_bytes_getD_lt16 ptr r _ h15, packet_bytes_getD_lt16 ptr r _ h15,
        packet_bytes_getD_lt16 ptr r _ h15, packet_bytes_getD_lt16 ptr r _ h15]
      by_cases h0 : k = 0
      · subst h0
        have c : 0 = 0 ∧ 0 < 4 := ⟨rfl, by norm_num⟩
        have z16 : ¬ (16 < 4 * (r / 4)) := by omega
        rw [if_pos c]
        simp only [Nat.mul_zero, Nat.add_zero, z0, z16, if_false]
        simp [ht, z16]
      · have c : ¬ (0 = k ∧ k < 4) := by omega
        have m0 : ¬ (r % 4 ≠ 0 ∧ 16 + 4 * k = 16) := by omega
        have m1 : ¬ (r % 4 ≠ 0 ∧ 16 + 4 * k + 1 = 16) := by omega
        have m2 : ¬ (r % 4 ≠ 0 ∧ 16 + 4 * k + 2 = 16) := by omega
        have m3 : ¬ (r % 4 ≠ 0 ∧ 16 + 4 * k + 3 = 16) := by omega
        have p0 : ¬ (r % 4 ≠ 0 ∧ 16 + 4 * k = 17) := by omega
        have p1 : ¬ (r % 4 ≠ 0 ∧ 16 + 4 * k + 1 = 17) := by omega
        have p2 : ¬ (r % 4 ≠ 0 ∧ 16 + 4 * k + 2 = 17) := by omega
        have p3 : ¬ (r % 4 ≠ 0 ∧ 16 + 4 * k + 3 = 17) := by omega
        have q0 : ¬ (r % 4 ≠ 0 ∧ 16 + 4 * k = 18) := by omega
        have q1 : ¬ (r % 4 ≠ 0 ∧ 16 + 4 * k + 1 = 18) := by omega
        have q2 : ¬ (r % 4 ≠ 0 ∧ 16 + 4 * k + 2 = 18) := by omega
        have q3 : ¬ (r % 4 ≠ 0 ∧ 16 + 4 * k + 3 = 18) := by omega
        have y0 : ¬ (16 + 4 * k < 4 * (r / 4)) := by omega
        have y1 : ¬ (16 + 4 * k + 1 < 4 * (r / 4)) := by omega
        have y2 : ¬ (16 + 4 * k + 2 < 4 * (r / 4)) := by omega
        have y3 : ¬ (16 + 4 * k + 3 < 4 * (r / 4)) := by omega
        rw [if_neg c]
        simp only [m0, m1, m2, m3, p0, p1, p2, p3, q0, q1, q2, q3, y0, y1, y2, y3, if_false]

/-- Claim C36: for every remainder length `r` with `1 ≤ r ≤ 31` and all
source bytes, the scalar construction of the remainder packet (zeroed 32-byte
buffer, prefix copy, then the trailing bytes), the vector construction with
one 32-byte `LoadN` (then `InsertLane` at the `u32` lane 7 or 4) and the
vector construction with the `LoadN` split at byte 16 into a low and a high
vector (then `InsertLane` at the `u32` lane 3 or 0 of the high vector) give
the same four `u64` lanes, the little-endian values of the bytes of the scalar
buffer. -/
theorem remainder_packet_constructions_agree (r : Nat) (h1 : 1 ≤ r) (h31 : r ≤ 31)
    (src : List Nat) (hb : ∀ b ∈ src, b < 256) :
    N_AVX2.LoadRemainderPacket N_AVX2.Lanes src r = LoadRemainderPacket Lanes src r ∧
    N_SSE4.LoadRemainderPacket N_SSE4.Lanes src r = LoadRemainderPacket Lanes src r ∧
    LoadRemainderPacket Lanes src r =
      ⟨LoadU64 (LoadRemainderPacket.packet_bytes src r),
       LoadU64 ((LoadRemainderPacket.packet_bytes src r).drop 8),
       LoadU64 ((LoadRemainderPacket.packet_bytes src r).drop 16),
       LoadU64 ((LoadRemainderPacket.packet_bytes src r).drop 24)⟩ := by
  refine ⟨N_AVX2_LoadRemainderPacket_eq src r h1 h31 hb,
    N_SSE4_LoadRemainderPacket_eq src r h31 hb, ?_⟩
  simp only [LoadRemainderPacket, LoadAtLeast4LanePacketVec, LoadAtLeast2LanePacketVec, Lanes,
    CombineToAtLeast4LaneVec, Create2, Create4, List.drop_drop]
  norm_num

/-- Claim C36 on tails of 21 and of 7 bytes of `kData`: the three
constructions give the same lanes. -/
theorem remainder_packet_constructions_agree_witness :
    (N_AVX2.LoadRemainderPacket N_AVX2.Lanes (kData.take 21) 21 =
        LoadRemainderPacket Lanes (kData.take 21) 21 ∧
      N_SSE4.LoadRemainderPacket N_SSE4.Lanes (kData.take 21) 21 =
        LoadRemainderPacket Lanes (kData.take 21) 21) ∧
    N_SSE4.LoadRemainderPacket N_SSE4.Lanes ((kData.drop 3).take 7) 7 =
      LoadRemainderPacket Lanes ((kData.drop 3).take 7) 7 ∧
    LoadRemainderPacket Lanes ((kData.drop 3).take 7) 7 = ⟨0x06050403, 0, 0x090807, 0⟩ :=
  ⟨⟨(remainder_packet_constructions_agree 21 (by decide) (by decide) (kData.take 21)
        (by decide)).1,
      (remainder_packet_constructions_agree 21 (by decide) (by decide) (kData.take 21)
        (by decide)).2.1⟩,
    (remainder_packet_constructions_agree 7 (by decide) (by decide) ((kData.drop 3).take 7)
      (by decide)).2.1,
    by decide⟩

end simdhwyhash
